import Mathlib

/-!
Path tokenizer, directory resolver and node lifecycle of tup
(`src/tup/create_name_file.c`): a shallow embedding of the C file, followed by the
properties proved about it.

Conventions of the embedding.

* A C string (`const char *`) is the `List Char` of its characters before the
  terminating NUL; the end of the list plays the role of the NUL byte.  A pointer
  into a string is the remainder of the list from the pointed-to character on.
* `tupid_t` and `int` are `Int`.  Nothing in this file does arithmetic on them
  that could overflow (only comparisons with `0` and `-1`).
* `malloc` is taken to succeed, so the `perror("malloc")` branches are not reachable.
* The intrusive `list_head` lists are Lean lists read from `head.next` forward.
* The node store (`db.h`) and `get_tup_top` (`config.h`) are not part of this
  source file; they enter as parameters.
-/

namespace Tup

/-! ## Data model -/

/-- The C `struct path_element`: `path` points into the tokenized string (it is the
remainder of that string from the first character of the segment on and is not
NUL-terminated at the end of the segment), `len` is the length of the segment. -/
structure path_element where
  path : List Char
  len : Nat
  deriving DecidableEq, Repr

/-- The characters of a segment: the `len` characters starting at `path`. -/
def path_element.text (pel : path_element) : List Char :=
  pel.path.take pel.len

/-- The C `struct pel_group`. -/
structure pel_group where
  path_list : List path_element
  is_root : Bool
  is_hidden : Bool
  deriving DecidableEq, Repr

/-- The segment texts of a group, first to last. -/
def pel_group.texts (pg : pel_group) : List (List Char) :=
  pg.path_list.map path_element.text

/-- The list primitive `list_add_tail(new, head)` of `list.h` (the kernel list API,
not part of this source file): links `new` right before the head, that is at the
end of the list. -/
def list_add_tail {α : Type} (new : α) (head : List α) : List α :=
  head ++ [new]

/-- The list primitive `list_add(new, head)` of `list.h` (the kernel list API, not
part of this source file): links `new` right after the head, that is at the front
of the list, ahead of every entry already there. -/
def list_add {α : Type} (new : α) (head : List α) : List α :=
  new :: head

/-! ## Path tokenizer: `get_path_elements` (lines 350-421) -/

/-- The inner loop `while(*p && *p == '/') p++;` (lines 366-368). -/
def skip_slashes : List Char → List Char
  | [] => []
  | c :: p => if c = '/' then skip_slashes p else c :: p

/-- The inner loop `while(*p && *p != '/') p++;` followed by `len = p - path`
(lines 372-375): the number of characters before the next `'/'` or the end. -/
def seg_len : List Char → Nat
  | [] => 0
  | c :: p => if c ≠ '/' then seg_len p + 1 else 0

/-- The `while(1)` loop of `get_path_elements` (lines 363-419).  `p` is the scan
pointer, `num_elements` and `path_list` are the loop-carried locals.  Every
iteration that does not leave the loop advances `p` by at least one character, so
the iteration bound `fuel` is never exhausted when it exceeds the length of `p`. -/
def gpe_loop (is_root : Bool) : Nat → List Char → Nat → List path_element → Int × pel_group
  | 0, _, _, path_list => (0, ⟨path_list, is_root, false⟩)
  | fuel + 1, p, num_elements, path_list =>
    match skip_slashes p with
    | [] => (0, ⟨path_list, is_root, false⟩)
    | c0 :: rest =>
      let path := c0 :: rest
      let len := seg_len path
      let p2 := path.drop len
      if c0 = '.' then
        if len = 1 then
          gpe_loop is_root fuel p2 num_elements path_list
        else if path.get? 1 = some '.' ∧ len = 2 then
          if num_elements ≠ 0 then
            gpe_loop is_root fuel p2 (num_elements - 1) path_list.dropLast
          else
            gpe_loop is_root fuel p2 num_elements (list_add_tail ⟨path, len⟩ path_list)
        else
          (0, ⟨[], is_root, true⟩)
      else
        gpe_loop is_root fuel p2 (num_elements + 1) (list_add_tail ⟨path, len⟩ path_list)

/-- The function `get_path_elements(dir, pg)`: the return code and the group
written through `pg`. -/
def get_path_elements (dir : List Char) : Int × pel_group :=
  gpe_loop (dir.head? = some '/') (dir.length + 1) dir 0 []

/-! ## Reference reduction of a path, stated independently of the scanner -/

/-- The `'/'`-separated segments of a path: split on `'/'` and drop the empty
pieces, which is splitting on runs of one or more `'/'`. -/
def segments (s : List Char) : List (List Char) :=
  (s.splitOn '/').filter (fun t => t ≠ [])

/-- The segment `.`. -/
def dot : List Char := ['.']

/-- The segment `..`. -/
def dotdot : List Char := ['.', '.']

/-- A hidden segment begins with `'.'` and is neither `.` nor `..`. -/
def hidden_seg (t : List Char) : Prop :=
  t.head? = some '.' ∧ t ≠ dot ∧ t ≠ dotdot

instance (t : List Char) : Decidable (hidden_seg t) := by
  unfold hidden_seg; infer_instance

/-- Remove the most recently kept (last) segment that is not `..`. -/
def remove_last_named (kept : List (List Char)) : List (List Char) :=
  (kept.reverse.eraseP (fun t => t ≠ dotdot)).reverse

/-- One step of the reference reduction: `.` is dropped; `..` removes the most
recently kept non-`..` segment if one is still kept and is otherwise appended;
every other segment is appended. -/
def reduce_step (kept : List (List Char)) (t : List Char) : List (List Char) :=
  if t = dot then kept
  else if t = dotdot then
    if ∃ u ∈ kept, u ≠ dotdot then remove_last_named kept else kept ++ [t]
  else kept ++ [t]

/-- The reference reduction of a path. -/
def reduce_path (s : List Char) : List (List Char) :=
  (segments s).foldl reduce_step []

/-! ## The node store interface (`db.h`) -/

/-- The C `struct db_node` filled in by the store's select operations. -/
structure db_node where
  tupid : Int
  dt : Int
  name : List Char
  type : Int
  sym : Int
  deriving DecidableEq, Repr

/-- The C `struct half_entry`: one record of the symlink log. -/
structure half_entry where
  tupid : Int
  dt : Int
  type : Int
  deriving DecidableEq, Repr

/-- The store operations and constants this file uses; they are declared in `db.h`
and `fileio.h` and defined outside this source file, so they are parameters of the
embedding.  `σ` is the state of the store.  Queries read the state; updates return
their return code together with the new state.  A return code below zero is a
failure.  A select operation that finds no row succeeds and leaves `tupid < 0` in the
node it fills in (this is how lines 94-96 and 139 read it). -/
structure Db (σ : Type) where
  VAR_DT : Int
  DOT_DT : Int
  TUP_NODE_FILE : Int
  TUP_NODE_CMD : Int
  TUP_NODE_DIR : Int
  TUP_NODE_VAR : Int
  TUP_NODE_GENERATED : Int
  TUP_FLAGS_MODIFY : Int
  TUP_FLAGS_DELETE : Int
  tup_db_select_node : σ → Int → List Char → Int
  tup_db_select_dbn : σ → Int → List Char → Int × db_node
  tup_db_select_dbn_by_id : σ → Int → Int × db_node
  tup_db_select_dbn_part : σ → Int → List Char → Int × db_node
  tup_db_parent : σ → Int → Int
  tup_db_get_var_id : σ → Int → Int × List Char
  tup_db_create_node : σ → Int → List Char → Int → Int × σ
  tup_db_set_sym : σ → Int → Int → Int × σ
  tup_db_set_var : σ → Int → List Char → Int × σ
  tup_db_add_create_list : σ → Int → Int × σ
  tup_db_add_modify_list : σ → Int → Int × σ
  tup_db_unflag_delete : σ → Int → Int × σ
  tup_db_unflag_modify : σ → Int → Int × σ
  tup_db_set_flags_by_id : σ → Int → Int → Int × σ
  tup_db_set_dependent_dir_flags : σ → Int → Int × σ
  tup_db_modify_cmds_by_output : σ → Int → Int × σ
  tup_db_modify_cmds_by_input : σ → Int → Int × σ
  tup_db_delete_dir : σ → Int → Int × σ
  delete_name_file : σ → Int → Int × σ

/-- A store query issued by the resolver, recorded in the order of issue. -/
inductive db_call where
  | parent (dt : Int)
  | select_dbn_part (dt : Int) (name : List Char)
  | select_dbn_by_id (id : Int)
  | select_dbn (dt : Int) (name : List Char)
  deriving DecidableEq, Repr

/-- How a call ends: it returns a value, or the process is terminated by `exit`. -/
inductive outcome (α : Type) where
  | ret (a : α)
  | exited (status : Int)
  deriving DecidableEq, Repr

/-! ## String primitives of the C library -/

/-- The sign of `strncmp(a, b, n)`: compare at most `n` characters, stopping at the
end of either string. -/
def strncmp : List Char → List Char → Nat → Int
  | _, _, 0 => 0
  | [], [], _ + 1 => 0
  | [], _ :: _, _ + 1 => -1
  | _ :: _, [], _ + 1 => 1
  | a :: as, b :: bs, n + 1 =>
    if a = b then strncmp as bs n else if a.toNat < b.toNat then -1 else 1

/-- The sign of `strcmp(a, b)`. -/
def strcmp : List Char → List Char → Int
  | [], [] => 0
  | [], _ :: _ => -1
  | _ :: _, [] => 1
  | a :: as, b :: bs =>
    if a = b then strcmp as bs else if a.toNat < b.toNat then -1 else 1

/-! ## Symlink chase (lines 232-248 and 324-340) -/

/-- What the chase loop leaves behind: `rc < 0` when a store lookup failed (the
enclosing function then returns `-1`), the node last fetched, the symlink log and the
queries issued so far. -/
structure chase_result where
  rc : Int
  dbn : db_node
  symlist : Option (List half_entry)
  calls : List db_call
  deriving DecidableEq, Repr

/-- The loop `while(dbn.sym != -1) { if(symlist) list_add(he, symlist);
tup_db_select_dbn_by_id(dbn.sym, &dbn) }`, which appears verbatim in `get_dbn_dt`
(lines 232-248) and in `find_dir_tupid_dt` (lines 324-340).  The source has no hop
limit; `fuel` bounds the number of iterations the model runs, and `none` means the
loop was still running when the bound was reached. -/
def sym_chase {σ : Type} (db : Db σ) (s : σ) :
    Nat → db_node → Option (List half_entry) → List db_call → Option chase_result
  | 0, dbn, symlist, calls =>
    if dbn.sym ≠ -1 then none else some ⟨0, dbn, symlist, calls⟩
  | fuel + 1, dbn, symlist, calls =>
    if dbn.sym ≠ -1 then
      let symlist1 := symlist.map (list_add ⟨dbn.tupid, dbn.dt, dbn.type⟩)
      let r := db.tup_db_select_dbn_by_id s dbn.sym
      let calls1 := calls ++ [db_call.select_dbn_by_id dbn.sym]
      if r.1 < 0 then some ⟨-1, r.2, symlist1, calls1⟩
      else sym_chase db s fuel r.2 symlist1 calls1
    else some ⟨0, dbn, symlist, calls⟩

/-! ## Directory resolver: `find_dir_tupid_dt` (lines 265-348) -/

/-- What `find_dir_tupid_dt` leaves behind: the return value, the pointer written
through `last` (`none` when `*last` was not written), the symlink log and the store
queries issued. -/
structure find_result where
  rv : Int
  last : Option (List Char)
  symlist : Option (List half_entry)
  calls : List db_call
  deriving DecidableEq, Repr

/-- The `do { ... } while(*top)` loop matching the leading segments against the tree
root (lines 279-294).  `none` is one of the `return 0` exits; `some rest` is the
segment list left when the loop ends. -/
def root_loop : List Char → List path_element → Option (List path_element)
  | _, [] => none
  | [], _ :: _ => none
  | c :: top1, pel :: rest =>
    if c ≠ '/' then none
    else if strncmp top1 pel.path pel.len ≠ 0 then none
    else
      let top2 := top1.drop pel.len
      if top2 ≠ [] then root_loop top2 rest else some rest

/-- The `while(!list_empty(&pg.path_list))` walk (lines 313-345), returning the value
`find_dir_tupid_dt` returns from it. -/
def walk_loop {σ : Type} (db : Db σ) (s : σ) (fuel : Nat) :
    List path_element → Int → Option (List half_entry) → List db_call →
    Option (Int × Option (List half_entry) × List db_call)
  | [], dt, symlist, calls => some (dt, symlist, calls)
  | pel :: rest, dt, symlist, calls =>
    if pel.len = 2 ∧ pel.path.get? 0 = some '.' ∧ pel.path.get? 1 = some '.' then
      let dt1 := db.tup_db_parent s dt
      let calls1 := calls ++ [db_call.parent dt]
      if dt1 < 0 then some (-1, symlist, calls1)
      else walk_loop db s fuel rest dt1 symlist calls1
    else
      let r := db.tup_db_select_dbn_part s dt pel.text
      let calls1 := calls ++ [db_call.select_dbn_part dt pel.text]
      if r.1 < 0 then some (-1, symlist, calls1)
      else
        match sym_chase db s fuel r.2 symlist calls1 with
        | none => none
        | some c =>
          if c.rc < 0 then some (-1, c.symlist, c.calls)
          else walk_loop db s fuel rest c.dbn.tupid c.symlist c.calls

/-- The function `find_dir_tupid_dt(dt, dir, last, symlist)`.  `top` is the string
`get_tup_top()` returns; `want_last` says whether `last` is non-NULL; `symlist` is
`none` for a NULL log.  The result is `none` when a symlink chase was still running
after `fuel` hops. -/
def find_dir_tupid_dt {σ : Type} (db : Db σ) (s : σ) (top : List Char) (fuel : Nat)
    (dt : Int) (dir : List Char) (want_last : Bool) (symlist : Option (List half_entry)) :
    Option (outcome find_result) :=
  let g := get_path_elements dir
  if g.1 < 0 then some (.ret ⟨-1, none, symlist, []⟩)
  else if g.2.is_hidden then some (.ret ⟨0, none, symlist, []⟩)
  else
    match (if g.2.is_root then root_loop top g.2.path_list else some g.2.path_list) with
    | none => some (.ret ⟨0, none, symlist, []⟩)
    | some path_list =>
      if path_list = [] then some (.ret ⟨dt, none, symlist, []⟩)
      else if want_last then
        let last := (path_list.getLast?.map path_element.path)
        match walk_loop db s fuel path_list.dropLast dt symlist [] with
        | none => none
        | some (rv, symlist1, calls) => some (.ret ⟨rv, last, symlist1, calls⟩)
      else some (.exited 1)

/-! ## Node lookup: `get_dbn_dt` and `find_dir_tupid` (lines 218-263) -/

/-- What `get_dbn_dt` leaves behind: the return value, the contents of `*dbn`, the
symlink log and the store queries issued. -/
structure dbn_result where
  rv : Int
  dbn : db_node
  symlist : Option (List half_entry)
  calls : List db_call
  deriving DecidableEq, Repr

/-- The function `get_dbn_dt(dt, path, dbn, symlist)`; `dbn0` is what `*dbn` holds on
entry. -/
def get_dbn_dt {σ : Type} (db : Db σ) (s : σ) (top : List Char) (fuel : Nat)
    (dt : Int) (path : List Char) (dbn0 : db_node) (symlist : Option (List half_entry)) :
    Option (outcome dbn_result) :=
  let dbn1 : db_node := { dbn0 with tupid := -1 }
  match find_dir_tupid_dt db s top fuel dt path true symlist with
  | none => none
  | some (.exited n) => some (.exited n)
  | some (.ret f) =>
    if f.rv < 0 then some (.ret ⟨-1, dbn1, f.symlist, f.calls⟩)
    else
      match f.last with
      | some file =>
        let r := db.tup_db_select_dbn s f.rv file
        let calls1 := f.calls ++ [db_call.select_dbn f.rv file]
        if r.1 < 0 then some (.ret ⟨-1, r.2, f.symlist, calls1⟩)
        else
          match sym_chase db s fuel r.2 f.symlist calls1 with
          | none => none
          | some c =>
            if c.rc < 0 then some (.ret ⟨-1, c.dbn, c.symlist, c.calls⟩)
            else some (.ret ⟨c.dbn.tupid, c.dbn, c.symlist, c.calls⟩)
      | none =>
        let r := db.tup_db_select_dbn_by_id s f.rv
        let calls1 := f.calls ++ [db_call.select_dbn_by_id f.rv]
        if r.1 < 0 then some (.ret ⟨-1, r.2, f.symlist, calls1⟩)
        else some (.ret ⟨f.rv, { r.2 with name := path }, f.symlist, calls1⟩)

/-- The function `find_dir_tupid(dir)`. -/
def find_dir_tupid {σ : Type} (db : Db σ) (s : σ) (top : List Char) (fuel : Nat)
    (dir : List Char) (dbn0 : db_node) : Option (outcome Int) :=
  match get_dbn_dt db s top fuel db.DOT_DT dir dbn0 none with
  | none => none
  | some (.exited n) => some (.exited n)
  | some (.ret r) => some (.ret r.rv)


/-! ## Node lifecycle (lines 30-216) -/

/-- The function `create_name_file(dt, file)` (lines 30-33). -/
def create_name_file {σ : Type} (db : Db σ) (dt : Int) (file : List Char) (s : σ) : Int × σ :=
  db.tup_db_create_node s dt file db.TUP_NODE_FILE

/-- The function `create_command_file(dt, cmd)` (lines 35-38). -/
def create_command_file {σ : Type} (db : Db σ) (dt : Int) (cmd : List Char) (s : σ) : Int × σ :=
  db.tup_db_create_node s dt cmd db.TUP_NODE_CMD

/-- The function `create_dir_file(dt, path)` (lines 40-43). -/
def create_dir_file {σ : Type} (db : Db σ) (dt : Int) (path : List Char) (s : σ) : Int × σ :=
  db.tup_db_create_node s dt path db.TUP_NODE_DIR

/-- The function `create_var_file(var, value)` (lines 89-121): the return value and
the store afterwards. -/
def create_var_file {σ : Type} (db : Db σ) (var value : List Char) (s : σ) : Int × σ :=
  let r := db.tup_db_select_dbn s db.VAR_DT var
  if r.1 < 0 then (-1, s)
  else if r.2.tupid < 0 then
    let c := db.tup_db_create_node s db.VAR_DT var db.TUP_NODE_VAR
    if c.1 < 0 then (-1, c.2)
    else db.tup_db_set_var c.2 c.1 value
  else
    let g := db.tup_db_get_var_id s r.2.tupid
    if g.1 < 0 then (-1, s)
    else if strcmp g.2 value = 0 then
      let u := db.tup_db_unflag_delete s r.2.tupid
      if u.1 < 0 then (-1, u.2) else (0, u.2)
    else
      let a := db.tup_db_add_create_list s r.2.tupid
      if a.1 < 0 then (-1, a.2)
      else
        let m := db.tup_db_add_modify_list a.2 r.2.tupid
        if m.1 < 0 then (-1, m.2)
        else
          let u := db.tup_db_unflag_delete m.2 r.2.tupid
          if u.1 < 0 then (-1, u.2)
          else db.tup_db_set_var u.2 r.2.tupid value

/-- The function `tup_file_del(tupid, dt, type)` (lines 171-216). -/
def tup_file_del {σ : Type} (db : Db σ) (tupid dt type : Int) (s : σ) : Int × σ :=
  if type = db.TUP_NODE_DIR then
    let d := db.tup_db_delete_dir s tupid
    if d.1 < 0 then (-1, d.2)
    else
      let n := db.delete_name_file d.2 tupid
      if n.1 < 0 then (-1, n.2) else (0, n.2)
  else
    let o := if type = db.TUP_NODE_GENERATED then db.tup_db_modify_cmds_by_output s tupid
             else (0, s)
    if o.1 < 0 then (-1, o.2)
    else
      let i := db.tup_db_modify_cmds_by_input o.2 tupid
      if i.1 < 0 then (-1, i.2)
      else
        let c := db.tup_db_add_create_list i.2 dt
        if c.1 < 0 then (-1, c.2)
        else
          let f := db.tup_db_set_dependent_dir_flags c.2 tupid
          if f.1 < 0 then (-1, f.2)
          else
            let u := db.tup_db_unflag_modify f.2 tupid
            if u.1 < 0 then (-1, u.2)
            else
              let n := db.delete_name_file u.2 tupid
              if n.1 < 0 then (-1, n.2) else (0, n.2)

/-- The file name `"Tupfile"` compared against on line 134. -/
def tupfile_name : List Char := ['T', 'u', 'p', 'f', 'i', 'l', 'e']

/-- The function `tup_file_mod(dt, file, flags)` (lines 123-169). -/
def tup_file_mod {σ : Type} (db : Db σ) (dt : Int) (file : List Char) (flags : Int) (s : σ) :
    Int × σ :=
  let r := db.tup_db_select_dbn s dt file
  if r.1 < 0 then (-1, s)
  else if flags = db.TUP_FLAGS_MODIFY then
    let c := if r.2.tupid < 0 ∨ strcmp file tupfile_name = 0 then db.tup_db_add_create_list s dt
             else (0, s)
    if c.1 < 0 then (-1, c.2)
    else if r.2.tupid < 0 then
      let n := create_name_file db dt file c.2
      if n.1 < 0 then (-1, n.2) else (n.1, n.2)
    else if r.2.type ≠ db.TUP_NODE_FILE ∧ r.2.type ≠ db.TUP_NODE_GENERATED then (-1, c.2)
    else
      let f := db.tup_db_set_flags_by_id c.2 r.2.tupid flags
      if f.1 < 0 then (-1, f.2)
      else
        let d := db.tup_db_set_dependent_dir_flags f.2 r.2.tupid
        if d.1 < 0 then (-1, d.2) else (r.2.tupid, d.2)
  else if flags = db.TUP_FLAGS_DELETE then
    if r.2.tupid < 0 then (-1, s)
    else tup_file_del db r.2.tupid r.2.dt r.2.type s
  else (-1, s)

/-- The function `update_symlink_file(dt, file)` (lines 45-87).  `readlink` is the
file system call: its return value and the bytes it stored in the buffer; `PATH_MAX`
is the size of that buffer. -/
def update_symlink_file {σ : Type} (db : Db σ) (readlink : List Char → Int × List Char)
    (PATH_MAX : Int) (top : List Char) (fuel : Nat) (dt : Int) (file : List Char) (s : σ) :
    Option (outcome (Int × σ)) :=
  let t0 := db.tup_db_select_node s dt file
  let t := if t0 < 0 then create_name_file db dt file s else (t0, s)
  if t.1 < 0 then some (.ret (-1, t.2))
  else
    let l := readlink file
    if l.1 < 0 then some (.ret (-1, t.2))
    else if l.1 ≥ PATH_MAX then some (.ret (-1, t.2))
    else
      let linkname := l.2.take l.1.toNat
      match find_dir_tupid_dt db t.2 top fuel dt linkname true none with
      | none => none
      | some (.exited n) => some (.exited n)
      | some (.ret f) =>
        let file1 := f.last.getD file
        if f.rv ≤ 0 then some (.ret (-1, t.2))
        else
          let link_tupid := db.tup_db_select_node t.2 f.rv file1
          if link_tupid < 0 then some (.ret (-1, t.2))
          else
            let y := db.tup_db_set_sym t.2 t.1 link_tupid
            if y.1 < 0 then some (.ret (-1, y.2))
            else
              let m := db.tup_db_add_modify_list y.2 t.1
              if m.1 < 0 then some (.ret (-1, m.2)) else some (.ret (t.1, m.2))

/-! ## A concrete node store

The store itself (`db.c`) is outside this source file.  For concrete runs the
following store is used. -/

/-- Modelled from the spec: the persistent node store of section 6, which is not
part of this source file.  `nodes` are the rows of the node table (id, containing
directory, name, type, symlink target or `-1`), `create_list`, `modify_list` and
`delete_list` are the create (re-parse) queue, the modify queue and the
pending-delete flags, `vars` holds the variable values and `links` the dependency
edges (from, to). -/
structure store where
  nodes : List db_node
  create_list : List Int
  modify_list : List Int
  delete_list : List Int
  vars : List (Int × List Char)
  links : List (Int × Int)
  deriving DecidableEq, Repr

/-- The node a select operation leaves behind when it finds no row. -/
def no_node : db_node := ⟨-1, -1, [], 0, -1⟩

/-- Add an id to a queue that holds each id at most once. -/
def queue_add (id : Int) (q : List Int) : List Int :=
  if id ∈ q then q else q ++ [id]

/-- Add several ids to such a queue, in order. -/
def queue_add_all (ids : List Int) (q : List Int) : List Int :=
  ids.foldl (fun q i => queue_add i q) q

/-- Modelled from the spec: `select_node_part(dir, name_slice) -> Option<DbNode>` and
`select_node(dir, name)`, the row with the given directory and name. -/
def store.select (s : store) (dt : Int) (name : List Char) : db_node :=
  (s.nodes.find? (fun n => n.dt = dt ∧ n.name = name)).getD no_node

/-- Modelled from the spec: `select_node_by_id(id) -> Option<DbNode>`. -/
def store.select_by_id (s : store) (id : Int) : db_node :=
  (s.nodes.find? (fun n => n.tupid = id)).getD no_node

/-- Modelled from the spec: `parent_of(dir) -> Result<NodeId, Error>`; the parent of a
directory is the directory its row lives in, and a missing row is an error. -/
def store.parent_of (s : store) (dt : Int) : Int :=
  match s.nodes.find? (fun n => n.tupid = dt) with
  | some n => n.dt
  | none => -1

/-- Modelled from the spec: `get_variable_value(node) -> Result<String, Error>`. -/
def store.get_var (s : store) (id : Int) : Int × List Char :=
  match s.vars.find? (fun v => v.1 = id) with
  | some v => (0, v.2)
  | none => (-1, [])

/-- A fresh node id: one more than every id in use, and at least 1. -/
def store.fresh (s : store) : Int :=
  (s.nodes.map db_node.tupid).foldl max 0 + 1

/-- Modelled from the spec: `create_node(dir, name, type)`, an idempotent upsert: an
existing (dir, name) row keeps its id, otherwise a row with a fresh id is added. -/
def store.create_node (s : store) (dt : Int) (name : List Char) (type : Int) : Int × store :=
  if 0 ≤ (s.select dt name).tupid then ((s.select dt name).tupid, s)
  else (s.fresh, { s with nodes := s.nodes ++ [⟨s.fresh, dt, name, type, -1⟩] })

/-- Modelled from the spec: `set_symlink_target(node, target)`. -/
def store.set_sym (s : store) (id target : Int) : Int × store :=
  (0, { s with nodes := s.nodes.map (fun n => if n.tupid = id then { n with sym := target } else n) })

/-- Modelled from the spec: `set_variable_value(node, value) -> Result<(), Error>`; the
result carries no node id, and success is the return code 0. -/
def store.set_var (s : store) (id : Int) (value : List Char) : Int × store :=
  (0, { s with vars := (id, value) :: s.vars.filter (fun v => v.1 ≠ id) })

/-- Modelled from the spec: `add_to_create_queue(dir)`. -/
def store.add_create_list (s : store) (id : Int) : Int × store :=
  (0, { s with create_list := queue_add id s.create_list })

/-- Modelled from the spec: `add_to_modify_queue(node)`. -/
def store.add_modify_list (s : store) (id : Int) : Int × store :=
  (0, { s with modify_list := queue_add id s.modify_list })

/-- Modelled from the spec: `clear_pending_delete(node)`. -/
def store.unflag_delete (s : store) (id : Int) : Int × store :=
  (0, { s with delete_list := s.delete_list.filter (fun i => i ≠ id) })

/-- Modelled from the spec: `clear_modify_flag(node)`. -/
def store.unflag_modify (s : store) (id : Int) : Int × store :=
  (0, { s with modify_list := s.modify_list.filter (fun i => i ≠ id) })

/-- Modelled from the spec: `set_node_flags(node, flag)`, with the flag values 1
(modify), 2 (create) and 4 (delete). -/
def store.set_flags (s : store) (id flags : Int) : Int × store :=
  (0, { s with
    create_list := if flags = 2 then queue_add id s.create_list else s.create_list
    modify_list := if flags = 1 then queue_add id s.modify_list else s.modify_list
    delete_list := if flags = 4 then queue_add id s.delete_list else s.delete_list })

/-- Modelled from the spec: `propagate_dependent_directory_flags(node)`: every
directory that has an edge from the node is put on the create queue. -/
def store.set_dependent_dir_flags (s : store) (id : Int) : Int × store :=
  (0, { s with create_list :=
    (queue_add_all
      ((s.links.filter (fun l => l.1 = id ∧ (s.select_by_id l.2).type = 2)).map Prod.snd)
      s.create_list) })

/-- Modelled from the spec: `mark_producers_for_output(node)`: every command with an
edge to the node is put on the modify queue. -/
def store.modify_cmds_by_output (s : store) (id : Int) : Int × store :=
  (0, { s with modify_list :=
    queue_add_all ((s.links.filter (fun l => l.2 = id)).map Prod.fst) s.modify_list })

/-- Modelled from the spec: `mark_consumers_for_input(node)`: every command with an
edge from the node is put on the modify queue. -/
def store.modify_cmds_by_input (s : store) (id : Int) : Int × store :=
  (0, { s with modify_list :=
    (queue_add_all
      ((s.links.filter (fun l => l.1 = id ∧ (s.select_by_id l.2).type = 1)).map Prod.snd)
      s.modify_list) })

/-- The ids of the nodes nested under one of the directories `dirs`, found by
following the containing-directory column at most `n` levels down. -/
def store.nested (s : store) : Nat → List Int → List Int
  | 0, _ => []
  | n + 1, dirs =>
    let kids := (s.nodes.filter (fun m => m.dt ∈ dirs)).map db_node.tupid
    kids ++ store.nested s n kids

/-- Modelled from the spec: `delete_directory_subtree(dir)`: removes every node nested
transitively beneath the directory. -/
def store.delete_dir (s : store) (dt : Int) : Int × store :=
  (0, { s with nodes := s.nodes.filter (fun m => m.tupid ∉ s.nested s.nodes.length [dt]) })

/-- Modelled from the spec: `delete_node(node)`: removes the row of the node. -/
def store.delete_node (s : store) (id : Int) : Int × store :=
  (0, { s with nodes := s.nodes.filter (fun m => m.tupid ≠ id) })

/-- Modelled from the spec: the node store of section 6 as an instance of the store
interface, with the constants of `db.h` (`DOT_DT` 1, `VAR_DT` 2, the node types 0 to 4
and the flags 1, 2, 4).  None of its operations fails. -/
def spec_db : Db store where
  VAR_DT := 2
  DOT_DT := 1
  TUP_NODE_FILE := 0
  TUP_NODE_CMD := 1
  TUP_NODE_DIR := 2
  TUP_NODE_VAR := 3
  TUP_NODE_GENERATED := 4
  TUP_FLAGS_MODIFY := 1
  TUP_FLAGS_DELETE := 4
  tup_db_select_node := fun s dt name => (s.select dt name).tupid
  tup_db_select_dbn := fun s dt name => (0, s.select dt name)
  tup_db_select_dbn_by_id := fun s id => (0, s.select_by_id id)
  tup_db_select_dbn_part := fun s dt name => (0, s.select dt name)
  tup_db_parent := fun s dt => s.parent_of dt
  tup_db_get_var_id := fun s id => s.get_var id
  tup_db_create_node := fun s dt name type => s.create_node dt name type
  tup_db_set_sym := fun s id target => s.set_sym id target
  tup_db_set_var := fun s id value => s.set_var id value
  tup_db_add_create_list := fun s id => s.add_create_list id
  tup_db_add_modify_list := fun s id => s.add_modify_list id
  tup_db_unflag_delete := fun s id => s.unflag_delete id
  tup_db_unflag_modify := fun s id => s.unflag_modify id
  tup_db_set_flags_by_id := fun s id flags => s.set_flags id flags
  tup_db_set_dependent_dir_flags := fun s id => s.set_dependent_dir_flags id
  tup_db_modify_cmds_by_output := fun s id => s.modify_cmds_by_output id
  tup_db_modify_cmds_by_input := fun s id => s.modify_cmds_by_input id
  tup_db_delete_dir := fun s dt => s.delete_dir dt
  delete_name_file := fun s id => s.delete_node id


/-! ## Predicates used in the statements and proofs -/

/-- The shape of the kept list while scanning: some `..` segments first, then
`num_elements` segments none of which is `..`. -/
def kept_inv (num : Nat) (texts : List (List Char)) : Prop :=
  ∃ k named, texts = List.replicate k dotdot ++ named ∧
    (∀ t ∈ named, t ≠ dotdot) ∧ named.length = num

/-- What the scanner guarantees about a path element it has appended while reading
`p`: it points into `p`, at the first character of a segment of `p` that is not `.`,
and its length is the length of that segment. -/
def good_pel (p : List Char) (pel : path_element) : Prop :=
  pel.text ∈ segments p ∧ pel.path <:+ p ∧ pel.len = seg_len pel.path ∧ pel.text ≠ dot

/-- A symlink chain in the store: `chain_from db s n0 [n1, ..., nk]` says that every
node but the last carries a symlink target, that the store's lookup of that target by
id succeeds and yields the next node, and that the last node `nk` carries no target
(`sym = -1`). -/
def chain_from {σ : Type} (db : Db σ) (s : σ) : db_node → List db_node → Prop
  | n, [] => n.sym = -1
  | n, m :: ms =>
    n.sym ≠ -1 ∧ 0 ≤ (db.tup_db_select_dbn_by_id s n.sym).1 ∧
      (db.tup_db_select_dbn_by_id s n.sym).2 = m ∧ chain_from db s m ms

/-- Whether a list of nodes is a symlink chain of the store can be computed. -/
def chain_from_dec {σ : Type} (db : Db σ) (s : σ) :
    (n : db_node) → (ms : List db_node) → Decidable (chain_from db s n ms)
  | n, [] => inferInstanceAs (Decidable (n.sym = -1))
  | n, m :: ms =>
    have := chain_from_dec db s m ms
    inferInstanceAs (Decidable (n.sym ≠ -1 ∧ 0 ≤ (db.tup_db_select_dbn_by_id s n.sym).1 ∧
      (db.tup_db_select_dbn_by_id s n.sym).2 = m ∧ chain_from db s m ms))

instance {σ : Type} (db : Db σ) (s : σ) (n : db_node) (ms : List db_node) :
    Decidable (chain_from db s n ms) :=
  chain_from_dec db s n ms

/-- The log record written for a link (lines 240-242 and 332-334). -/
def half_entry_of (n : db_node) : half_entry :=
  ⟨n.tupid, n.dt, n.type⟩

/-- The last node of a chain: the node the chase ends on. -/
def chain_end (n0 : db_node) (ms : List db_node) : db_node :=
  ms.getLastD n0

/-- The links of a chain in traversal order: every node but the last. -/
def chain_links (n0 : db_node) (ms : List db_node) : List db_node :=
  (n0 :: ms).dropLast

/-- A store with the symlink chain `a → b → c` in directory 1, where `c` (id 12) is a
directory holding the file `x`. -/
def chain_store : store :=
  ⟨[⟨10, 1, ['a'], 0, 11⟩, ⟨11, 1, ['b'], 0, 12⟩, ⟨12, 1, ['c'], 2, -1⟩,
    ⟨13, 12, ['x'], 0, -1⟩], [], [], [], [], []⟩

/-- A store with the variable `CC` (node 7 under `VAR_DT`) set to `gcc`, flagged for
deletion, and the directory 1 waiting in the create queue. -/
def var_store : store :=
  ⟨[⟨7, 2, ['C', 'C'], 3, -1⟩], [1], [], [7], [(7, ['g', 'c', 'c'])], []⟩

/-! ## Stores and predicates for the lifecycle and resolver properties -/

/-- A store with the directory `src` (node 3) under the top directory 1, holding the
source file `main.c` (4), the generated file `main.o` (5), the commands `cc` (6) and
`ld` (7), the file `Tupfile` (10) and the directory `sub` (8) with the file `deep.c`
(9) and the directory `inner` (11) with the file `leaf.c` (12).  The edges say that
`cc` reads `main.c` and writes `main.o`, that `ld` reads `main.o`, and that the
Tupfile of directory 3 includes `main.c`. -/
def tree_store : store :=
  ⟨[⟨1, 0, ['.'], 2, -1⟩, ⟨3, 1, ['s', 'r', 'c'], 2, -1⟩,
    ⟨4, 3, ['m', 'a', 'i', 'n', '.', 'c'], 0, -1⟩,
    ⟨5, 3, ['m', 'a', 'i', 'n', '.', 'o'], 4, -1⟩,
    ⟨6, 3, ['c', 'c'], 1, -1⟩, ⟨7, 3, ['l', 'd'], 1, -1⟩,
    ⟨8, 3, ['s', 'u', 'b'], 2, -1⟩, ⟨9, 8, ['d', 'e', 'e', 'p', '.', 'c'], 0, -1⟩,
    ⟨10, 3, ['T', 'u', 'p', 'f', 'i', 'l', 'e'], 0, -1⟩,
    ⟨11, 8, ['i', 'n', 'n', 'e', 'r'], 2, -1⟩,
    ⟨12, 11, ['l', 'e', 'a', 'f', '.', 'c'], 0, -1⟩],
   [], [], [], [], [(4, 6), (6, 5), (5, 7), (4, 3)]⟩

/-- A store in which the name `Tupfile` in directory 1 belongs to a directory node
(node 5), and `obj` (node 6) is a directory as well. -/
def odd_store : store :=
  ⟨[⟨1, 0, ['.'], 2, -1⟩, ⟨5, 1, ['T', 'u', 'p', 'f', 'i', 'l', 'e'], 2, -1⟩,
    ⟨6, 1, ['o', 'b', 'j'], 2, -1⟩], [], [], [], [], []⟩

/-- A descending path below the directory `d`: the first row is contained in `d`, and
every further row is contained in the row before it. -/
def is_descent : Int → List db_node → Prop
  | _, [] => True
  | d, x :: rest => x.dt = d ∧ is_descent x.tupid rest

/-- The row `m` is nested transitively under the directory `d` in the store `s`: a
descending path of distinct rows of the store leads from a row contained in `d` down
to `m`. -/
def nested_under (s : store) (d : Int) (m : db_node) : Prop :=
  ∃ path : List db_node, is_descent d path ∧ path.getLast? = some m ∧ path.Nodup ∧
    ∀ x ∈ path, x ∈ s.nodes

/-- A store with the file `foo` (node 5) in the top directory 1. -/
def link_store : store :=
  ⟨[⟨1, 0, ['.'], 2, -1⟩, ⟨5, 1, ['f', 'o', 'o'], 0, -1⟩], [], [], [], [], []⟩

/-- A store in which the node `loop` (node 20 in directory 1) is its own symlink
target. -/
def loop_store : store :=
  ⟨[⟨1, 0, ['.'], 2, -1⟩, ⟨20, 1, ['l', 'o', 'o', 'p'], 0, 20⟩], [], [], [], [], []⟩

/-- What a select operation leaves when it finds no row: it succeeds, and the node it
fills in has a negative id and no symlink target. -/
def no_row (r : Int × db_node) : Prop :=
  0 ≤ r.1 ∧ r.2.tupid < 0 ∧ r.2.sym = -1

/-- Negative ids are never valid identities (section 3 of the spec): under a negative
directory id the store finds no row (or reports an error), and a negative id has no
parent. -/
def negative_ids_invalid {σ : Type} (db : Db σ) (s : σ) : Prop :=
  (∀ (d : Int) (name : List Char), d < 0 →
    (db.tup_db_select_dbn_part s d name).1 < 0 ∨ no_row (db.tup_db_select_dbn_part s d name)) ∧
  (∀ d : Int, d < 0 → db.tup_db_parent s d < 0)

/-- The segments `find_dir_tupid_dt` walks when a leaf is requested: the tokenized
list after the root handling of lines 276-295, without its last element (lines
303-306); `none` when the function returns before the walk (lines 272, 274, 284-290
and 301). -/
def walk_segments (top dir : List Char) : Option (List path_element) :=
  let g := get_path_elements dir
  if g.1 < 0 then none
  else if g.2.is_hidden then none
  else
    match (if g.2.is_root then root_loop top g.2.path_list else some g.2.path_list) with
    | none => none
    | some path_list => if path_list = [] then none else some path_list.dropLast

/-- The tree root string `/s1/s2/.../sk` spelled from its components `s1, ..., sk`. -/
def root_of : List (List Char) → List Char
  | [] => []
  | t :: ts => '/' :: (t ++ root_of ts)

/-- The path elements the scanner appends for the components of the string
`root_of segs ++ tail`: each points at its component inside that string. -/
def top_pels : List (List Char) → List Char → List path_element
  | [], _ => []
  | t :: ts, tail => ⟨t ++ (root_of ts ++ tail), t.length⟩ :: top_pels ts tail

/-- A plain component of a tree root: not empty, without `'/'`, and not beginning
with `'.'` (so neither `.` nor `..` nor a hidden name). -/
def plain_seg (t : List Char) : Prop :=
  t ≠ [] ∧ '/' ∉ t ∧ t.head? ≠ some '.'

instance (t : List Char) : Decidable (plain_seg t) := by
  unfold plain_seg; infer_instance



/-! ## Facts about the scanner primitives -/

theorem seg_len_le (p : List Char) : seg_len p ≤ p.length := by
  induction p with
  | nil => simp [seg_len]
  | cons c p ih =>
    by_cases h : c = '/'
    · simp [seg_len, h]
    · simp [seg_len, h, ih]

theorem seg_len_cons_of_ne {c : Char} (h : c ≠ '/') (p : List Char) :
    seg_len (c :: p) = seg_len p + 1 := by
  simp [seg_len, h]

theorem take_seg_len_no_slash (p : List Char) : '/' ∉ p.take (seg_len p) := by
  induction p with
  | nil => simp [seg_len]
  | cons c p ih =>
    by_cases h : c = '/'
    · simp [seg_len, h]
    · simp only [seg_len, ne_eq, h, not_false_eq_true, ↓reduceIte, List.take_succ_cons,
        List.mem_cons, not_or]
      exact ⟨fun h2 => h h2.symm, ih⟩

theorem skip_slashes_length_le (p : List Char) : (skip_slashes p).length ≤ p.length := by
  induction p with
  | nil => simp [skip_slashes]
  | cons c p ih =>
    by_cases h : c = '/'
    · simp only [skip_slashes, h, ↓reduceIte, List.length_cons]; omega
    · simp [skip_slashes, h]

theorem skip_slashes_head {p : List Char} {c : Char} {rest : List Char}
    (h : skip_slashes p = c :: rest) : c ≠ '/' := by
  induction p with
  | nil => simp [skip_slashes] at h
  | cons d p ih =>
    by_cases hd : d = '/'
    · simp only [skip_slashes, hd, ↓reduceIte] at h; exact ih h
    · simp only [skip_slashes, hd, ↓reduceIte, List.cons.injEq] at h
      exact h.1 ▸ hd

/-! ## Facts about the reference segmentation -/

theorem splitOn_take_drop (p : List Char) :
    p.splitOn '/' = p.take (seg_len p) ::
      (match p.drop (seg_len p) with
       | [] => []
       | _ :: r => r.splitOn '/') := by
  induction p with
  | nil => simp [seg_len]
  | cons c p ih =>
    by_cases h : c = '/'
    · subst h
      simp [seg_len, List.splitOn]
    · have h2 : (c == '/') = false := by simpa using h
      simp only [List.splitOn] at ih ⊢
      rw [List.splitOnP_cons, h2, ih]
      simp [seg_len, h, List.modifyHead]

theorem segments_nil : segments [] = [] := by
  simp [segments]

theorem segments_slash (p : List Char) : segments ('/' :: p) = segments p := by
  simp [segments, List.splitOn, List.splitOnP_cons]

theorem segments_skip_slashes (p : List Char) : segments (skip_slashes p) = segments p := by
  induction p with
  | nil => simp [skip_slashes]
  | cons c p ih =>
    by_cases h : c = '/'
    · subst h; simp [skip_slashes, segments_slash, ih]
    · simp [skip_slashes, h]

theorem drop_seg_len_cases (p : List Char) :
    p.drop (seg_len p) = [] ∨ ∃ r, p.drop (seg_len p) = '/' :: r := by
  induction p with
  | nil => simp [seg_len]
  | cons c p ih =>
    by_cases h : c = '/'
    · subst h; simp [seg_len]
    · simpa [seg_len, h] using ih

/-- The first segment of a string that starts with a non-slash character is the run
the scanner measures, and the remaining segments are those of the rest. -/
theorem segments_cons_of_ne {c : Char} (h : c ≠ '/') (rest : List Char) :
    segments (c :: rest) =
      (c :: rest).take (seg_len (c :: rest)) ::
        segments ((c :: rest).drop (seg_len (c :: rest))) := by
  have hne : (c :: rest).take (seg_len (c :: rest)) ≠ [] := by
    simp [seg_len_cons_of_ne h]
  conv_lhs => rw [segments, splitOn_take_drop]
  rcases drop_seg_len_cases (c :: rest) with h0 | ⟨r, hr⟩
  · rw [h0]
    simp [hne, segments_nil]
  · rw [hr, segments_slash]
    simp [hne, segments]

theorem mem_segments_ne_nil {p t : List Char} (h : t ∈ segments p) : t ≠ [] := by
  simp only [segments, ne_eq, decide_not, List.mem_filter, Bool.not_eq_eq_eq_not, Bool.not_true,
    decide_eq_false_iff_not] at h
  exact h.2


/-! ## One iteration of the scanner, in terms of the segment text -/

theorem take_seg_len_length (p : List Char) : (p.take (seg_len p)).length = seg_len p := by
  simp [List.length_take, seg_len_le]

theorem text_eq_dot_iff {c0 : Char} (h : c0 ≠ '/') (rest : List Char) :
    (c0 :: rest).take (seg_len (c0 :: rest)) = dot ↔
      (c0 = '.' ∧ seg_len (c0 :: rest) = 1) := by
  rw [seg_len_cons_of_ne h]
  constructor
  · intro ht
    have hl := congrArg List.length ht
    simp only [List.take_succ_cons, List.length_cons, take_seg_len_length, dot,
      List.length_singleton, List.length_nil] at hl
    simp only [List.take_succ_cons, dot, List.cons.injEq] at ht
    exact ⟨ht.1, by omega⟩
  · rintro ⟨hc, hl⟩
    have : seg_len rest = 0 := by omega
    simp [this, hc, dot]

theorem text_eq_dotdot_iff {c0 : Char} (h : c0 ≠ '/') (rest : List Char) :
    (c0 :: rest).take (seg_len (c0 :: rest)) = dotdot ↔
      (c0 = '.' ∧ (c0 :: rest).get? 1 = some '.' ∧ seg_len (c0 :: rest) = 2) := by
  rw [seg_len_cons_of_ne h]
  cases rest with
  | nil => simp [seg_len, dotdot]
  | cons c1 rest1 =>
    by_cases h1 : c1 = '/'
    · subst h1
      simp [seg_len, dotdot]
    · rw [seg_len_cons_of_ne h1]
      constructor
      · intro ht
        have hl := congrArg List.length ht
        simp only [List.take_succ_cons, List.length_cons, take_seg_len_length, dotdot,
          List.length_singleton, List.length_nil] at hl
        simp only [List.take_succ_cons, dotdot, List.cons.injEq] at ht
        refine ⟨ht.1, ?_, by omega⟩
        simp [ht.2.1]
      · rintro ⟨hc, hg, hl⟩
        have h0 : seg_len rest1 = 0 := by omega
        simp only [List.get?_cons_succ, List.get?_cons_zero, Option.some.injEq] at hg
        simp [h0, hc, hg, dotdot]

theorem text_head {c0 : Char} (h : c0 ≠ '/') (rest : List Char) :
    ((c0 :: rest).take (seg_len (c0 :: rest))).head? = some c0 := by
  simp [seg_len_cons_of_ne h]

theorem gpe_loop_zero (root : Bool) (p : List Char) (num : Nat) (pl : List path_element) :
    gpe_loop root 0 p num pl = (0, ⟨pl, root, false⟩) := rfl

theorem gpe_loop_succ_nil (root : Bool) (fuel : Nat) (p : List Char) (num : Nat)
    (pl : List path_element) (h : skip_slashes p = []) :
    gpe_loop root (fuel + 1) p num pl = (0, ⟨pl, root, false⟩) := by
  simp [gpe_loop, h]

/-- One iteration of the scanner on a string whose next segment is `t`, with the
character tests of lines 376-406 restated on the text of the segment. -/
theorem gpe_loop_succ_cons (root : Bool) (fuel : Nat) (p : List Char) (num : Nat)
    (pl : List path_element) (c0 : Char) (rest : List Char)
    (h : skip_slashes p = c0 :: rest) :
    gpe_loop root (fuel + 1) p num pl =
      (let t := (c0 :: rest).take (seg_len (c0 :: rest))
       let p2 := (c0 :: rest).drop (seg_len (c0 :: rest))
       let pel : path_element := ⟨c0 :: rest, seg_len (c0 :: rest)⟩
       if t = dot then gpe_loop root fuel p2 num pl
       else if t = dotdot then
         (if num ≠ 0 then gpe_loop root fuel p2 (num - 1) pl.dropLast
          else gpe_loop root fuel p2 num (pl ++ [pel]))
       else if hidden_seg t then (0, ⟨[], root, true⟩)
       else gpe_loop root fuel p2 (num + 1) (pl ++ [pel])) := by
  have hc := skip_slashes_head h
  have hd := text_eq_dot_iff hc rest
  have hdd := text_eq_dotdot_iff hc rest
  have hh := text_head hc rest
  have hun : gpe_loop root (fuel + 1) p num pl =
      (if c0 = '.' then
        if seg_len (c0 :: rest) = 1 then
          gpe_loop root fuel ((c0 :: rest).drop (seg_len (c0 :: rest))) num pl
        else if (c0 :: rest).get? 1 = some '.' ∧ seg_len (c0 :: rest) = 2 then
          if num ≠ 0 then
            gpe_loop root fuel ((c0 :: rest).drop (seg_len (c0 :: rest))) (num - 1) pl.dropLast
          else
            gpe_loop root fuel ((c0 :: rest).drop (seg_len (c0 :: rest))) num
              (pl ++ [⟨c0 :: rest, seg_len (c0 :: rest)⟩])
        else
          (0, ⟨[], root, true⟩)
      else
        gpe_loop root fuel ((c0 :: rest).drop (seg_len (c0 :: rest))) (num + 1)
          (pl ++ [⟨c0 :: rest, seg_len (c0 :: rest)⟩])) := by
    simp only [gpe_loop, h, list_add_tail]
  rw [hun]
  dsimp only
  by_cases h0 : c0 = '.'
  · rw [if_pos h0]
    by_cases h1 : seg_len (c0 :: rest) = 1
    · rw [if_pos h1, if_pos (hd.2 ⟨h0, h1⟩)]
    · have hnd : ¬ (c0 :: rest).take (seg_len (c0 :: rest)) = dot := fun e => h1 (hd.1 e).2
      rw [if_neg h1, if_neg hnd]
      by_cases h2 : (c0 :: rest).get? 1 = some '.' ∧ seg_len (c0 :: rest) = 2
      · rw [if_pos h2, if_pos (hdd.2 ⟨h0, h2⟩)]
      · have hndd : ¬ (c0 :: rest).take (seg_len (c0 :: rest)) = dotdot :=
          fun e => h2 (hdd.1 e).2
        have hhid : hidden_seg ((c0 :: rest).take (seg_len (c0 :: rest))) :=
          ⟨by rw [hh, h0], hnd, hndd⟩
        rw [if_neg h2, if_neg hndd, if_pos hhid]
  · have hnd : ¬ (c0 :: rest).take (seg_len (c0 :: rest)) = dot := fun e => h0 (hd.1 e).1
    have hndd : ¬ (c0 :: rest).take (seg_len (c0 :: rest)) = dotdot := fun e => h0 (hdd.1 e).1
    have hhid : ¬ hidden_seg ((c0 :: rest).take (seg_len (c0 :: rest))) := by
      intro e
      rw [hidden_seg, hh] at e
      exact h0 (by simpa using e.1)
    rw [if_neg h0, if_neg hnd, if_neg hndd, if_neg hhid]


/-- The two ways an iteration of the scanner can start: only slashes are left, or a
segment starts; in the second case the segments of the string are that segment
followed by the segments of what the scanner has not read yet. -/
theorem scan_cases (p : List Char) :
    (skip_slashes p = [] ∧ segments p = []) ∨
    (∃ c0 rest, skip_slashes p = c0 :: rest ∧
      segments p = (c0 :: rest).take (seg_len (c0 :: rest)) ::
        segments ((c0 :: rest).drop (seg_len (c0 :: rest))) ∧
      ((c0 :: rest).drop (seg_len (c0 :: rest))).length < p.length) := by
  cases h : skip_slashes p with
  | nil =>
    left
    refine ⟨rfl, ?_⟩
    rw [← segments_skip_slashes, h, segments_nil]
  | cons c0 rest =>
    right
    refine ⟨c0, rest, rfl, ?_, ?_⟩
    · rw [← segments_skip_slashes, h]
      exact segments_cons_of_ne (skip_slashes_head h) rest
    · have h1 := skip_slashes_length_le p
      rw [h] at h1
      have h2 := seg_len_cons_of_ne (skip_slashes_head h) rest
      simp only [List.length_drop, List.length_cons] at h1 ⊢
      omega

theorem kept_inv_nil : kept_inv 0 [] :=
  ⟨0, [], by simp, by simp, rfl⟩

theorem reduce_step_dot (kept : List (List Char)) : reduce_step kept dot = kept := by
  simp [reduce_step]

theorem reduce_step_named {t : List Char} (kept : List (List Char)) (h1 : t ≠ dot)
    (h2 : t ≠ dotdot) : reduce_step kept t = kept ++ [t] := by
  simp [reduce_step, h1, h2]

theorem kept_inv_named {num : Nat} {kept : List (List Char)} {t : List Char}
    (h : kept_inv num kept) (h2 : t ≠ dotdot) : kept_inv (num + 1) (kept ++ [t]) := by
  obtain ⟨k, named, hk, hn, hl⟩ := h
  refine ⟨k, named ++ [t], by simp [hk], ?_, by simp [hl]⟩
  intro u hu
  rcases List.mem_append.1 hu with hu | hu
  · exact hn u hu
  · simp only [List.mem_singleton] at hu; exact hu ▸ h2

theorem reduce_step_dotdot_push {kept : List (List Char)} (h : kept_inv 0 kept) :
    reduce_step kept dotdot = kept ++ [dotdot] ∧ kept_inv 0 (kept ++ [dotdot]) := by
  obtain ⟨k, named, hk, hn, hl⟩ := h
  have hnil : named = [] := List.length_eq_zero.1 hl
  subst hnil
  simp only [List.append_nil] at hk
  subst hk
  constructor
  · have : ¬ ∃ u ∈ List.replicate k dotdot, u ≠ dotdot := by
      rintro ⟨u, hu, hne⟩
      exact hne (List.eq_of_mem_replicate hu)
    have hd : dotdot ≠ dot := by decide
    simp [reduce_step, this, hd]
  · refine ⟨k + 1, [], ?_, by simp, rfl⟩
    simp [List.replicate_succ']

theorem reduce_step_dotdot_pop {num : Nat} {kept : List (List Char)} (h : kept_inv num kept)
    (hnum : num ≠ 0) :
    reduce_step kept dotdot = kept.dropLast ∧ kept_inv (num - 1) kept.dropLast := by
  obtain ⟨k, named, hk, hn, hl⟩ := h
  have hne : named ≠ [] := by
    intro e; rw [e] at hl; exact hnum hl.symm
  obtain ⟨named1, x, hx⟩ : ∃ named1 x, named = named1 ++ [x] :=
    ⟨named.dropLast, named.getLast hne, (List.dropLast_append_getLast hne).symm⟩
  subst hx
  subst hk
  have hxne : x ≠ dotdot := hn x (by simp)
  have hdrop : (List.replicate k dotdot ++ (named1 ++ [x])).dropLast =
      List.replicate k dotdot ++ named1 := by
    rw [← List.append_assoc, List.dropLast_concat]
  constructor
  · have hex : ∃ u ∈ List.replicate k dotdot ++ (named1 ++ [x]), u ≠ dotdot :=
      ⟨x, by simp, hxne⟩
    have hd : dotdot ≠ dot := by decide
    rw [hdrop]
    simp only [reduce_step, hd, ↓reduceIte, hex, remove_last_named]
    simp [List.eraseP_cons, hxne]
  · rw [hdrop]
    refine ⟨k, named1, rfl, fun t ht => hn t (by simp [ht]), ?_⟩
    simp only [List.length_append, List.length_singleton] at hl
    omega

/-- The scanner computes the reference reduction on every string without a hidden
segment, from any loop state of the shape `kept_inv`. -/
theorem gpe_loop_reduce (root : Bool) :
    ∀ (fuel : Nat) (p : List Char) (num : Nat) (pl : List path_element),
      p.length < fuel →
      (∀ t ∈ segments p, ¬ hidden_seg t) →
      kept_inv num (pl.map path_element.text) →
      ∃ pl1, gpe_loop root fuel p num pl = (0, ⟨pl1, root, false⟩) ∧
        pl1.map path_element.text =
          (segments p).foldl reduce_step (pl.map path_element.text) := by
  intro fuel
  induction fuel with
  | zero => intro p num pl h; omega
  | succ fuel ih =>
    intro p num pl hlen hnh hinv
    rcases scan_cases p with ⟨h0, hs⟩ | ⟨c0, rest, h0, hs, hl⟩
    · exact ⟨pl, gpe_loop_succ_nil root fuel p num pl h0, by rw [hs]; rfl⟩
    · rw [gpe_loop_succ_cons root fuel p num pl c0 rest h0, hs]
      rw [hs] at hnh
      have hnh2 : ∀ t ∈ segments ((c0 :: rest).drop (seg_len (c0 :: rest))), ¬ hidden_seg t :=
        fun t ht => hnh t (List.mem_cons_of_mem _ ht)
      have hnh1 := hnh _ (List.mem_cons_self _ _)
      have hl2 : ((c0 :: rest).drop (seg_len (c0 :: rest))).length < fuel := by omega
      simp only [List.foldl_cons]
      by_cases hd : (c0 :: rest).take (seg_len (c0 :: rest)) = dot
      · rw [if_pos hd, hd, reduce_step_dot]
        exact ih _ num pl hl2 hnh2 hinv
      · rw [if_neg hd]
        by_cases hdd : (c0 :: rest).take (seg_len (c0 :: rest)) = dotdot
        · rw [if_pos hdd, hdd]
          by_cases hnum : num ≠ 0
          · rw [if_pos hnum]
            obtain ⟨e1, e2⟩ := reduce_step_dotdot_pop hinv hnum
            rw [e1, ← List.map_dropLast]
            rw [← List.map_dropLast] at e2
            exact ih _ (num - 1) pl.dropLast hl2 hnh2 e2
          · rw [if_neg hnum]
            have hz : num = 0 := by omega
            subst hz
            obtain ⟨e1, e2⟩ := reduce_step_dotdot_push hinv
            have e3 : (pl ++ [(⟨c0 :: rest, seg_len (c0 :: rest)⟩ : path_element)]).map
                path_element.text = pl.map path_element.text ++ [dotdot] := by
              simp [path_element.text, hdd]
            rw [e1, ← e3]
            rw [← e3] at e2
            exact ih _ 0 _ hl2 hnh2 e2
        · rw [if_neg hdd, if_neg hnh1, reduce_step_named _ hd hdd]
          have e3 : (pl ++ [(⟨c0 :: rest, seg_len (c0 :: rest)⟩ : path_element)]).map
              path_element.text =
              pl.map path_element.text ++ [(c0 :: rest).take (seg_len (c0 :: rest))] := by
            simp [path_element.text]
          rw [← e3]
          exact ih _ (num + 1) _ hl2 hnh2 (e3 ▸ kept_inv_named hinv hdd)


/-! ## Properties of the scanner that hold on every string -/

theorem gpe_loop_rc (root : Bool) :
    ∀ (fuel : Nat) (p : List Char) (num : Nat) (pl : List path_element),
      (gpe_loop root fuel p num pl).1 = 0 ∧ (gpe_loop root fuel p num pl).2.is_root = root := by
  intro fuel
  induction fuel with
  | zero => intro p num pl; exact ⟨rfl, rfl⟩
  | succ fuel ih =>
    intro p num pl
    rcases scan_cases p with ⟨h0, _⟩ | ⟨c0, rest, h0, _, _⟩
    · rw [gpe_loop_succ_nil root fuel p num pl h0]; exact ⟨rfl, rfl⟩
    · rw [gpe_loop_succ_cons root fuel p num pl c0 rest h0]
      dsimp only
      split_ifs
      · exact ih _ _ _
      · exact ih _ _ _
      · exact ih _ _ _
      · exact ⟨rfl, rfl⟩
      · exact ih _ _ _

/-- Once the hidden flag is set the list is empty. -/
theorem gpe_loop_hidden_nil (root : Bool) :
    ∀ (fuel : Nat) (p : List Char) (num : Nat) (pl : List path_element),
      (gpe_loop root fuel p num pl).2.is_hidden = true →
      (gpe_loop root fuel p num pl).2.path_list = [] := by
  intro fuel
  induction fuel with
  | zero => intro p num pl h; simp [gpe_loop_zero] at h
  | succ fuel ih =>
    intro p num pl
    rcases scan_cases p with ⟨h0, _⟩ | ⟨c0, rest, h0, _, _⟩
    · rw [gpe_loop_succ_nil root fuel p num pl h0]; intro h; simp at h
    · rw [gpe_loop_succ_cons root fuel p num pl c0 rest h0]
      dsimp only
      split_ifs
      · exact ih _ _ _
      · exact ih _ _ _
      · exact ih _ _ _
      · intro _; rfl
      · exact ih _ _ _

/-- The hidden flag is set exactly when the string has a hidden segment. -/
theorem gpe_loop_hidden_iff (root : Bool) :
    ∀ (fuel : Nat) (p : List Char) (num : Nat) (pl : List path_element),
      p.length < fuel →
      ((gpe_loop root fuel p num pl).2.is_hidden = true ↔ ∃ t ∈ segments p, hidden_seg t) := by
  intro fuel
  induction fuel with
  | zero => intro p num pl h; omega
  | succ fuel ih =>
    intro p num pl hlen
    rcases scan_cases p with ⟨h0, hs⟩ | ⟨c0, rest, h0, hs, hl⟩
    · rw [gpe_loop_succ_nil root fuel p num pl h0, hs]; simp
    · rw [gpe_loop_succ_cons root fuel p num pl c0 rest h0, hs]
      have hl2 : ((c0 :: rest).drop (seg_len (c0 :: rest))).length < fuel := by omega
      have hdn : ¬ hidden_seg dot := fun h => h.2.1 rfl
      have hddn : ¬ hidden_seg dotdot := fun h => h.2.2 rfl
      simp only [List.mem_cons, exists_eq_or_imp]
      by_cases hd : (c0 :: rest).take (seg_len (c0 :: rest)) = dot
      · rw [if_pos hd, hd, ih _ num pl hl2]
        simp [hdn]
      · rw [if_neg hd]
        by_cases hdd : (c0 :: rest).take (seg_len (c0 :: rest)) = dotdot
        · rw [if_pos hdd, hdd]
          by_cases hnum : num ≠ 0
          · rw [if_pos hnum, ih _ _ _ hl2]; simp [hddn]
          · rw [if_neg hnum, ih _ _ _ hl2]; simp [hddn]
        · rw [if_neg hdd]
          by_cases hh : hidden_seg ((c0 :: rest).take (seg_len (c0 :: rest)))
          · rw [if_pos hh]; simp [hh]
          · rw [if_neg hh, ih _ _ _ hl2]; simp [hh]

theorem skip_slashes_suffix (p : List Char) : skip_slashes p <:+ p := by
  induction p with
  | nil => simp [skip_slashes]
  | cons c p ih =>
    by_cases h : c = '/'
    · simp only [skip_slashes, h, ↓reduceIte]
      exact ih.trans (List.suffix_cons _ _)
    · simp [skip_slashes, h]

theorem good_pel_of_rest {p : List Char} {c0 : Char} {rest : List Char}
    (h0 : skip_slashes p = c0 :: rest)
    (hs : segments p = (c0 :: rest).take (seg_len (c0 :: rest)) ::
        segments ((c0 :: rest).drop (seg_len (c0 :: rest))))
    {pel : path_element}
    (h : good_pel ((c0 :: rest).drop (seg_len (c0 :: rest))) pel) : good_pel p pel := by
  obtain ⟨h1, h2, h3, h4⟩ := h
  refine ⟨?_, ?_, h3, h4⟩
  · rw [hs]; exact List.mem_cons_of_mem _ h1
  · have := skip_slashes_suffix p
    rw [h0] at this
    exact (h2.trans (List.drop_suffix _ _)).trans this

theorem good_pel_of_first {p : List Char} {c0 : Char} {rest : List Char}
    (h0 : skip_slashes p = c0 :: rest)
    (hs : segments p = (c0 :: rest).take (seg_len (c0 :: rest)) ::
        segments ((c0 :: rest).drop (seg_len (c0 :: rest))))
    (hd : (c0 :: rest).take (seg_len (c0 :: rest)) ≠ dot) :
    good_pel p ⟨c0 :: rest, seg_len (c0 :: rest)⟩ := by
  refine ⟨?_, ?_, rfl, hd⟩
  · rw [hs]; exact List.mem_cons_self _ _
  · have := skip_slashes_suffix p
    rw [h0] at this
    exact this

/-- Every element of the list the scanner returns was in the list it started from or
was appended for a segment of the string it read. -/
theorem gpe_loop_mem (root : Bool) :
    ∀ (fuel : Nat) (p : List Char) (num : Nat) (pl : List path_element) (pel : path_element),
      pel ∈ (gpe_loop root fuel p num pl).2.path_list → pel ∈ pl ∨ good_pel p pel := by
  intro fuel
  induction fuel with
  | zero => intro p num pl pel h; exact Or.inl h
  | succ fuel ih =>
    intro p num pl pel
    rcases scan_cases p with ⟨h0, _⟩ | ⟨c0, rest, h0, hs, _⟩
    · rw [gpe_loop_succ_nil root fuel p num pl h0]; exact Or.inl
    · rw [gpe_loop_succ_cons root fuel p num pl c0 rest h0]
      dsimp only
      have key : ∀ (n : Nat) (l : List path_element),
          (∀ x ∈ l, x ∈ pl ∨ good_pel p x) →
          pel ∈ (gpe_loop root fuel ((c0 :: rest).drop (seg_len (c0 :: rest))) n l).2.path_list →
          pel ∈ pl ∨ good_pel p pel := by
        intro n l hl hm
        rcases ih _ n l pel hm with h | h
        · exact hl pel h
        · exact Or.inr (good_pel_of_rest h0 hs h)
      by_cases hd : (c0 :: rest).take (seg_len (c0 :: rest)) = dot
      · rw [if_pos hd]; exact key _ _ (fun x hx => Or.inl hx)
      · have hfirst := good_pel_of_first h0 hs hd
        have happ : ∀ x ∈ pl ++ [(⟨c0 :: rest, seg_len (c0 :: rest)⟩ : path_element)],
            x ∈ pl ∨ good_pel p x := by
          intro x hx
          rcases List.mem_append.1 hx with hx | hx
          · exact Or.inl hx
          · simp only [List.mem_singleton] at hx; exact Or.inr (hx ▸ hfirst)
        rw [if_neg hd]
        split_ifs
        · exact key _ _ (fun x hx => Or.inl (List.mem_of_mem_dropLast hx))
        · exact key _ _ happ
        · intro h; simp at h
        · exact key _ _ happ

/-- The list the scanner returns keeps the shape `kept_inv`. -/
theorem gpe_loop_inv (root : Bool) :
    ∀ (fuel : Nat) (p : List Char) (num : Nat) (pl : List path_element),
      kept_inv num (pl.map path_element.text) →
      ∃ n, kept_inv n ((gpe_loop root fuel p num pl).2.path_list.map path_element.text) := by
  intro fuel
  induction fuel with
  | zero => intro p num pl h; exact ⟨num, h⟩
  | succ fuel ih =>
    intro p num pl hinv
    rcases scan_cases p with ⟨h0, _⟩ | ⟨c0, rest, h0, _, _⟩
    · rw [gpe_loop_succ_nil root fuel p num pl h0]; exact ⟨num, hinv⟩
    · rw [gpe_loop_succ_cons root fuel p num pl c0 rest h0]
      dsimp only
      by_cases hd : (c0 :: rest).take (seg_len (c0 :: rest)) = dot
      · rw [if_pos hd]; exact ih _ _ _ hinv
      · rw [if_neg hd]
        by_cases hdd : (c0 :: rest).take (seg_len (c0 :: rest)) = dotdot
        · rw [if_pos hdd]
          by_cases hnum : num ≠ 0
          · rw [if_pos hnum]
            have e2 := (reduce_step_dotdot_pop hinv hnum).2
            rw [← List.map_dropLast] at e2
            exact ih _ _ _ e2
          · rw [if_neg hnum]
            have hz : num = 0 := by omega
            subst hz
            have e2 := (reduce_step_dotdot_push hinv).2
            have e3 : (pl ++ [(⟨c0 :: rest, seg_len (c0 :: rest)⟩ : path_element)]).map
                path_element.text = pl.map path_element.text ++ [dotdot] := by
              simp [path_element.text, hdd]
            rw [← e3] at e2
            exact ih _ _ _ e2
        · rw [if_neg hdd]
          by_cases hh : hidden_seg ((c0 :: rest).take (seg_len (c0 :: rest)))
          · rw [if_pos hh]; exact ⟨0, kept_inv_nil⟩
          · rw [if_neg hh]
            have e3 : (pl ++ [(⟨c0 :: rest, seg_len (c0 :: rest)⟩ : path_element)]).map
                path_element.text =
                pl.map path_element.text ++ [(c0 :: rest).take (seg_len (c0 :: rest))] := by
              simp [path_element.text]
            exact ih _ _ _ (e3 ▸ kept_inv_named hinv hdd)

theorem get_path_elements_rc (dir : List Char) : (get_path_elements dir).1 = 0 :=
  (gpe_loop_rc _ _ _ _ _).1

theorem get_path_elements_good (dir : List Char) (pel : path_element)
    (h : pel ∈ (get_path_elements dir).2.path_list) : good_pel dir pel := by
  rcases gpe_loop_mem _ _ _ _ _ pel h with h | h
  · simp at h
  · exact h

theorem good_pel_text_ne_nil {p : List Char} {pel : path_element} (h : good_pel p pel) :
    pel.text ≠ [] :=
  mem_segments_ne_nil h.1

theorem good_pel_no_slash {p : List Char} {pel : path_element} (h : good_pel p pel) :
    '/' ∉ pel.text := by
  rw [path_element.text, h.2.2.1]
  exact take_seg_len_no_slash _


/-! ## The tokenizer claims -/

theorem segments_all_slash (p : List Char) (h : ∀ c ∈ p, c = '/') : segments p = [] := by
  induction p with
  | nil => exact segments_nil
  | cons c p ih =>
    have hc : c = '/' := h c (List.mem_cons_self _ _)
    subst hc
    rw [segments_slash]
    exact ih (fun d hd => h d (List.mem_cons_of_mem _ hd))

theorem foldl_reduce_dots (segs : List (List Char)) :
    ∀ k : Nat, (∀ t ∈ segs, t = dot ∨ t = dotdot) →
      segs.foldl reduce_step (List.replicate k dotdot) =
        List.replicate (k + segs.count dotdot) dotdot := by
  induction segs with
  | nil => intro k _; simp
  | cons t segs ih =>
    intro k h
    have ht := h t (List.mem_cons_self _ _)
    have hrest : ∀ u ∈ segs, u = dot ∨ u = dotdot := fun u hu => h u (List.mem_cons_of_mem _ hu)
    rw [List.foldl_cons]
    rcases ht with ht | ht
    · subst ht
      have hne : ¬ (dot = dotdot) := by decide
      rw [reduce_step_dot, ih k hrest, List.count_cons]
      simp [hne]
    · subst ht
      have hinv : kept_inv 0 (List.replicate k dotdot) := ⟨k, [], by simp, by simp, rfl⟩
      rw [(reduce_step_dotdot_push hinv).1, ← List.replicate_succ', ih (k + 1) hrest,
        List.count_cons]
      simp only [beq_self_eq_true, ↓reduceIte]
      congr 1
      omega

/-- What the scanner returns on a path without a hidden segment. -/
theorem get_path_elements_no_hidden (dir : List Char)
    (h : ∀ t ∈ segments dir, ¬ hidden_seg t) :
    ∃ pl1, get_path_elements dir = (0, ⟨pl1, decide (dir.head? = some '/'), false⟩) ∧
      pl1.map path_element.text = reduce_path dir := by
  obtain ⟨pl1, h1, h2⟩ :=
    gpe_loop_reduce (decide (dir.head? = some '/')) (dir.length + 1) dir 0 []
      (Nat.lt_succ_self _) h kept_inv_nil
  exact ⟨pl1, h1, by simpa [reduce_path] using h2⟩

/-- C1: on every path string without a hidden segment `get_path_elements` succeeds
(returns 0) and the texts of the segments it returns are the reference reduction of
the path (split on runs of `'/'`; drop `.`; `..` removes the most recently kept
non-`..` segment if one is kept and is appended otherwise; any other segment is
appended); `is_root` is set exactly when the first character is `'/'`, and
`is_hidden` is not set. -/
theorem get_path_elements_reduces (dir : List Char)
    (h : ∀ t ∈ segments dir, ¬ hidden_seg t) :
    (get_path_elements dir).1 = 0 ∧
    (get_path_elements dir).2.texts = reduce_path dir ∧
    ((get_path_elements dir).2.is_root = true ↔ dir.head? = some '/') ∧
    (get_path_elements dir).2.is_hidden = false := by
  obtain ⟨pl1, h1, h2⟩ := get_path_elements_no_hidden dir h
  rw [h1]
  refine ⟨rfl, ?_, ?_, rfl⟩
  · simpa [pel_group.texts] using h2
  · simp

/-- C1, on the paths `a/./b/../c` and `../../x`. -/
theorem get_path_elements_reduces_witness :
    ((∀ t ∈ segments "a/./b/../c".toList, ¬ hidden_seg t) ∧
      (get_path_elements "a/./b/../c".toList).1 = 0 ∧
      (get_path_elements "a/./b/../c".toList).2.texts = reduce_path "a/./b/../c".toList ∧
      ((get_path_elements "a/./b/../c".toList).2.is_root = true ↔
        "a/./b/../c".toList.head? = some '/') ∧
      (get_path_elements "a/./b/../c".toList).2.is_hidden = false) ∧
    reduce_path "a/./b/../c".toList = ["a".toList, "c".toList] ∧
    (get_path_elements "a/./b/../c".toList).2.is_root = false ∧
    ((∀ t ∈ segments "../../x".toList, ¬ hidden_seg t) ∧
      (get_path_elements "../../x".toList).2.texts = reduce_path "../../x".toList) ∧
    reduce_path "../../x".toList = [dotdot, dotdot, "x".toList] :=
  ⟨⟨by decide, get_path_elements_reduces "a/./b/../c".toList (by decide)⟩,
   by decide, by decide,
   ⟨by decide, (get_path_elements_reduces "../../x".toList (by decide)).2.1⟩,
   by decide⟩

/-- C2: on every path string `get_path_elements` sets `is_hidden` exactly when some
`'/'`-separated segment of the path begins with `'.'` and is neither `.` nor `..`
(wherever that segment stands and whatever follows it), and whenever `is_hidden` is
set the returned segment list is empty. -/
theorem get_path_elements_hidden (dir : List Char) :
    ((get_path_elements dir).2.is_hidden = true ↔ ∃ t ∈ segments dir, hidden_seg t) ∧
    ((get_path_elements dir).2.is_hidden = true → (get_path_elements dir).2.path_list = []) :=
  ⟨gpe_loop_hidden_iff _ _ _ _ _ (Nat.lt_succ_self _), gpe_loop_hidden_nil _ _ _ _ _⟩

/-- C2, on the paths `.hidden/x`, `a/.b/..` and `x/...`. -/
theorem get_path_elements_hidden_witness :
    (get_path_elements ".hidden/x".toList).2 = ⟨[], false, true⟩ ∧
    (∃ t ∈ segments ".hidden/x".toList, hidden_seg t) ∧
    (get_path_elements "a/.b/..".toList).2.path_list = [] ∧
    (get_path_elements "x/...".toList).2.path_list = [] :=
  ⟨by decide,
   (get_path_elements_hidden ".hidden/x".toList).1.1 (by decide),
   (get_path_elements_hidden "a/.b/..".toList).2 (by decide),
   (get_path_elements_hidden "x/...".toList).2 (by decide)⟩

/-- C3: on every path string the segment list `get_path_elements` returns holds no
`.` segment, no empty segment and no segment containing `'/'`, and every `..` in it
stands before every segment that is not `..`. -/
theorem get_path_elements_normal (dir : List Char) :
    (∀ t ∈ (get_path_elements dir).2.texts, t ≠ dot ∧ t ≠ [] ∧ '/' ∉ t) ∧
    (get_path_elements dir).2.texts.Pairwise (fun a b => b = dotdot → a = dotdot) := by
  constructor
  · intro t ht
    obtain ⟨pel, hpel, rfl⟩ := List.mem_map.1 ht
    have hg := get_path_elements_good dir pel hpel
    exact ⟨hg.2.2.2, good_pel_text_ne_nil hg, good_pel_no_slash hg⟩
  · obtain ⟨n, k, named, hk, hn, _⟩ :=
      gpe_loop_inv (decide (dir.head? = some '/')) (dir.length + 1) dir 0 [] kept_inv_nil
    have hk' : (get_path_elements dir).2.texts = List.replicate k dotdot ++ named := hk
    rw [hk', List.pairwise_append]
    refine ⟨?_, ?_, ?_⟩
    · rw [List.pairwise_replicate]
      exact Or.inr (fun _ => rfl)
    · rw [List.pairwise_iff_forall_sublist]
      intro a b hab hbd
      have hb : b ∈ named := hab.subset (by simp)
      exact absurd hbd (hn b hb)
    · intro a ha b _ _
      exact List.eq_of_mem_replicate ha

/-- C3, on the path `../a//b/./c`: the list is `[.., a, b, c]`, and its segment `a` is
not `.`, not empty and holds no `'/'`. -/
theorem get_path_elements_normal_witness :
    (get_path_elements "../a//b/./c".toList).2.texts =
      [dotdot, "a".toList, "b".toList, "c".toList] ∧
    ("a".toList ≠ dot ∧ "a".toList ≠ [] ∧ '/' ∉ "a".toList) :=
  ⟨by decide, (get_path_elements_normal "../a//b/./c".toList).1 "a".toList (by decide)⟩

/-- C4 as stated fails: the path `..` consists only of `.`/`..` segments, and the
segment list returned for it is not empty: it holds the `..` segment. -/
theorem get_path_elements_dotdot_kept :
    (∀ t ∈ segments "..".toList, t = dot ∨ t = dotdot) ∧
    (get_path_elements "..".toList).2.texts = [dotdot] ∧
    (get_path_elements "..".toList).2.path_list ≠ [] ∧
    (get_path_elements "./../..".toList).2.texts = [dotdot, dotdot] := by
  decide

/-- C4, amended: on a path that is empty or consists only of `'/'` characters, and on
a path whose segments are all `.`, `get_path_elements` returns an empty segment list;
on a path whose segments are all `.` or `..` it returns one `..` segment for every
`..` segment of the path and nothing else, so the list is empty only when the path
has no `..` segment. -/
theorem get_path_elements_dots (dir : List Char) :
    ((∀ c ∈ dir, c = '/') → (get_path_elements dir).2.path_list = []) ∧
    ((∀ t ∈ segments dir, t = dot) → (get_path_elements dir).2.path_list = []) ∧
    ((∀ t ∈ segments dir, t = dot ∨ t = dotdot) →
      (get_path_elements dir).2.texts =
        List.replicate ((segments dir).count dotdot) dotdot) := by
  have hnd : ¬ hidden_seg dot := fun h => h.2.1 rfl
  have hndd : ¬ hidden_seg dotdot := fun h => h.2.2 rfl
  have main : (∀ t ∈ segments dir, t = dot ∨ t = dotdot) →
      (get_path_elements dir).2.texts =
        List.replicate ((segments dir).count dotdot) dotdot := by
    intro h
    have hno : ∀ t ∈ segments dir, ¬ hidden_seg t := by
      intro t ht
      rcases h t ht with e | e
      · exact e ▸ hnd
      · exact e ▸ hndd
    obtain ⟨pl1, h1, h2⟩ := get_path_elements_no_hidden dir hno
    rw [h1]
    simp only [pel_group.texts]
    rw [h2, reduce_path]
    have := foldl_reduce_dots (segments dir) 0 h
    simpa using this
  have nil_of : (segments dir).count dotdot = 0 →
      (∀ t ∈ segments dir, t = dot ∨ t = dotdot) → (get_path_elements dir).2.path_list = [] := by
    intro hc h
    have := main h
    rw [hc] at this
    simpa [pel_group.texts] using this
  refine ⟨?_, ?_, main⟩
  · intro h
    have hs := segments_all_slash dir h
    exact nil_of (by rw [hs]; rfl) (by rw [hs]; simp)
  · intro h
    refine nil_of ?_ (fun t ht => Or.inl (h t ht))
    rw [List.count_eq_zero]
    intro hmem
    have := h _ hmem
    exact absurd this (by decide)

/-- C4 amended, on the paths ``, `//`, `./.`, `..` and `../.`. -/
theorem get_path_elements_dots_witness :
    (get_path_elements "".toList).2.path_list = [] ∧
    (get_path_elements "//".toList).2.path_list = [] ∧
    (get_path_elements "./.".toList).2.path_list = [] ∧
    (get_path_elements "../.".toList).2.texts = [dotdot] :=
  ⟨(get_path_elements_dots "".toList).1 (by decide),
   (get_path_elements_dots "//".toList).1 (by decide),
   (get_path_elements_dots "./.".toList).2.1 (by decide),
   ((get_path_elements_dots "../.".toList).2.2 (by decide)).trans (by decide)⟩


/-! ## Matching against the tree root (lines 276-295) -/

theorem strncmp_eq_zero : ∀ (n : Nat) (a b : List Char),
    strncmp a b n = 0 → a.take n = b.take n := by
  intro n
  induction n with
  | zero => intro a b _; simp
  | succ n ih =>
    intro a b h
    cases a with
    | nil =>
      cases b with
      | nil => rfl
      | cons y ys => simp [strncmp] at h
    | cons x xs =>
      cases b with
      | nil => simp [strncmp] at h
      | cons y ys =>
        by_cases hxy : x = y
        · subst hxy
          simp only [strncmp, ↓reduceIte] at h
          simp [ih xs ys h]
        · simp only [strncmp, hxy, ↓reduceIte] at h
          split_ifs at h
          exact absurd h (by decide)

theorem strcmp_eq_zero_iff : ∀ (a b : List Char), strcmp a b = 0 ↔ a = b := by
  intro a
  induction a with
  | nil =>
    intro b
    cases b with
    | nil => simp [strcmp]
    | cons y ys => simp [strcmp]
  | cons x xs ih =>
    intro b
    cases b with
    | nil => simp [strcmp]
    | cons y ys =>
      by_cases hxy : x = y
      · subst hxy
        simp [strcmp, ih ys]
      · simp only [strcmp, hxy, ↓reduceIte, List.cons.injEq, false_and, iff_false]
        split_ifs <;> simp

theorem seg_len_append (t r : List Char) (hns : '/' ∉ t)
    (hr : r = [] ∨ ∃ r1, r = '/' :: r1) : seg_len (t ++ r) = t.length := by
  induction t with
  | nil =>
    rcases hr with hr | ⟨r1, hr⟩
    · simp [hr, seg_len]
    · simp [hr, seg_len]
  | cons c t ih =>
    have hc : c ≠ '/' := fun e => hns (by simp [e])
    have ht : '/' ∉ t := fun e => hns (List.mem_cons_of_mem _ e)
    simp [seg_len, hc, ih ht]

/-- The segments of a segment text followed by nothing or by a slash. -/
theorem segments_append (t r : List Char) (hne : t ≠ []) (hns : '/' ∉ t)
    (hr : r = [] ∨ ∃ r1, r = '/' :: r1) : segments (t ++ r) = t :: segments r := by
  cases t with
  | nil => exact absurd rfl hne
  | cons c t1 =>
    have hc : c ≠ '/' := fun e => hns (by simp [e])
    have hl := seg_len_append (c :: t1) r hns hr
    have h := segments_cons_of_ne hc (t1 ++ r)
    rw [List.cons_append] at hl ⊢
    rw [h, hl]
    have e1 : List.take (c :: t1).length (c :: (t1 ++ r)) = c :: t1 := by
      rw [← List.cons_append, List.take_left']
      rfl
    have e2 : List.drop (c :: t1).length (c :: (t1 ++ r)) = r := by
      rw [← List.cons_append, List.drop_left']
      rfl
    rw [e1, e2]

theorem root_loop_head {top : List Char} {pl rest : List path_element}
    (h : root_loop top pl = some rest) : ∃ t, top = '/' :: t := by
  cases pl with
  | nil => simp [root_loop] at h
  | cons pel pl1 =>
    cases top with
    | nil => simp [root_loop] at h
    | cons c top1 =>
      by_cases hc : c = '/'
      · exact ⟨top1, by rw [hc]⟩
      · simp [root_loop, hc] at h

/-- When the root loop runs to its end, the tree root is `/s1/s2/.../sk` for the
first `k` segments of the list, `k ≥ 1`, and the loop has removed exactly these. -/
theorem root_loop_some : ∀ (pl : List path_element) (top : List Char) (rest : List path_element),
    (∀ pel ∈ pl, pel.text ≠ [] ∧ '/' ∉ pel.text) →
    root_loop top pl = some rest →
    pl.map path_element.text = segments top ++ rest.map path_element.text := by
  intro pl
  induction pl with
  | nil => intro top rest _ h; simp [root_loop] at h
  | cons pel pl1 ih =>
    intro top rest hgood h
    cases top with
    | nil => simp [root_loop] at h
    | cons c top1 =>
      have hpel := hgood pel (List.mem_cons_self _ _)
      have hgood1 : ∀ x ∈ pl1, x.text ≠ [] ∧ '/' ∉ x.text :=
        fun x hx => hgood x (List.mem_cons_of_mem _ hx)
      by_cases hc : c = '/'
      · subst hc
        by_cases hs : strncmp top1 pel.path pel.len = 0
        · have htake : top1.take pel.len = pel.text := strncmp_eq_zero _ _ _ hs
          have hsplit : top1 = pel.text ++ top1.drop pel.len := by
            rw [← htake, List.take_append_drop]
          simp only [root_loop, ne_eq, not_true_eq_false, ↓reduceIte, hs] at h
          rw [segments_slash]
          by_cases h2 : top1.drop pel.len = []
          · simp only [h2, not_true_eq_false, ↓reduceIte, Option.some.injEq] at h
            rw [h2, List.append_nil] at hsplit
            rw [hsplit, ← List.append_nil pel.text,
              segments_append pel.text [] hpel.1 hpel.2 (Or.inl rfl), segments_nil, ← h]
            simp
          · simp only [h2, not_false_eq_true, ↓reduceIte] at h
            have hhead := root_loop_head h
            have hrec := ih (top1.drop pel.len) rest hgood1 h
            rw [hsplit, segments_append pel.text _ hpel.1 hpel.2 (Or.inr hhead)]
            simp only [List.map_cons, List.cons_append, List.cons.injEq, true_and]
            rw [hrec]
        · simp [root_loop, hs] at h
      · simp [root_loop, hc] at h

theorem get_path_elements_texts_ok (dir : List Char) :
    ∀ pel ∈ (get_path_elements dir).2.path_list, pel.text ≠ [] ∧ '/' ∉ pel.text :=
  fun pel h =>
    ⟨good_pel_text_ne_nil (get_path_elements_good dir pel h),
     good_pel_no_slash (get_path_elements_good dir pel h)⟩

/-- C5: outside-tree paths give the sentinel 0 and never an error.  For every store,
start directory and tree root, `find_dir_tupid_dt` returns 0, writes nothing through
`last`, leaves the symlink log alone and asks the store nothing, when the path is
hidden, and when the path is root-anchored and its tokenized segments do not begin
with the `'/'`-separated components of the tree root in order (a segment that is a
proper prefix of a root component, a segment that extends one, and too few segments
are all such mismatches). -/
theorem find_dir_tupid_dt_outside {σ : Type} (db : Db σ) (s : σ) (top : List Char)
    (fuel : Nat) (dt : Int) (dir : List Char) (want_last : Bool)
    (symlist : Option (List half_entry))
    (h : (get_path_elements dir).2.is_hidden = true ∨
      ((get_path_elements dir).2.is_root = true ∧
        ¬ segments top <+: (get_path_elements dir).2.texts)) :
    find_dir_tupid_dt db s top fuel dt dir want_last symlist =
      some (.ret ⟨0, none, symlist, []⟩) := by
  have hrc : ¬ (get_path_elements dir).1 < 0 := by rw [get_path_elements_rc]; decide
  rcases h with h | ⟨hroot, hpre⟩
  · simp [find_dir_tupid_dt, hrc, h]
  · by_cases hh : (get_path_elements dir).2.is_hidden = true
    · simp [find_dir_tupid_dt, hrc, hh]
    · cases hrl : root_loop top (get_path_elements dir).2.path_list with
      | none => simp [find_dir_tupid_dt, hrc, hh, hroot, hrl]
      | some rest =>
        exfalso
        apply hpre
        have := root_loop_some _ top rest (get_path_elements_texts_ok dir) hrl
        exact ⟨rest.map path_element.text, this.symm⟩

/-- C5, with the tree root `/home/user`: a hidden path, a foreign root path, a
segment that is a proper prefix of a root component, a segment that extends a root
component, and a path that ends before the root is consumed. -/
theorem find_dir_tupid_dt_outside_witness :
    find_dir_tupid_dt spec_db ⟨[], [], [], [], [], []⟩ "/home/user".toList 0 1
        ".git/config".toList true none = some (.ret ⟨0, none, none, []⟩) ∧
    find_dir_tupid_dt spec_db ⟨[], [], [], [], [], []⟩ "/home/user".toList 0 1
        "/etc/passwd".toList true none = some (.ret ⟨0, none, none, []⟩) ∧
    find_dir_tupid_dt spec_db ⟨[], [], [], [], [], []⟩ "/home/user".toList 0 1
        "/ho/me/user/x".toList true (some []) = some (.ret ⟨0, none, some [], []⟩) ∧
    find_dir_tupid_dt spec_db ⟨[], [], [], [], [], []⟩ "/home/user".toList 0 1
        "/home/username/x".toList false none = some (.ret ⟨0, none, none, []⟩) ∧
    find_dir_tupid_dt spec_db ⟨[], [], [], [], [], []⟩ "/home/user".toList 0 1
        "/home".toList true none = some (.ret ⟨0, none, none, []⟩) :=
  ⟨find_dir_tupid_dt_outside _ _ _ _ _ _ _ _ (Or.inl (by decide)),
   find_dir_tupid_dt_outside _ _ _ _ _ _ _ _ (Or.inr (by decide)),
   find_dir_tupid_dt_outside _ _ _ _ _ _ _ _ (Or.inr (by decide)),
   find_dir_tupid_dt_outside _ _ _ _ _ _ _ _ (Or.inr (by decide)),
   find_dir_tupid_dt_outside _ _ _ _ _ _ _ _ (Or.inr (by decide))⟩

/-- C6: for every start directory `dt` and every path that is not root-anchored, not
hidden and tokenizes to the empty list, `find_dir_tupid_dt` returns `dt`, whether or
not a leaf is requested (`want_last`), whatever the store and the tree root are; it
issues no store query, writes nothing through `last` and leaves the symlink log as
it was. -/
theorem find_dir_tupid_dt_start {σ : Type} (db : Db σ) (s : σ) (top : List Char)
    (fuel : Nat) (dt : Int) (dir : List Char) (want_last : Bool)
    (symlist : Option (List half_entry))
    (hroot : (get_path_elements dir).2.is_root = false)
    (hhid : (get_path_elements dir).2.is_hidden = false)
    (hnil : (get_path_elements dir).2.path_list = []) :
    find_dir_tupid_dt db s top fuel dt dir want_last symlist =
      some (.ret ⟨dt, none, symlist, []⟩) := by
  have hrc : ¬ (get_path_elements dir).1 < 0 := by rw [get_path_elements_rc]; decide
  simp [find_dir_tupid_dt, hrc, hroot, hhid, hnil]

/-- C6, on the paths `.`, the empty path, `./.` and `foo/..`. -/
theorem find_dir_tupid_dt_start_witness :
    find_dir_tupid_dt spec_db ⟨[], [], [], [], [], []⟩ "/home/user".toList 0 7
        ".".toList true (some []) = some (.ret ⟨7, none, some [], []⟩) ∧
    find_dir_tupid_dt spec_db ⟨[], [], [], [], [], []⟩ "/home/user".toList 0 7
        "".toList false none = some (.ret ⟨7, none, none, []⟩) ∧
    find_dir_tupid_dt spec_db ⟨[], [], [], [], [], []⟩ "/home/user".toList 0 7
        "./.".toList false none = some (.ret ⟨7, none, none, []⟩) ∧
    find_dir_tupid_dt spec_db ⟨[], [], [], [], [], []⟩ "/home/user".toList 0 7
        "foo/..".toList true none = some (.ret ⟨7, none, none, []⟩) :=
  ⟨find_dir_tupid_dt_start _ _ _ _ _ _ _ _ (by decide) (by decide) (by decide),
   find_dir_tupid_dt_start _ _ _ _ _ _ _ _ (by decide) (by decide) (by decide),
   find_dir_tupid_dt_start _ _ _ _ _ _ _ _ (by decide) (by decide) (by decide),
   find_dir_tupid_dt_start _ _ _ _ _ _ _ _ (by decide) (by decide) (by decide)⟩


/-! ## The leaf pointer (lines 303-306) -/

/-- C7 at the failing input `b/`: the tokenized list is `[b]`, and the pointer written
through `last` is `pel->path`, the rest of the path string from the first character
of that segment on, which reads `b/` as a C string; `get_dbn_dt` then asks the store
for a node named `b/` and does not find the node `b`. -/
theorem find_dir_tupid_dt_last_runs_on :
    (get_path_elements "b/".toList).2.texts = ["b".toList] ∧
    (∀ {σ : Type} (db : Db σ) (s : σ) (top : List Char) (fuel : Nat) (dt : Int)
      (symlist : Option (List half_entry)),
      find_dir_tupid_dt db s top fuel dt "b/".toList true symlist =
        some (.ret ⟨dt, some "b/".toList, symlist, []⟩)) ∧
    get_dbn_dt spec_db ⟨[⟨5, 1, "b".toList, 0, -1⟩], [], [], [], [], []⟩ [] 0 1 "b".toList
        no_node none =
      some (.ret ⟨5, ⟨5, 1, "b".toList, 0, -1⟩, none, [db_call.select_dbn 1 "b".toList]⟩) ∧
    get_dbn_dt spec_db ⟨[⟨5, 1, "b".toList, 0, -1⟩], [], [], [], [], []⟩ [] 0 1 "b/".toList
        no_node none =
      some (.ret ⟨-1, no_node, none, [db_call.select_dbn 1 "b/".toList]⟩) ∧
    (∀ {σ : Type} (db : Db σ) (s : σ) (top : List Char) (fuel : Nat) (dt : Int)
      (symlist : Option (List half_entry)),
      find_dir_tupid_dt db s top fuel dt "a/b/..".toList true symlist =
        some (.ret ⟨dt, some "a/b/..".toList, symlist, []⟩)) := by
  refine ⟨by decide, ?_, by decide, by decide, ?_⟩
  · intro σ db s top fuel dt symlist
    have h : get_path_elements "b/".toList = (0, ⟨[⟨"b/".toList, 1⟩], false, false⟩) := by
      decide
    simp only [find_dir_tupid_dt, h]
    simp [walk_loop]
  · intro σ db s top fuel dt symlist
    have h : get_path_elements "a/b/..".toList =
        (0, ⟨[⟨"a/b/..".toList, 1⟩], false, false⟩) := by
      decide
    simp only [find_dir_tupid_dt, h]
    simp [walk_loop]

/-! ## The symlink chase (lines 232-248, 324-340) -/

theorem chain_end_cons (n0 m : db_node) (ms : List db_node) :
    chain_end n0 (m :: ms) = chain_end m ms := by
  cases ms <;> rfl

/-- Along a chain the chase ends on the last node, having put one record per link at
the head of the log and issued one lookup per link. -/
theorem sym_chase_chain {σ : Type} (db : Db σ) (s : σ) :
    ∀ (ms : List db_node) (n0 : db_node) (fuel : Nat) (symlist : Option (List half_entry))
      (calls : List db_call),
      chain_from db s n0 ms → ms.length ≤ fuel →
      sym_chase db s fuel n0 symlist calls =
        some ⟨0, chain_end n0 ms,
          symlist.map (fun l => ((chain_links n0 ms).map half_entry_of).reverse ++ l),
          calls ++ (chain_links n0 ms).map (fun n => db_call.select_dbn_by_id n.sym)⟩ := by
  intro ms
  induction ms with
  | nil =>
    intro n0 fuel symlist calls hc _
    have hs : n0.sym = -1 := hc
    cases fuel <;> simp [sym_chase, hs, chain_end, chain_links]
  | cons m ms ih =>
    intro n0 fuel symlist calls hc hf
    obtain ⟨h1, h2, h3, h4⟩ := hc
    cases fuel with
    | zero => simp at hf
    | succ fuel =>
      have hf2 : ms.length ≤ fuel := by simpa using hf
      have h2' : ¬ (db.tup_db_select_dbn_by_id s n0.sym).1 < 0 := by omega
      simp only [sym_chase, ne_eq, h1, not_false_eq_true, ↓reduceIte, h2', h3]
      rw [ih m fuel _ _ h4 hf2]
      simp [chain_end_cons, chain_links, List.dropLast, Option.map_map, Function.comp_def,
        list_add, half_entry_of]

/-- C8 as stated fails on the order of the log: with the chain `a → b → c` (ids 10,
11, 12) in the store and an empty log supplied, both the leaf lookup of `a` by
`get_dbn_dt` and the walk through `a` by `find_dir_tupid_dt` end on `c` and leave
the log reading `(b, a)`, the record of the link traversed last first, not `(a, b)`. -/
theorem symlink_log_newest_first :
    get_dbn_dt spec_db chain_store [] 2 1 "a".toList no_node (some []) =
      some (.ret ⟨12, ⟨12, 1, "c".toList, 2, -1⟩, some [⟨11, 1, 0⟩, ⟨10, 1, 0⟩],
        [db_call.select_dbn 1 "a".toList, db_call.select_dbn_by_id 11,
          db_call.select_dbn_by_id 12]⟩) ∧
    find_dir_tupid_dt spec_db chain_store [] 2 1 "a/x".toList true (some []) =
      some (.ret ⟨12, some "x".toList, some [⟨11, 1, 0⟩, ⟨10, 1, 0⟩],
        [db_call.select_dbn_part 1 "a".toList, db_call.select_dbn_by_id 11,
          db_call.select_dbn_by_id 12]⟩) ∧
    (some [(⟨11, 1, 0⟩ : half_entry), ⟨10, 1, 0⟩] ≠ some [⟨10, 1, 0⟩, ⟨11, 1, 0⟩]) := by
  decide

/-- C8, amended: for every store holding a symlink chain `n0 → n1 → … → nk` whose last
node carries no symlink target, and every hop bound `fuel ≥ k`, the chase started on
`n0` succeeds and ends on `nk`; a supplied log then holds exactly `k` new records, one
per link `n0, …, n(k-1)` with that link's id, directory and type, each put at the
head of the log, so that they read newest first (`n(k-1)` first, `n0` last) ahead of
the records that were already there; and one lookup by id is issued per link.  This is
so where `find_dir_tupid_dt` walks a directory segment that resolves to `n0` (the
walk goes on from `nk`'s id) and where `get_dbn_dt` looks up the leaf and finds `n0`
(it returns `nk`'s id and node). -/
theorem symlink_chain_followed {σ : Type} (db : Db σ) (s : σ) (n0 : db_node)
    (ms : List db_node) (fuel : Nat)
    (hchain : chain_from db s n0 ms) (hfuel : ms.length ≤ fuel) :
    (∀ (symlist : Option (List half_entry)) (calls : List db_call),
      sym_chase db s fuel n0 symlist calls =
        some ⟨0, chain_end n0 ms,
          symlist.map (fun l => ((chain_links n0 ms).map half_entry_of).reverse ++ l),
          calls ++ (chain_links n0 ms).map (fun n => db_call.select_dbn_by_id n.sym)⟩) ∧
    (chain_links n0 ms).length = ms.length ∧
    (∀ (pel : path_element) (rest : List path_element) (dt : Int)
      (symlist : Option (List half_entry)) (calls : List db_call),
      ¬ (pel.len = 2 ∧ pel.path.get? 0 = some '.' ∧ pel.path.get? 1 = some '.') →
      0 ≤ (db.tup_db_select_dbn_part s dt pel.text).1 →
      (db.tup_db_select_dbn_part s dt pel.text).2 = n0 →
      walk_loop db s fuel (pel :: rest) dt symlist calls =
        walk_loop db s fuel rest (chain_end n0 ms).tupid
          (symlist.map (fun l => ((chain_links n0 ms).map half_entry_of).reverse ++ l))
          (calls ++ [db_call.select_dbn_part dt pel.text] ++
            (chain_links n0 ms).map (fun n => db_call.select_dbn_by_id n.sym))) ∧
    (∀ (top : List Char) (dt : Int) (path : List Char) (dbn0 : db_node)
      (symlist : Option (List half_entry)) (f : find_result) (file : List Char),
      find_dir_tupid_dt db s top fuel dt path true symlist = some (.ret f) →
      0 ≤ f.rv → f.last = some file →
      0 ≤ (db.tup_db_select_dbn s f.rv file).1 →
      (db.tup_db_select_dbn s f.rv file).2 = n0 →
      get_dbn_dt db s top fuel dt path dbn0 symlist =
        some (.ret ⟨(chain_end n0 ms).tupid, chain_end n0 ms,
          f.symlist.map (fun l => ((chain_links n0 ms).map half_entry_of).reverse ++ l),
          f.calls ++ [db_call.select_dbn f.rv file] ++
            (chain_links n0 ms).map (fun n => db_call.select_dbn_by_id n.sym)⟩)) := by
  refine ⟨fun symlist calls => sym_chase_chain db s ms n0 fuel symlist calls hchain hfuel,
    by simp [chain_links], ?_, ?_⟩
  · intro pel rest dt symlist calls hnd hrc hn
    have hrc' : ¬ (db.tup_db_select_dbn_part s dt pel.text).1 < 0 := by omega
    rw [walk_loop, if_neg hnd]
    simp only [hrc', ↓reduceIte, hn]
    rw [sym_chase_chain db s ms n0 fuel _ _ hchain hfuel]
    simp
  · intro top dt path dbn0 symlist f file hf hrv hlast hrc hn
    have hrv' : ¬ f.rv < 0 := by omega
    have hrc' : ¬ (db.tup_db_select_dbn s f.rv file).1 < 0 := by omega
    simp only [get_dbn_dt, hf, hrv', ↓reduceIte, hlast, hrc', hn]
    rw [sym_chase_chain db s ms n0 fuel _ _ hchain hfuel]
    simp

/-- C8 amended, on the chain `a → b → c`: the chase from `a` ends on `c` and a log
that held one record reads `(b, a)` followed by that record. -/
theorem symlink_chain_followed_witness :
    chain_from spec_db chain_store ⟨10, 1, "a".toList, 0, 11⟩
      [⟨11, 1, "b".toList, 0, 12⟩, ⟨12, 1, "c".toList, 2, -1⟩] ∧
    sym_chase spec_db chain_store 2 ⟨10, 1, "a".toList, 0, 11⟩ (some [⟨99, 1, 0⟩]) [] =
      some ⟨0, ⟨12, 1, "c".toList, 2, -1⟩, some [⟨11, 1, 0⟩, ⟨10, 1, 0⟩, ⟨99, 1, 0⟩],
        [db_call.select_dbn_by_id 11, db_call.select_dbn_by_id 12]⟩ :=
  ⟨by decide,
   ((symlink_chain_followed spec_db chain_store ⟨10, 1, "a".toList, 0, 11⟩
      [⟨11, 1, "b".toList, 0, 12⟩, ⟨12, 1, "c".toList, 2, -1⟩] 2 (by decide) (by decide)).1
      (some [⟨99, 1, 0⟩]) []).trans (by decide)⟩


/-! ## Variables: `create_var_file` (lines 89-121) -/

theorem mem_queue_add (id : Int) (q : List Int) : id ∈ queue_add id q := by
  unfold queue_add
  split_ifs with h
  · exact h
  · simp

/-- C9: when the variable node exists under `VAR_DT` (the lookup succeeds and finds
it), its stored value is read successfully and equals `value`, and clearing the
pending-delete flag succeeds, `create_var_file(var, value)` returns 0 and the store
afterwards is the store before with the single operation `tup_db_unflag_delete` applied
to that node: no create-list, modify-list or set-variable operation is applied, so
everything that clearing the pending-delete flag leaves alone (the create queue, the
modify queue, the stored value) is unchanged.  On the store modelled from section 6
this reads: the node is no longer flagged for deletion, and the create queue, the
modify queue, the variable values and the nodes are what they were. -/
theorem create_var_file_same_value :
    (∀ {σ : Type} (db : Db σ) (s : σ) (var value : List Char),
      0 ≤ (db.tup_db_select_dbn s db.VAR_DT var).1 →
      0 ≤ (db.tup_db_select_dbn s db.VAR_DT var).2.tupid →
      0 ≤ (db.tup_db_get_var_id s (db.tup_db_select_dbn s db.VAR_DT var).2.tupid).1 →
      (db.tup_db_get_var_id s (db.tup_db_select_dbn s db.VAR_DT var).2.tupid).2 = value →
      0 ≤ (db.tup_db_unflag_delete s (db.tup_db_select_dbn s db.VAR_DT var).2.tupid).1 →
      create_var_file db var value s =
          (0, (db.tup_db_unflag_delete s (db.tup_db_select_dbn s db.VAR_DT var).2.tupid).2) ∧
        ∀ {β : Type} (obs : σ → β),
          (∀ t i, obs (db.tup_db_unflag_delete t i).2 = obs t) →
          obs (create_var_file db var value s).2 = obs s) ∧
    (∀ (s : store) (var value : List Char),
      0 ≤ (s.select 2 var).tupid →
      s.get_var (s.select 2 var).tupid = (0, value) →
      (create_var_file spec_db var value s).1 = 0 ∧
        (s.select 2 var).tupid ∉ (create_var_file spec_db var value s).2.delete_list ∧
        (create_var_file spec_db var value s).2.create_list = s.create_list ∧
        (create_var_file spec_db var value s).2.modify_list = s.modify_list ∧
        (create_var_file spec_db var value s).2.vars = s.vars ∧
        (create_var_file spec_db var value s).2.nodes = s.nodes) := by
  have gen : ∀ {σ : Type} (db : Db σ) (s : σ) (var value : List Char),
      0 ≤ (db.tup_db_select_dbn s db.VAR_DT var).1 →
      0 ≤ (db.tup_db_select_dbn s db.VAR_DT var).2.tupid →
      0 ≤ (db.tup_db_get_var_id s (db.tup_db_select_dbn s db.VAR_DT var).2.tupid).1 →
      (db.tup_db_get_var_id s (db.tup_db_select_dbn s db.VAR_DT var).2.tupid).2 = value →
      0 ≤ (db.tup_db_unflag_delete s (db.tup_db_select_dbn s db.VAR_DT var).2.tupid).1 →
      create_var_file db var value s =
        (0, (db.tup_db_unflag_delete s (db.tup_db_select_dbn s db.VAR_DT var).2.tupid).2) := by
    intro σ db s var value h1 h2 h3 h4 h5
    have h1' : ¬ (db.tup_db_select_dbn s db.VAR_DT var).1 < 0 := by omega
    have h2' : ¬ (db.tup_db_select_dbn s db.VAR_DT var).2.tupid < 0 := by omega
    have h3' : ¬ (db.tup_db_get_var_id s (db.tup_db_select_dbn s db.VAR_DT var).2.tupid).1 < 0 := by
      omega
    have h5' : ¬ (db.tup_db_unflag_delete s (db.tup_db_select_dbn s db.VAR_DT var).2.tupid).1 < 0 := by
      omega
    have h4' : strcmp (db.tup_db_get_var_id s (db.tup_db_select_dbn s db.VAR_DT var).2.tupid).2
        value = 0 := (strcmp_eq_zero_iff _ _).2 h4
    simp only [create_var_file, h1', h2', h3', h4', h5', ↓reduceIte]
  constructor
  · intro σ db s var value h1 h2 h3 h4 h5
    refine ⟨gen db s var value h1 h2 h3 h4 h5, ?_⟩
    intro β obs hobs
    rw [gen db s var value h1 h2 h3 h4 h5]
    exact hobs _ _
  · intro s var value hid hv
    have e := gen spec_db s var value (by simp [spec_db]) (by simpa [spec_db] using hid)
      (by simp [spec_db, hv]) (by simp [spec_db, hv]) (by simp [spec_db, store.unflag_delete])
    rw [e]
    simp [spec_db, store.unflag_delete]

/-- C9, declaring `CC = gcc` twice in a row: the second declaration returns 0 and
leaves the store as the first one left it; and on a store where `CC = gcc` is flagged
for deletion it only clears that flag. -/
theorem create_var_file_same_value_witness :
    create_var_file spec_db "CC".toList "gcc".toList
        (create_var_file spec_db "CC".toList "gcc".toList ⟨[], [], [], [], [], []⟩).2 =
      (0, (create_var_file spec_db "CC".toList "gcc".toList ⟨[], [], [], [], [], []⟩).2) ∧
    create_var_file spec_db "CC".toList "gcc".toList var_store =
      (0, ⟨[⟨7, 2, "CC".toList, 3, -1⟩], [1], [], [], [(7, "gcc".toList)], []⟩) :=
  ⟨((create_var_file_same_value.1 spec_db
      (create_var_file spec_db "CC".toList "gcc".toList ⟨[], [], [], [], [], []⟩).2
      "CC".toList "gcc".toList (by decide) (by decide) (by decide) (by decide)
      (by decide)).1).trans (by decide),
   ((create_var_file_same_value.1 spec_db var_store "CC".toList "gcc".toList (by decide)
      (by decide) (by decide) (by decide) (by decide)).1).trans (by decide)⟩

/-- C10 as stated fails on the return value: on a store where the variable `CC` is
node 7 with the value `gcc`, `create_var_file("CC", "clang")` returns what the store's
set-variable operation returns, the status 0, not the node id 7; the node is put on
both queues, its pending-delete flag is cleared and the new value is stored. -/
theorem create_var_file_returns_status :
    (spec_db.tup_db_select_dbn var_store spec_db.VAR_DT "CC".toList).2.tupid = 7 ∧
    create_var_file spec_db "CC".toList "clang".toList var_store =
      (0, ⟨[⟨7, 2, "CC".toList, 3, -1⟩], [1, 7], [7], [], [(7, "clang".toList)], []⟩) ∧
    (create_var_file spec_db "CC".toList "clang".toList var_store).1 ≠ 7 := by
  decide

/-- C10, amended: when the variable node exists under `VAR_DT`, its stored value is
read successfully and differs from `value`, and the create-list, modify-list and
unflag-delete operations succeed, `create_var_file(var, value)` applies to the store, in
this order, `tup_db_add_create_list`, `tup_db_add_modify_list` and
`tup_db_unflag_delete` on that node and then `tup_db_set_var` with the new value, and
it returns what `tup_db_set_var` returns (line 120), which is that operation's status
and not the node id.  On the store modelled from section 6 this reads: the call
returns 0, the node is on the create queue and on the modify queue, it is not flagged
for deletion, and its stored value is `value`. -/
theorem create_var_file_new_value :
    (∀ {σ : Type} (db : Db σ) (s : σ) (var value : List Char),
      0 ≤ (db.tup_db_select_dbn s db.VAR_DT var).1 →
      0 ≤ (db.tup_db_select_dbn s db.VAR_DT var).2.tupid →
      0 ≤ (db.tup_db_get_var_id s (db.tup_db_select_dbn s db.VAR_DT var).2.tupid).1 →
      (db.tup_db_get_var_id s (db.tup_db_select_dbn s db.VAR_DT var).2.tupid).2 ≠ value →
      0 ≤ (db.tup_db_add_create_list s (db.tup_db_select_dbn s db.VAR_DT var).2.tupid).1 →
      0 ≤ (db.tup_db_add_modify_list
            (db.tup_db_add_create_list s (db.tup_db_select_dbn s db.VAR_DT var).2.tupid).2
            (db.tup_db_select_dbn s db.VAR_DT var).2.tupid).1 →
      0 ≤ (db.tup_db_unflag_delete
            (db.tup_db_add_modify_list
              (db.tup_db_add_create_list s (db.tup_db_select_dbn s db.VAR_DT var).2.tupid).2
              (db.tup_db_select_dbn s db.VAR_DT var).2.tupid).2
            (db.tup_db_select_dbn s db.VAR_DT var).2.tupid).1 →
      create_var_file db var value s =
        db.tup_db_set_var
          (db.tup_db_unflag_delete
            (db.tup_db_add_modify_list
              (db.tup_db_add_create_list s (db.tup_db_select_dbn s db.VAR_DT var).2.tupid).2
              (db.tup_db_select_dbn s db.VAR_DT var).2.tupid).2
            (db.tup_db_select_dbn s db.VAR_DT var).2.tupid).2
          (db.tup_db_select_dbn s db.VAR_DT var).2.tupid value) ∧
    (∀ (s : store) (var value old : List Char),
      0 ≤ (s.select 2 var).tupid →
      s.get_var (s.select 2 var).tupid = (0, old) → old ≠ value →
      (create_var_file spec_db var value s).1 = 0 ∧
        (s.select 2 var).tupid ∈ (create_var_file spec_db var value s).2.create_list ∧
        (s.select 2 var).tupid ∈ (create_var_file spec_db var value s).2.modify_list ∧
        (s.select 2 var).tupid ∉ (create_var_file spec_db var value s).2.delete_list ∧
        (create_var_file spec_db var value s).2.get_var (s.select 2 var).tupid = (0, value) ∧
        (create_var_file spec_db var value s).2.nodes = s.nodes) := by
  have gen : ∀ {σ : Type} (db : Db σ) (s : σ) (var value : List Char),
      0 ≤ (db.tup_db_select_dbn s db.VAR_DT var).1 →
      0 ≤ (db.tup_db_select_dbn s db.VAR_DT var).2.tupid →
      0 ≤ (db.tup_db_get_var_id s (db.tup_db_select_dbn s db.VAR_DT var).2.tupid).1 →
      (db.tup_db_get_var_id s (db.tup_db_select_dbn s db.VAR_DT var).2.tupid).2 ≠ value →
      0 ≤ (db.tup_db_add_create_list s (db.tup_db_select_dbn s db.VAR_DT var).2.tupid).1 →
      0 ≤ (db.tup_db_add_modify_list
            (db.tup_db_add_create_list s (db.tup_db_select_dbn s db.VAR_DT var).2.tupid).2
            (db.tup_db_select_dbn s db.VAR_DT var).2.tupid).1 →
      0 ≤ (db.tup_db_unflag_delete
            (db.tup_db_add_modify_list
              (db.tup_db_add_create_list s (db.tup_db_select_dbn s db.VAR_DT var).2.tupid).2
              (db.tup_db_select_dbn s db.VAR_DT var).2.tupid).2
            (db.tup_db_select_dbn s db.VAR_DT var).2.tupid).1 →
      create_var_file db var value s =
        db.tup_db_set_var
          (db.tup_db_unflag_delete
            (db.tup_db_add_modify_list
              (db.tup_db_add_create_list s (db.tup_db_select_dbn s db.VAR_DT var).2.tupid).2
              (db.tup_db_select_dbn s db.VAR_DT var).2.tupid).2
            (db.tup_db_select_dbn s db.VAR_DT var).2.tupid).2
          (db.tup_db_select_dbn s db.VAR_DT var).2.tupid value := by
    intro σ db s var value h1 h2 h3 h4 h5 h6 h7
    have h1' : ¬ (db.tup_db_select_dbn s db.VAR_DT var).1 < 0 := by omega
    have h2' : ¬ (db.tup_db_select_dbn s db.VAR_DT var).2.tupid < 0 := by omega
    have h3' : ¬ (db.tup_db_get_var_id s (db.tup_db_select_dbn s db.VAR_DT var).2.tupid).1 < 0 := by
      omega
    have h4' : ¬ strcmp (db.tup_db_get_var_id s (db.tup_db_select_dbn s db.VAR_DT var).2.tupid).2
        value = 0 := fun e => h4 ((strcmp_eq_zero_iff _ _).1 e)
    have h5' := not_lt.2 h5
    have h6' := not_lt.2 h6
    have h7' := not_lt.2 h7
    simp only [create_var_file, h1', h2', h3', h4', h5', h6', h7', ↓reduceIte]
  refine ⟨gen, ?_⟩
  intro s var value old hid hv hne
  have e := gen spec_db s var value (by simp [spec_db]) (by simpa [spec_db] using hid)
    (by simp [spec_db, hv]) (by simpa [spec_db, hv] using hne)
    (by simp [spec_db, store.add_create_list])
    (by simp [spec_db, store.add_modify_list])
    (by simp [spec_db, store.unflag_delete])
  rw [e]
  simp [spec_db, store.unflag_delete, store.add_modify_list, store.add_create_list,
    store.set_var, store.get_var, mem_queue_add]

/-- C10 amended, on the store where `CC` is node 7 with the value `gcc`: declaring
`CC = clang` returns 0, puts node 7 on both queues, clears its pending-delete flag
and stores `clang`. -/
theorem create_var_file_new_value_witness :
    create_var_file spec_db "CC".toList "clang".toList var_store =
      (0, ⟨[⟨7, 2, "CC".toList, 3, -1⟩], [1, 7], [7], [], [(7, "clang".toList)], []⟩) :=
  (create_var_file_new_value.1 spec_db var_store "CC".toList "clang".toList (by decide)
    (by decide) (by decide) (by decide) (by decide) (by decide) (by decide)).trans (by decide)


/-! ## Modify and delete events: `tup_file_mod` (lines 123-169) -/

theorem mem_queue_add_of_mem {i : Int} (id : Int) {q : List Int} (h : i ∈ q) :
    i ∈ queue_add id q := by
  unfold queue_add
  split_ifs
  · exact h
  · exact List.mem_append_left _ h

theorem mem_queue_add_all_of_mem {i : Int} (ids : List Int) :
    ∀ {q : List Int}, i ∈ q → i ∈ queue_add_all ids q := by
  induction ids with
  | nil => intro q h; exact h
  | cons a ids ih =>
    intro q h
    exact ih (mem_queue_add_of_mem a h)

theorem mem_queue_add_all {i : Int} (ids : List Int) :
    ∀ {q : List Int}, i ∈ ids → i ∈ queue_add_all ids q := by
  induction ids with
  | nil => intro q h; simp at h
  | cons a ids ih =>
    intro q h
    rcases List.mem_cons.1 h with h | h
    · subst h
      exact mem_queue_add_all_of_mem ids (mem_queue_add i q)
    · exact ih h

theorem mem_queue_add_iff (i id : Int) (q : List Int) :
    i ∈ queue_add id q ↔ i ∈ q ∨ i = id := by
  unfold queue_add
  split_ifs with h
  · constructor
    · exact Or.inl
    · rintro (h1 | h1)
      · exact h1
      · exact h1 ▸ h
  · simp

theorem mem_queue_add_all_iff (i : Int) (ids : List Int) :
    ∀ q : List Int, i ∈ queue_add_all ids q ↔ i ∈ q ∨ i ∈ ids := by
  induction ids with
  | nil => intro q; simp [queue_add_all]
  | cons a ids ih =>
    intro q
    have h := ih (queue_add a q)
    simp only [queue_add_all, List.foldl_cons] at h ⊢
    rw [h, mem_queue_add_iff, List.mem_cons, or_assoc]

/-- What the Modify branch of `tup_file_mod` does once the lookup has succeeded: the
optional `tup_db_add_create_list(dt)` of lines 134-137, then the creation or the
type check and the two flag operations. -/
theorem tup_file_mod_on_modify {σ : Type} (db : Db σ) (s : σ) (dt : Int) (name : List Char)
    (rc : Int) (dbn : db_node) (hsel : db.tup_db_select_dbn s dt name = (rc, dbn))
    (hrc : 0 ≤ rc) :
    tup_file_mod db dt name db.TUP_FLAGS_MODIFY s =
      (let c := if dbn.tupid < 0 ∨ name = tupfile_name then db.tup_db_add_create_list s dt
                else (0, s)
       if c.1 < 0 then (-1, c.2)
       else if dbn.tupid < 0 then
         let n := db.tup_db_create_node c.2 dt name db.TUP_NODE_FILE
         if n.1 < 0 then (-1, n.2) else n
       else if dbn.type ≠ db.TUP_NODE_FILE ∧ dbn.type ≠ db.TUP_NODE_GENERATED then (-1, c.2)
       else
         let f := db.tup_db_set_flags_by_id c.2 dbn.tupid db.TUP_FLAGS_MODIFY
         if f.1 < 0 then (-1, f.2)
         else
           let d := db.tup_db_set_dependent_dir_flags f.2 dbn.tupid
           if d.1 < 0 then (-1, d.2) else (dbn.tupid, d.2)) := by
  have hrc' : ¬ rc < 0 := by omega
  simp only [tup_file_mod, hsel, hrc', ↓reduceIte, strcmp_eq_zero_iff, create_name_file]

/-- C11 as stated fails in its "only if": in `tree_store` the node `main.c` (node 4)
exists in directory 3 and its name is not `Tupfile`, directory 3 is not on the create
queue, and after `tup_file_mod(3, "main.c", TUP_FLAGS_MODIFY)` directory 3 is on the
create queue: the Tupfile of directory 3 includes `main.c`, and the propagation of
line 155 queues the directories that depend on the node. -/
theorem tup_file_mod_queues_by_propagation :
    (spec_db.tup_db_select_dbn tree_store 3 "main.c".toList).2 =
      ⟨4, 3, "main.c".toList, 0, -1⟩ ∧
    "main.c".toList ≠ tupfile_name ∧
    (3 : Int) ∉ tree_store.create_list ∧
    (tup_file_mod spec_db 3 "main.c".toList 1 tree_store).1 = 4 ∧
    (3 : Int) ∈ (tup_file_mod spec_db 3 "main.c".toList 1 tree_store).2.create_list := by
  decide

/-- C11, amended: `tup_file_mod(dt, name, TUP_FLAGS_MODIFY)` on a store whose
operations succeed.  The operation `tup_db_add_create_list(dt)` is applied exactly when
the lookup found no node (`tupid < 0`) or `name` is `Tupfile`.  When no node exists,
the node is created with `tup_db_create_node(dt, name, TUP_NODE_FILE)` and the id that
operation returns is returned.  When it exists with type File or GeneratedFile,
`tup_db_set_flags_by_id(tupid, TUP_FLAGS_MODIFY)` and then
`tup_db_set_dependent_dir_flags(tupid)` are applied and the existing id is returned.
When it exists with another type, the store is left with at most that one operation
applied.
On the store modelled from section 6: a missing node is created as a File row with
a fresh id, which is returned, and `dt` is on the create queue; an existing File or
GeneratedFile node is on the modify queue afterwards, its id is returned, and `dt` is
on the create queue when the name is `Tupfile`; when the name is not `Tupfile`, `dt`
is on the create queue afterwards exactly when it was there before or `dt` is a
directory with a dependency edge from the node, that is, it gets there only through
the propagation. -/
theorem tup_file_mod_modify :
    (∀ {σ : Type} (db : Db σ) (s : σ) (dt : Int) (name : List Char) (rc : Int) (dbn : db_node),
      db.tup_db_select_dbn s dt name = (rc, dbn) → 0 ≤ rc →
      (dbn.tupid < 0 →
        0 ≤ (db.tup_db_add_create_list s dt).1 →
        0 ≤ (db.tup_db_create_node (db.tup_db_add_create_list s dt).2 dt name
              db.TUP_NODE_FILE).1 →
        tup_file_mod db dt name db.TUP_FLAGS_MODIFY s =
          db.tup_db_create_node (db.tup_db_add_create_list s dt).2 dt name
            db.TUP_NODE_FILE) ∧
      (0 ≤ dbn.tupid → name = tupfile_name →
        (dbn.type = db.TUP_NODE_FILE ∨ dbn.type = db.TUP_NODE_GENERATED) →
        0 ≤ (db.tup_db_add_create_list s dt).1 →
        0 ≤ (db.tup_db_set_flags_by_id (db.tup_db_add_create_list s dt).2 dbn.tupid
              db.TUP_FLAGS_MODIFY).1 →
        0 ≤ (db.tup_db_set_dependent_dir_flags
              (db.tup_db_set_flags_by_id (db.tup_db_add_create_list s dt).2 dbn.tupid
                db.TUP_FLAGS_MODIFY).2 dbn.tupid).1 →
        tup_file_mod db dt name db.TUP_FLAGS_MODIFY s =
          (dbn.tupid,
            (db.tup_db_set_dependent_dir_flags
              (db.tup_db_set_flags_by_id (db.tup_db_add_create_list s dt).2 dbn.tupid
                db.TUP_FLAGS_MODIFY).2 dbn.tupid).2)) ∧
      (0 ≤ dbn.tupid → name ≠ tupfile_name →
        (dbn.type = db.TUP_NODE_FILE ∨ dbn.type = db.TUP_NODE_GENERATED) →
        0 ≤ (db.tup_db_set_flags_by_id s dbn.tupid db.TUP_FLAGS_MODIFY).1 →
        0 ≤ (db.tup_db_set_dependent_dir_flags
              (db.tup_db_set_flags_by_id s dbn.tupid db.TUP_FLAGS_MODIFY).2 dbn.tupid).1 →
        tup_file_mod db dt name db.TUP_FLAGS_MODIFY s =
          (dbn.tupid,
            (db.tup_db_set_dependent_dir_flags
              (db.tup_db_set_flags_by_id s dbn.tupid db.TUP_FLAGS_MODIFY).2 dbn.tupid).2)) ∧
      (0 ≤ dbn.tupid → dbn.type ≠ db.TUP_NODE_FILE → dbn.type ≠ db.TUP_NODE_GENERATED →
        (tup_file_mod db dt name db.TUP_FLAGS_MODIFY s).2 =
          (if name = tupfile_name then db.tup_db_add_create_list s dt else (0, s)).2)) ∧
    (∀ (s : store) (dt : Int) (name : List Char),
      (s.nodes.find? (fun n => n.dt = dt ∧ n.name = name) = none →
        (tup_file_mod spec_db dt name 1 s).1 = s.fresh ∧
        dt ∈ (tup_file_mod spec_db dt name 1 s).2.create_list ∧
        (tup_file_mod spec_db dt name 1 s).2.select dt name = ⟨s.fresh, dt, name, 0, -1⟩) ∧
      (0 ≤ (s.select dt name).tupid →
        ((s.select dt name).type = 0 ∨ (s.select dt name).type = 4) →
        (tup_file_mod spec_db dt name 1 s).1 = (s.select dt name).tupid ∧
        (s.select dt name).tupid ∈ (tup_file_mod spec_db dt name 1 s).2.modify_list ∧
        (name = tupfile_name → dt ∈ (tup_file_mod spec_db dt name 1 s).2.create_list) ∧
        (tup_file_mod spec_db dt name 1 s).2.nodes = s.nodes ∧
        (name ≠ tupfile_name →
          (dt ∈ (tup_file_mod spec_db dt name 1 s).2.create_list ↔
            dt ∈ s.create_list ∨
              (((s.select dt name).tupid, dt) ∈ s.links ∧ (s.select_by_id dt).type = 2))))) := by
  constructor
  · intro σ db s dt name rc dbn hsel hrc
    have e := tup_file_mod_on_modify db s dt name rc dbn hsel hrc
    refine ⟨?_, ?_, ?_, ?_⟩
    · intro hno h1 h2
      rw [e]
      simp [hno, not_lt.2 h1, not_lt.2 h2]
    · intro hex hname htype h1 h2 h3
      have hok : ¬ (dbn.type ≠ db.TUP_NODE_FILE ∧ dbn.type ≠ db.TUP_NODE_GENERATED) := by
        rcases htype with h | h <;> simp [h]
      rw [e]
      simp only [hname, or_true, ↓reduceIte, not_lt.2 h1, not_lt.2 hex, hok,
        not_lt.2 h2, not_lt.2 h3]
    · intro hex hname htype h2 h3
      have hok : ¬ (dbn.type ≠ db.TUP_NODE_FILE ∧ dbn.type ≠ db.TUP_NODE_GENERATED) := by
        rcases htype with h | h <;> simp [h]
      rw [e]
      simp only [hname, or_false, not_lt.2 hex, ↓reduceIte, hok, not_lt.2 h2, not_lt.2 h3,
        lt_self_iff_false]
    · intro hex h1 h2
      rw [e]
      simp only [not_lt.2 hex, false_or, ↓reduceIte, ne_eq, h1, not_false_eq_true, h2, and_self]
      split_ifs <;> rfl
  · intro s dt name
    have e := tup_file_mod_on_modify spec_db s dt name 0 (s.select dt name) rfl (le_refl _)
    constructor
    · intro hnone
      have hsel : s.select dt name = no_node := by
        unfold store.select; rw [hnone]; rfl
      have hcr : ∀ (t : store), t.nodes = s.nodes →
          t.create_node dt name 0 =
            (s.fresh, { t with nodes := s.nodes ++ [⟨s.fresh, dt, name, 0, -1⟩] }) := by
        intro t ht
        have hselt : t.select dt name = no_node := by
          unfold store.select; rw [ht, hnone]; rfl
        have hfr : t.fresh = s.fresh := by unfold store.fresh; rw [ht]
        unfold store.create_node
        rw [hselt, hfr, ht]
        rfl
      have hrule : (tup_file_mod spec_db dt name 1 s) =
          (s.fresh, { (s.add_create_list dt).2 with
            nodes := s.nodes ++ [⟨s.fresh, dt, name, 0, -1⟩] }) := by
        have e' : tup_file_mod spec_db dt name spec_db.TUP_FLAGS_MODIFY s = _ := e
        rw [show (1 : Int) = spec_db.TUP_FLAGS_MODIFY from rfl, e', hsel]
        have h1 := hcr (s.add_create_list dt).2 rfl
        have hfresh : ¬ s.fresh < 0 := by
          unfold store.fresh
          have : ∀ (l : List Int) (a : Int), 0 ≤ a → 0 ≤ l.foldl max a := by
            intro l
            induction l with
            | nil => intro a ha; exact ha
            | cons x l ih => intro a ha; exact ih _ (le_max_of_le_left ha)
          have := this (s.nodes.map db_node.tupid) 0 (le_refl _)
          omega
        simp only [no_node, spec_db, store.add_create_list] at h1 ⊢
        simp [h1, hfresh]
      rw [hrule]
      refine ⟨rfl, ?_, ?_⟩
      · simp [store.add_create_list, mem_queue_add]
      · unfold store.select
        simp only [store.add_create_list]
        rw [List.find?_append, hnone]
        simp
    · intro hex htype
      have hok : ¬ ((s.select dt name).type ≠ 0 ∧ (s.select dt name).type ≠ 4) := by
        rcases htype with h | h <;> simp [h]
      have e' : tup_file_mod spec_db dt name spec_db.TUP_FLAGS_MODIFY s = _ := e
      rw [show (1 : Int) = spec_db.TUP_FLAGS_MODIFY from rfl, e']
      by_cases hname : name = tupfile_name
      · simp [hname, spec_db, store.add_create_list, store.set_flags,
          store.set_dependent_dir_flags, not_lt.2 (hname ▸ hex), hname ▸ hok,
          mem_queue_add, mem_queue_add_all_of_mem]
      · have hform :
            (let c := if (s.select dt name).tupid < 0 ∨ name = tupfile_name then
                  spec_db.tup_db_add_create_list s dt
                else (0, s)
             if c.1 < 0 then (-1, c.2)
             else if (s.select dt name).tupid < 0 then
               let n := spec_db.tup_db_create_node c.2 dt name spec_db.TUP_NODE_FILE
               if n.1 < 0 then (-1, n.2) else n
             else if (s.select dt name).type ≠ spec_db.TUP_NODE_FILE ∧
                 (s.select dt name).type ≠ spec_db.TUP_NODE_GENERATED then (-1, c.2)
             else
               let f := spec_db.tup_db_set_flags_by_id c.2 (s.select dt name).tupid
                 spec_db.TUP_FLAGS_MODIFY
               if f.1 < 0 then (-1, f.2)
               else
                 let d := spec_db.tup_db_set_dependent_dir_flags f.2 (s.select dt name).tupid
                 if d.1 < 0 then (-1, d.2) else ((s.select dt name).tupid, d.2)) =
            ((s.select dt name).tupid,
              { s with
                create_list := queue_add_all
                  ((s.links.filter (fun l => l.1 = (s.select dt name).tupid ∧
                    (s.select_by_id l.2).type = 2)).map Prod.snd) s.create_list
                modify_list := queue_add (s.select dt name).tupid s.modify_list }) := by
          have hok' : ¬ ((s.select dt name).type ≠ spec_db.TUP_NODE_FILE ∧
              (s.select dt name).type ≠ spec_db.TUP_NODE_GENERATED) := hok
          simp only [hname, or_false, not_lt.2 hex, ↓reduceIte, hok']
          simp [spec_db, store.set_flags, store.set_dependent_dir_flags, store.select_by_id]
        rw [hform]
        refine ⟨rfl, mem_queue_add _ _, fun h => absurd h hname, rfl, fun _ => ?_⟩
        simp only [mem_queue_add_all_iff, List.mem_map, List.mem_filter, decide_eq_true_eq,
          Prod.exists, exists_eq_right]
        constructor
        · rintro (h | ⟨a, h1, h2, h3⟩)
          · exact Or.inl h
          · exact Or.inr ⟨h2 ▸ h1, h3⟩
        · rintro (h | ⟨h1, h3⟩)
          · exact Or.inl h
          · exact Or.inr ⟨_, h1, rfl, h3⟩


/-- C11 amended, on the store `tree_store`: a Modify of the unknown `new.c` in directory 3
puts 3 on the create queue and returns the id 13 of the File node it creates; a
Modify of `Tupfile` (node 10) puts 3 on the create queue and 10 on the modify queue;
a Modify of the existing `deep.c` (node 9, in directory 8) only puts 9 on the modify
queue.  A Modify of the existing `main.c` (node 4) applies no
`tup_db_add_create_list` either; directory 3 still reaches the create queue there,
through `tup_db_set_dependent_dir_flags`, because its Tupfile includes `main.c`. -/
theorem tup_file_mod_modify_witness :
    tup_file_mod spec_db 3 "main.c".toList 1 tree_store =
      (4, (spec_db.tup_db_set_dependent_dir_flags
        (spec_db.tup_db_set_flags_by_id tree_store 4 1).2 4).2) ∧
    (spec_db.tup_db_set_flags_by_id tree_store 4 1).2 =
      { tree_store with modify_list := [4] } ∧
    (spec_db.tup_db_set_dependent_dir_flags { tree_store with modify_list := [4] } 4).2 =
      { tree_store with create_list := [3], modify_list := [4] } ∧
    tup_file_mod spec_db 3 "new.c".toList 1 tree_store =
      (13, { tree_store with
        nodes := tree_store.nodes ++ [⟨13, 3, "new.c".toList, 0, -1⟩], create_list := [3] }) ∧
    tup_file_mod spec_db 3 "Tupfile".toList 1 tree_store =
      (10, { tree_store with create_list := [3], modify_list := [10] }) ∧
    tup_file_mod spec_db 8 "deep.c".toList 1 tree_store =
      (9, { tree_store with modify_list := [9] }) :=
  ⟨((tup_file_mod_modify.1 spec_db tree_store 3 "main.c".toList 0
      ⟨4, 3, "main.c".toList, 0, -1⟩ (by decide) (by decide)).2.2.1 (by decide) (by decide)
      (by decide) (by decide) (by decide)).trans (by decide),
   by decide, by decide,
   ((tup_file_mod_modify.1 spec_db tree_store 3 "new.c".toList 0 no_node (by decide)
      (by decide)).1 (by decide) (by decide) (by decide)).trans (by decide),
   ((tup_file_mod_modify.1 spec_db tree_store 3 "Tupfile".toList 0
      ⟨10, 3, "Tupfile".toList, 0, -1⟩ (by decide) (by decide)).2.1 (by decide) (by decide)
      (by decide) (by decide) (by decide) (by decide)).trans (by decide),
   ((tup_file_mod_modify.1 spec_db tree_store 8 "deep.c".toList 0
      ⟨9, 8, "deep.c".toList, 0, -1⟩ (by decide) (by decide)).2.2.1 (by decide) (by decide)
      (by decide) (by decide) (by decide)).trans (by decide)⟩

/-- C12: for an existing node whose type is neither File nor GeneratedFile,
`tup_file_mod(dt, name, TUP_FLAGS_MODIFY)` returns -1, and the store it leaves is the
store before the call or that store after `tup_db_add_create_list(dt)`: neither
`tup_db_set_flags_by_id` nor `tup_db_set_dependent_dir_flags` is applied.  For an
existing node of type File or GeneratedFile the call returns the node's id (so it
does not fail) whenever the store operations it applies succeed.  On the store
modelled from section 6 the rejected call leaves the modify queue, the pending-delete
flags and the nodes as they were. -/
theorem tup_file_mod_type_check :
    (∀ {σ : Type} (db : Db σ) (s : σ) (dt : Int) (name : List Char) (rc : Int) (dbn : db_node),
      db.tup_db_select_dbn s dt name = (rc, dbn) → 0 ≤ rc → 0 ≤ dbn.tupid →
      (dbn.type ≠ db.TUP_NODE_FILE → dbn.type ≠ db.TUP_NODE_GENERATED →
        (tup_file_mod db dt name db.TUP_FLAGS_MODIFY s).1 = -1 ∧
        ((tup_file_mod db dt name db.TUP_FLAGS_MODIFY s).2 = s ∨
          (tup_file_mod db dt name db.TUP_FLAGS_MODIFY s).2 =
            (db.tup_db_add_create_list s dt).2)) ∧
      ((dbn.type = db.TUP_NODE_FILE ∨ dbn.type = db.TUP_NODE_GENERATED) →
        0 ≤ (if name = tupfile_name then db.tup_db_add_create_list s dt else (0, s)).1 →
        0 ≤ (db.tup_db_set_flags_by_id
              (if name = tupfile_name then db.tup_db_add_create_list s dt else (0, s)).2
              dbn.tupid db.TUP_FLAGS_MODIFY).1 →
        0 ≤ (db.tup_db_set_dependent_dir_flags
              (db.tup_db_set_flags_by_id
                (if name = tupfile_name then db.tup_db_add_create_list s dt else (0, s)).2
                dbn.tupid db.TUP_FLAGS_MODIFY).2 dbn.tupid).1 →
        (tup_file_mod db dt name db.TUP_FLAGS_MODIFY s).1 = dbn.tupid)) ∧
    (∀ (s : store) (dt : Int) (name : List Char),
      0 ≤ (s.select dt name).tupid →
      (s.select dt name).type ≠ 0 → (s.select dt name).type ≠ 4 →
      (tup_file_mod spec_db dt name 1 s).1 = -1 ∧
      (tup_file_mod spec_db dt name 1 s).2.modify_list = s.modify_list ∧
      (tup_file_mod spec_db dt name 1 s).2.delete_list = s.delete_list ∧
      (tup_file_mod spec_db dt name 1 s).2.nodes = s.nodes) := by
  have gen : ∀ {σ : Type} (db : Db σ) (s : σ) (dt : Int) (name : List Char) (rc : Int)
      (dbn : db_node),
      db.tup_db_select_dbn s dt name = (rc, dbn) → 0 ≤ rc → 0 ≤ dbn.tupid →
      dbn.type ≠ db.TUP_NODE_FILE → dbn.type ≠ db.TUP_NODE_GENERATED →
      tup_file_mod db dt name db.TUP_FLAGS_MODIFY s =
        (-1, (if name = tupfile_name then db.tup_db_add_create_list s dt else (0, s)).2) := by
    intro σ db s dt name rc dbn hsel hrc hex h1 h2
    rw [tup_file_mod_on_modify db s dt name rc dbn hsel hrc]
    simp only [not_lt.2 hex, false_or, ↓reduceIte, ne_eq, h1, not_false_eq_true, h2, and_self]
    split_ifs <;> rfl
  constructor
  · intro σ db s dt name rc dbn hsel hrc hex
    constructor
    · intro h1 h2
      rw [gen db s dt name rc dbn hsel hrc hex h1 h2]
      refine ⟨rfl, ?_⟩
      by_cases hname : name = tupfile_name
      · right; simp [hname]
      · left; simp [hname]
    · intro htype h1 h2 h3
      have hok : ¬ (dbn.type ≠ db.TUP_NODE_FILE ∧ dbn.type ≠ db.TUP_NODE_GENERATED) := by
        rcases htype with h | h <;> simp [h]
      rw [tup_file_mod_on_modify db s dt name rc dbn hsel hrc]
      simp only [not_lt.2 hex, false_or, ↓reduceIte, not_lt.2 h1, hok, not_lt.2 h2,
        not_lt.2 h3]
  · intro s dt name hex h1 h2
    have e := gen spec_db s dt name 0 (s.select dt name) rfl (le_refl _) hex h1 h2
    have e' : tup_file_mod spec_db dt name 1 s = _ := e
    rw [e']
    by_cases hname : name = tupfile_name
    · simp [hname, spec_db, store.add_create_list]
    · simp [hname]

/-- C12, on the store `odd_store`: a Modify of the directory `obj` returns -1 and
leaves the store as it was. -/
theorem tup_file_mod_type_check_witness :
    (tup_file_mod spec_db 1 "obj".toList 1 odd_store).1 = -1 ∧
    ((tup_file_mod spec_db 1 "obj".toList 1 odd_store).2 = odd_store ∨
      (tup_file_mod spec_db 1 "obj".toList 1 odd_store).2 =
        (spec_db.tup_db_add_create_list odd_store 1).2) :=
  (tup_file_mod_type_check.1 spec_db odd_store 1 "obj".toList 0 ⟨6, 1, "obj".toList, 2, -1⟩
    (by decide) (by decide) (by decide)).1 (by decide) (by decide)

/-- C13: when the lookup fails or finds no node (`tupid < 0`),
`tup_file_mod(dt, name, TUP_FLAGS_DELETE)` returns -1 and the store afterwards is the
store before, for every store behind the interface (`TUP_FLAGS_DELETE` and
`TUP_FLAGS_MODIFY` being different constants); and for every `flags` value other than
these two the call returns -1 and the store afterwards is the store before. -/
theorem tup_file_mod_no_mutation {σ : Type} (db : Db σ) (s : σ) (dt : Int) (name : List Char) :
    (db.TUP_FLAGS_DELETE ≠ db.TUP_FLAGS_MODIFY →
      ((db.tup_db_select_dbn s dt name).1 < 0 ∨ (db.tup_db_select_dbn s dt name).2.tupid < 0) →
      tup_file_mod db dt name db.TUP_FLAGS_DELETE s = (-1, s)) ∧
    (∀ flags : Int, flags ≠ db.TUP_FLAGS_MODIFY → flags ≠ db.TUP_FLAGS_DELETE →
      tup_file_mod db dt name flags s = (-1, s)) := by
  constructor
  · intro hne h
    by_cases hrc : (db.tup_db_select_dbn s dt name).1 < 0
    · simp [tup_file_mod, hrc]
    · have ht : (db.tup_db_select_dbn s dt name).2.tupid < 0 := by
        rcases h with h | h
        · exact absurd h hrc
        · exact h
      simp [tup_file_mod, hrc, hne, ht]
  · intro flags h1 h2
    by_cases hrc : (db.tup_db_select_dbn s dt name).1 < 0
    · simp [tup_file_mod, hrc]
    · simp [tup_file_mod, hrc, h1, h2]

/-- C13, on the store `tree_store`: deleting the unknown `gone.c` and a call with the
flags value 2 both return -1 and leave the store as it was. -/
theorem tup_file_mod_no_mutation_witness :
    tup_file_mod spec_db 3 "gone.c".toList 4 tree_store = (-1, tree_store) ∧
    tup_file_mod spec_db 3 "main.c".toList 2 tree_store = (-1, tree_store) :=
  ⟨(tup_file_mod_no_mutation spec_db tree_store 3 "gone.c".toList).1 (by decide)
      (Or.inr (by decide)),
   (tup_file_mod_no_mutation spec_db tree_store 3 "main.c".toList).2 2 (by decide)
      (by decide)⟩


/-! ## Deletion: `tup_file_del` (lines 171-216) -/

theorem not_mem_filter_ne (id : Int) (q : List Int) : id ∉ q.filter (fun i => i ≠ id) := by
  simp [List.mem_filter]

theorem mem_filter_ne {i id : Int} {q : List Int} (h : i ∈ q) (hne : i ≠ id) :
    i ∈ q.filter (fun i => i ≠ id) := by
  simp [List.mem_filter, h, hne]

/-- The end of a descending path of at most `n` rows of the store, starting in one of
the directories `dirs`, is among the ids `store.nested` collects. -/
theorem descent_mem_nested (s : store) :
    ∀ (path : List db_node) (n : Nat) (d : Int) (dirs : List Int) (m : db_node),
      is_descent d path → path.getLast? = some m → (∀ x ∈ path, x ∈ s.nodes) →
      path.length ≤ n → d ∈ dirs → m.tupid ∈ s.nested n dirs := by
  intro path
  induction path with
  | nil => intro n d dirs m _ hl; simp at hl
  | cons x rest ih =>
    intro n d dirs m hd hl hmem hn hdir
    cases n with
    | zero => simp at hn
    | succ n =>
      obtain ⟨hx, hrest⟩ := hd
      have hxn : x ∈ s.nodes := hmem x (List.mem_cons_self _ _)
      have hkid : x.tupid ∈ (s.nodes.filter (fun m => m.dt ∈ dirs)).map db_node.tupid := by
        refine List.mem_map.2 ⟨x, ?_, rfl⟩
        simp [List.mem_filter, hxn, hx, hdir]
      simp only [store.nested, List.mem_append]
      cases rest with
      | nil =>
        simp only [List.getLast?_singleton, Option.some.injEq] at hl
        subst hl
        exact Or.inl hkid
      | cons y rest2 =>
        right
        refine ih n x.tupid _ m hrest ?_ (fun z hz => hmem z (List.mem_cons_of_mem _ hz))
          (by simpa using hn) hkid
        simpa [List.getLast?_cons_cons] using hl

/-- C14: `tup_file_del` on a node that is not a directory.  With
`o` = `tup_db_modify_cmds_by_output(tupid)` applied exactly when the type is
GeneratedFile, then `i` = `tup_db_modify_cmds_by_input(tupid)`, `c` =
`tup_db_add_create_list(dt)`, `f` = `tup_db_set_dependent_dir_flags(tupid)`, `u` =
`tup_db_unflag_modify(tupid)` and last `n` = `delete_name_file(tupid)`, each applied
to the store the previous one left: when all succeed the call returns 0 and leaves
the store `n` left; when one of the steps before the deletion fails the call returns
-1 and the store is the one the failing step left, so `delete_name_file` is not
applied.  On the store modelled from section 6: afterwards the node's row is gone,
`dt` is on the create queue, every command that takes the node as input is on the
modify queue, and so is every command with an edge to the node when the type is
GeneratedFile. -/
theorem tup_file_del_file :
    (∀ {σ : Type} (db : Db σ) (s : σ) (tupid dt type : Int) (o i c f u n : Int × σ),
      type ≠ db.TUP_NODE_DIR →
      o = (if type = db.TUP_NODE_GENERATED then db.tup_db_modify_cmds_by_output s tupid
           else (0, s)) →
      i = db.tup_db_modify_cmds_by_input o.2 tupid →
      c = db.tup_db_add_create_list i.2 dt →
      f = db.tup_db_set_dependent_dir_flags c.2 tupid →
      u = db.tup_db_unflag_modify f.2 tupid →
      n = db.delete_name_file u.2 tupid →
      (0 ≤ o.1 → 0 ≤ i.1 → 0 ≤ c.1 → 0 ≤ f.1 → 0 ≤ u.1 → 0 ≤ n.1 →
        tup_file_del db tupid dt type s = (0, n.2)) ∧
      ((o.1 < 0 ∨ i.1 < 0 ∨ c.1 < 0 ∨ f.1 < 0 ∨ u.1 < 0) →
        (tup_file_del db tupid dt type s).1 = -1 ∧
        ((tup_file_del db tupid dt type s).2 = o.2 ∨
          (tup_file_del db tupid dt type s).2 = i.2 ∨
          (tup_file_del db tupid dt type s).2 = c.2 ∨
          (tup_file_del db tupid dt type s).2 = f.2 ∨
          (tup_file_del db tupid dt type s).2 = u.2))) ∧
    (∀ (s : store) (tupid dt type : Int), type ≠ 2 →
      (tup_file_del spec_db tupid dt type s).1 = 0 ∧
      (∀ m ∈ (tup_file_del spec_db tupid dt type s).2.nodes, m.tupid ≠ tupid) ∧
      dt ∈ (tup_file_del spec_db tupid dt type s).2.create_list ∧
      (∀ cmd, (tupid, cmd) ∈ s.links → (s.select_by_id cmd).type = 1 → cmd ≠ tupid →
        cmd ∈ (tup_file_del spec_db tupid dt type s).2.modify_list) ∧
      (type = 4 → ∀ cmd, (cmd, tupid) ∈ s.links → cmd ≠ tupid →
        cmd ∈ (tup_file_del spec_db tupid dt type s).2.modify_list) ∧
      tupid ∉ (tup_file_del spec_db tupid dt type s).2.modify_list) := by
  constructor
  · intro σ db s tupid dt type o i c f u n hnd ho hi hc hf hu hn
    subst hn hu hf hc hi
    constructor
    · intro h1 h2 h3 h4 h5 h6
      rw [ho] at h1 h2 h3 h4 h5 h6 ⊢
      simp only [tup_file_del, hnd, ↓reduceIte, not_lt.2 h1, not_lt.2 h2, not_lt.2 h3,
        not_lt.2 h4, not_lt.2 h5, not_lt.2 h6]
    · intro hfail
      rw [ho] at hfail ⊢
      simp only [tup_file_del, hnd, ↓reduceIte]
      split_ifs <;> simp_all
  · intro s tupid dt type hnd
    have hin : ∀ t : store, t.nodes = s.nodes → t.links = s.links →
        ∀ cmd, (tupid, cmd) ∈ s.links → (s.select_by_id cmd).type = 1 →
        cmd ∈ (t.modify_cmds_by_input tupid).2.modify_list := by
      intro t hn hl cmd hlink hty
      simp only [store.modify_cmds_by_input]
      apply mem_queue_add_all
      refine List.mem_map.2 ⟨(tupid, cmd), ?_, rfl⟩
      have : (t.select_by_id cmd).type = 1 := by
        simpa [store.select_by_id, hn] using hty
      simp [List.mem_filter, hl, hlink, this]
    by_cases hg : type = 4
    · have e : tup_file_del spec_db tupid dt type s =
          ((((((s.modify_cmds_by_output tupid).2.modify_cmds_by_input tupid).2.add_create_list
            dt).2.set_dependent_dir_flags tupid).2.unflag_modify tupid).2.delete_node tupid) := by
        simp [tup_file_del, hnd, hg, spec_db, store.modify_cmds_by_output,
          store.modify_cmds_by_input, store.add_create_list, store.set_dependent_dir_flags,
          store.unflag_modify, store.delete_node]
      rw [e]
      refine ⟨rfl, ?_, ?_, ?_, ?_, ?_⟩
      · intro m hm
        simp only [store.delete_node, List.mem_filter, decide_eq_true_eq] at hm
        exact hm.2
      · simp only [store.delete_node, store.unflag_modify, store.set_dependent_dir_flags]
        exact mem_queue_add_all_of_mem _ (by simp [store.add_create_list, mem_queue_add])
      · intro cmd hlink hty hne
        have := hin (s.modify_cmds_by_output tupid).2 rfl rfl cmd hlink hty
        simp only [store.delete_node, store.unflag_modify, store.set_dependent_dir_flags,
          store.add_create_list]
        exact mem_filter_ne this hne
      · intro _ cmd hlink hne
        have h1 : cmd ∈ (s.modify_cmds_by_output tupid).2.modify_list := by
          simp only [store.modify_cmds_by_output]
          apply mem_queue_add_all
          exact List.mem_map.2 ⟨(cmd, tupid), by simp [List.mem_filter, hlink], rfl⟩
        have h2 : cmd ∈ ((s.modify_cmds_by_output tupid).2.modify_cmds_by_input
            tupid).2.modify_list := by
          simp only [store.modify_cmds_by_input]
          exact mem_queue_add_all_of_mem _ h1
        simp only [store.delete_node, store.unflag_modify, store.set_dependent_dir_flags,
          store.add_create_list]
        exact mem_filter_ne h2 hne
      · simp only [store.delete_node, store.unflag_modify]
        exact not_mem_filter_ne _ _
    · have e : tup_file_del spec_db tupid dt type s =
          (((((s.modify_cmds_by_input tupid).2.add_create_list
            dt).2.set_dependent_dir_flags tupid).2.unflag_modify tupid).2.delete_node tupid) := by
        simp [tup_file_del, hnd, hg, spec_db,
          store.modify_cmds_by_input, store.add_create_list, store.set_dependent_dir_flags,
          store.unflag_modify, store.delete_node]
      rw [e]
      refine ⟨rfl, ?_, ?_, ?_, ?_, ?_⟩
      · intro m hm
        simp only [store.delete_node, List.mem_filter, decide_eq_true_eq] at hm
        exact hm.2
      · simp only [store.delete_node, store.unflag_modify, store.set_dependent_dir_flags]
        exact mem_queue_add_all_of_mem _ (by simp [store.add_create_list, mem_queue_add])
      · intro cmd hlink hty hne
        have := hin s rfl rfl cmd hlink hty
        simp only [store.delete_node, store.unflag_modify, store.set_dependent_dir_flags,
          store.add_create_list]
        exact mem_filter_ne this hne
      · intro h; exact absurd h hg
      · simp only [store.delete_node, store.unflag_modify]
        exact not_mem_filter_ne _ _


/-- C14, on the store `tree_store`: deleting the generated file `main.o` (node 5 in
directory 3) puts its producer `cc` (6) and its consumer `ld` (7) on the modify queue
and directory 3 on the create queue, removes the row and returns 0; deleting the
source file `main.c` (node 4) puts only its consumer `cc` on the modify queue. -/
theorem tup_file_del_file_witness :
    tup_file_del spec_db 5 3 4 tree_store =
      (0, { tree_store with
        nodes := tree_store.nodes.filter (fun m => m.tupid ≠ 5),
        create_list := [3], modify_list := [6, 7] }) ∧
    tup_file_del spec_db 4 3 0 tree_store =
      (0, { tree_store with
        nodes := tree_store.nodes.filter (fun m => m.tupid ≠ 4),
        create_list := [3], modify_list := [6] }) :=
  ⟨((tup_file_del_file.1 spec_db tree_store 5 3 4 _ _ _ _ _ _ (by decide) rfl rfl rfl rfl rfl
      rfl).1 (by decide) (by decide) (by decide) (by decide) (by decide) (by decide)).trans
      (by decide),
   ((tup_file_del_file.1 spec_db tree_store 4 3 0 _ _ _ _ _ _ (by decide) rfl rfl rfl rfl rfl
      rfl).1 (by decide) (by decide) (by decide) (by decide) (by decide) (by decide)).trans
      (by decide)⟩

/-- C15: `tup_file_del` on a node of type Directory applies `tup_db_delete_dir(tupid)`
and then `delete_name_file(tupid)` to the store and returns 0 when both succeed; no
other store operation is applied (no command is marked, nothing is added to the
create queue, no dependent-directory flag is propagated); when the subtree delete
fails the call returns -1 and `delete_name_file` is not applied.  On the store
modelled from section 6: afterwards the store holds neither a row with the
directory's id nor any row nested transitively under the directory, and the create
queue, the modify queue and the pending-delete flags are what they were. -/
theorem tup_file_del_dir :
    (∀ {σ : Type} (db : Db σ) (s : σ) (tupid dt type : Int) (d n : Int × σ),
      type = db.TUP_NODE_DIR →
      d = db.tup_db_delete_dir s tupid →
      n = db.delete_name_file d.2 tupid →
      (0 ≤ d.1 → 0 ≤ n.1 → tup_file_del db tupid dt type s = (0, n.2)) ∧
      (d.1 < 0 → tup_file_del db tupid dt type s = (-1, d.2)) ∧
      (0 ≤ d.1 → n.1 < 0 → tup_file_del db tupid dt type s = (-1, n.2))) ∧
    (∀ (s : store) (tupid dt : Int),
      (tup_file_del spec_db tupid dt 2 s).1 = 0 ∧
      (∀ m ∈ (tup_file_del spec_db tupid dt 2 s).2.nodes,
        m.tupid ≠ tupid ∧ ¬ nested_under s tupid m) ∧
      (tup_file_del spec_db tupid dt 2 s).2.create_list = s.create_list ∧
      (tup_file_del spec_db tupid dt 2 s).2.modify_list = s.modify_list ∧
      (tup_file_del spec_db tupid dt 2 s).2.delete_list = s.delete_list) := by
  constructor
  · intro σ db s tupid dt type d n ht hd hn
    subst hn hd
    refine ⟨?_, ?_, ?_⟩
    · intro h1 h2
      simp only [tup_file_del, ht, ↓reduceIte, not_lt.2 h1, not_lt.2 h2]
    · intro h1
      simp only [tup_file_del, ht, ↓reduceIte, h1]
    · intro h1 h2
      simp only [tup_file_del, ht, ↓reduceIte, not_lt.2 h1, h2]
  · intro s tupid dt
    have e : tup_file_del spec_db tupid dt 2 s = ((s.delete_dir tupid).2.delete_node tupid) := by
      simp [tup_file_del, spec_db, store.delete_dir, store.delete_node]
    rw [e]
    refine ⟨rfl, ?_, rfl, rfl, rfl⟩
    intro m hm
    simp only [store.delete_node, store.delete_dir, List.mem_filter, decide_eq_true_eq,
      decide_not, Bool.not_eq_eq_eq_not, Bool.not_true, decide_eq_false_iff_not] at hm
    refine ⟨hm.2, ?_⟩
    rintro ⟨path, hdesc, hlast, hnodup, hsub⟩
    have hlen : path.length ≤ s.nodes.length :=
      (List.Nodup.subperm hnodup hsub).length_le
    exact hm.1.2
      (descent_mem_nested s path s.nodes.length tupid [tupid] m hdesc hlast hsub hlen
        (by simp))

/-- C15, on the store `tree_store`: deleting the directory `sub` (node 8) removes its
row and the rows 9, 11 and 12 nested under it, returns 0 and touches no queue. -/
theorem tup_file_del_dir_witness :
    tup_file_del spec_db 8 3 2 tree_store =
      (0, { tree_store with
        nodes := tree_store.nodes.filter (fun m => m.tupid ∉ [8, 9, 11, 12]) }) ∧
    nested_under tree_store 8 ⟨12, 11, "leaf.c".toList, 0, -1⟩ :=
  ⟨((tup_file_del_dir.1 spec_db tree_store 8 3 2 _ _ (by decide) rfl rfl).1 (by decide)
      (by decide)).trans (by decide),
   ⟨[⟨11, 8, "inner".toList, 2, -1⟩, ⟨12, 11, "leaf.c".toList, 0, -1⟩],
    by simp [is_descent], by simp, by decide, by decide⟩⟩


/-- The Modify branch on an existing node of another type than File and
GeneratedFile: the call returns -1 after the optional `tup_db_add_create_list(dt)`. -/
theorem tup_file_mod_rejected_eq {σ : Type} (db : Db σ) (s : σ) (dt : Int) (name : List Char)
    (rc : Int) (dbn : db_node) (hsel : db.tup_db_select_dbn s dt name = (rc, dbn))
    (hrc : 0 ≤ rc) (hex : 0 ≤ dbn.tupid) (h1 : dbn.type ≠ db.TUP_NODE_FILE)
    (h2 : dbn.type ≠ db.TUP_NODE_GENERATED) :
    tup_file_mod db dt name db.TUP_FLAGS_MODIFY s =
      (-1, (if name = tupfile_name then db.tup_db_add_create_list s dt else (0, s)).2) := by
  rw [tup_file_mod_on_modify db s dt name rc dbn hsel hrc]
  simp only [not_lt.2 hex, false_or, ↓reduceIte, ne_eq, h1, not_false_eq_true, h2, and_self]
  split_ifs <;> rfl

/-- C20 as stated fails for the name `Tupfile`: in `odd_store` the node `Tupfile` of
directory 1 is a directory; the Modify is rejected with -1, and the store afterwards
differs from the store before: directory 1 has been put on the create queue. -/
theorem tup_file_mod_rejected_tupfile_queued :
    (spec_db.tup_db_select_dbn odd_store 1 "Tupfile".toList).2 =
      ⟨5, 1, "Tupfile".toList, 2, -1⟩ ∧
    tup_file_mod spec_db 1 "Tupfile".toList 1 odd_store =
      (-1, { odd_store with create_list := [1] }) ∧
    (tup_file_mod spec_db 1 "Tupfile".toList 1 odd_store).2 ≠ odd_store := by
  decide

/-- C20, amended: a Modify rejected for a type mismatch (the node exists with a type
other than File and GeneratedFile) returns -1; when the name is not `Tupfile` the
store afterwards equals the store before; when the name is `Tupfile` the store
afterwards is the store before with the one operation `tup_db_add_create_list(dt)`
applied (line 135 runs before the type check of line 144).  On the store modelled
from section 6 the modify queue, the pending-delete flags, the nodes, the variable
values and the edges are unchanged in both cases, and for `Tupfile` the create queue
is the one before with `dt` added. -/
theorem tup_file_mod_rejected_state :
    (∀ {σ : Type} (db : Db σ) (s : σ) (dt : Int) (name : List Char) (rc : Int) (dbn : db_node),
      db.tup_db_select_dbn s dt name = (rc, dbn) → 0 ≤ rc → 0 ≤ dbn.tupid →
      dbn.type ≠ db.TUP_NODE_FILE → dbn.type ≠ db.TUP_NODE_GENERATED →
      (tup_file_mod db dt name db.TUP_FLAGS_MODIFY s).1 = -1 ∧
      (name ≠ tupfile_name → (tup_file_mod db dt name db.TUP_FLAGS_MODIFY s).2 = s) ∧
      (name = tupfile_name →
        (tup_file_mod db dt name db.TUP_FLAGS_MODIFY s).2 =
          (db.tup_db_add_create_list s dt).2)) ∧
    (∀ (s : store) (dt : Int) (name : List Char),
      0 ≤ (s.select dt name).tupid →
      (s.select dt name).type ≠ 0 → (s.select dt name).type ≠ 4 →
      (tup_file_mod spec_db dt name 1 s).1 = -1 ∧
      (name ≠ tupfile_name → (tup_file_mod spec_db dt name 1 s).2 = s) ∧
      (name = tupfile_name →
        (tup_file_mod spec_db dt name 1 s).2 =
          { s with create_list := queue_add dt s.create_list })) := by
  constructor
  · intro σ db s dt name rc dbn hsel hrc hex h1 h2
    rw [tup_file_mod_rejected_eq db s dt name rc dbn hsel hrc hex h1 h2]
    refine ⟨rfl, ?_, ?_⟩
    · intro hname; simp [hname]
    · intro hname; simp [hname]
  · intro s dt name hex h1 h2
    have e := tup_file_mod_rejected_eq spec_db s dt name 0 (s.select dt name) rfl (le_refl _)
      hex h1 h2
    have e' : tup_file_mod spec_db dt name 1 s = _ := e
    rw [e']
    refine ⟨rfl, ?_, ?_⟩
    · intro hname; simp [hname]
    · intro hname; simp [hname, spec_db, store.add_create_list]

/-- C20 amended, on the store `odd_store`: the rejected Modify of the directory `obj`
leaves the store as it was, and the rejected Modify of the directory named `Tupfile`
leaves it with directory 1 added to the create queue. -/
theorem tup_file_mod_rejected_state_witness :
    (tup_file_mod spec_db 1 "obj".toList 1 odd_store).2 = odd_store ∧
    (tup_file_mod spec_db 1 "Tupfile".toList 1 odd_store).2 =
      { odd_store with create_list := [1] } :=
  ⟨(tup_file_mod_rejected_state.1 spec_db odd_store 1 "obj".toList 0
      ⟨6, 1, "obj".toList, 2, -1⟩ (by decide) (by decide) (by decide) (by decide)
      (by decide)).2.1 (by decide),
   ((tup_file_mod_rejected_state.1 spec_db odd_store 1 "Tupfile".toList 0
      ⟨5, 1, "Tupfile".toList, 2, -1⟩ (by decide) (by decide) (by decide) (by decide)
      (by decide)).2.2 (by decide)).trans (by decide)⟩

/-! ## Declaring a symlink: `update_symlink_file` (lines 45-87) -/

/-- C19 at the failing input: the file `foo` is node 5 in directory 1 and its link
text is `.` (or `x/..`).  The link text tokenizes to the empty list, so
`find_dir_tupid_dt` returns directory 1 and leaves `file` as it was; line 77 then looks
up the name `foo` itself in directory 1, and line 82 records node 5 as the symlink
target of node 5.  The call succeeds and returns 5. -/
theorem update_symlink_file_self_target :
    update_symlink_file spec_db (fun _ => (1, ".".toList)) 4096 [] 0 1 "foo".toList
        link_store =
      some (.ret (5, ⟨[⟨1, 0, ".".toList, 2, -1⟩, ⟨5, 1, "foo".toList, 0, 5⟩], [], [5], [],
        [], []⟩)) ∧
    update_symlink_file spec_db (fun _ => (4, "x/..".toList)) 4096 [] 0 1 "foo".toList
        link_store =
      some (.ret (5, ⟨[⟨1, 0, ".".toList, 2, -1⟩, ⟨5, 1, "foo".toList, 0, 5⟩], [], [5], [],
        [], []⟩)) ∧
    spec_db.tup_db_set_sym link_store 5 5 =
      (0, ⟨[⟨1, 0, ".".toList, 2, -1⟩, ⟨5, 1, "foo".toList, 0, 5⟩], [], [], [], [], []⟩) := by
  decide


/-! ## Missing nodes during the walk (lines 313-347) -/

theorem sym_chase_no_sym {σ : Type} (db : Db σ) (s : σ) (fuel : Nat) (dbn : db_node)
    (symlist : Option (List half_entry)) (calls : List db_call) (h : dbn.sym = -1) :
    sym_chase db s fuel dbn symlist calls = some ⟨0, dbn, symlist, calls⟩ := by
  cases fuel <;> simp [sym_chase, h]

/-- Once the walk stands on a negative directory id it returns a negative value,
whatever segments are left. -/
theorem walk_loop_negative {σ : Type} (db : Db σ) (s : σ) (fuel : Nat)
    (hinv : negative_ids_invalid db s) :
    ∀ (rest : List path_element) (dt : Int) (symlist : Option (List half_entry))
      (calls : List db_call), dt < 0 →
      ∃ rv sl cs, walk_loop db s fuel rest dt symlist calls = some (rv, sl, cs) ∧ rv < 0 := by
  intro rest
  induction rest with
  | nil => intro dt symlist calls h; exact ⟨dt, symlist, calls, rfl, h⟩
  | cons pel rest ih =>
    intro dt symlist calls h
    by_cases hdd : pel.len = 2 ∧ pel.path.get? 0 = some '.' ∧ pel.path.get? 1 = some '.'
    · have hp := hinv.2 dt h
      exact ⟨-1, symlist, calls ++ [db_call.parent dt],
        by rw [walk_loop, if_pos hdd]; simp [hp], by decide⟩
    · rcases hinv.1 dt pel.text h with hlt | ⟨h1, h2, h3⟩
      · exact ⟨-1, symlist, calls ++ [db_call.select_dbn_part dt pel.text],
          by rw [walk_loop, if_neg hdd]; simp [hlt], by decide⟩
      · have hstep : walk_loop db s fuel (pel :: rest) dt symlist calls =
            walk_loop db s fuel rest (db.tup_db_select_dbn_part s dt pel.text).2.tupid symlist
              (calls ++ [db_call.select_dbn_part dt pel.text]) := by
          rw [walk_loop, if_neg hdd]
          simp only [not_lt.2 h1, ↓reduceIte]
          rw [sym_chase_no_sym db s fuel _ _ _ h3]
          simp
        rw [hstep]
        exact ih _ _ _ h2

/-- A walk that ends on a valid directory id can be continued from there. -/
theorem walk_loop_append {σ : Type} (db : Db σ) (s : σ) (fuel : Nat) :
    ∀ (pre post : List path_element) (dt : Int) (symlist : Option (List half_entry))
      (calls : List db_call) (dt1 : Int) (sl1 : Option (List half_entry))
      (cs1 : List db_call),
      walk_loop db s fuel pre dt symlist calls = some (dt1, sl1, cs1) → 0 ≤ dt1 →
      walk_loop db s fuel (pre ++ post) dt symlist calls =
        walk_loop db s fuel post dt1 sl1 cs1 := by
  intro pre
  induction pre with
  | nil =>
    intro post dt symlist calls dt1 sl1 cs1 h _
    simp only [walk_loop, Option.some.injEq, Prod.mk.injEq] at h
    obtain ⟨h1, h2, h3⟩ := h
    subst h1 h2 h3
    rfl
  | cons pel pre ih =>
    intro post dt symlist calls dt1 sl1 cs1 h hdt1
    rw [List.cons_append]
    by_cases hdd : pel.len = 2 ∧ pel.path.get? 0 = some '.' ∧ pel.path.get? 1 = some '.'
    · rw [walk_loop, if_pos hdd] at h ⊢
      by_cases hp : db.tup_db_parent s dt < 0
      · simp only [hp, ↓reduceIte, Option.some.injEq, Prod.mk.injEq] at h
        omega
      · simp only [hp, ↓reduceIte] at h ⊢
        exact ih post _ _ _ dt1 sl1 cs1 h hdt1
    · rw [walk_loop, if_neg hdd] at h ⊢
      by_cases hr : (db.tup_db_select_dbn_part s dt pel.text).1 < 0
      · simp only [hr, ↓reduceIte, Option.some.injEq, Prod.mk.injEq] at h
        omega
      · simp only [hr, ↓reduceIte] at h ⊢
        cases hc : sym_chase db s fuel (db.tup_db_select_dbn_part s dt pel.text).2 symlist
            (calls ++ [db_call.select_dbn_part dt pel.text]) with
        | none => rw [hc] at h; simp at h
        | some c =>
          rw [hc] at h
          by_cases hcr : c.rc < 0
          · simp only [hcr, ↓reduceIte, Option.some.injEq, Prod.mk.injEq] at h
            omega
          · simp only [hcr, ↓reduceIte] at h ⊢
            exact ih post _ _ _ dt1 sl1 cs1 h hdt1

/-- When a leaf is requested and the walk is reached, `find_dir_tupid_dt` returns what
the walk returns. -/
theorem find_dir_tupid_dt_eq_walk {σ : Type} (db : Db σ) (s : σ) (top : List Char)
    (fuel : Nat) (dt : Int) (dir : List Char) (symlist : Option (List half_entry))
    (l : List path_element) (h : walk_segments top dir = some l) :
    ∃ last, find_dir_tupid_dt db s top fuel dt dir true symlist =
      match walk_loop db s fuel l dt symlist [] with
      | none => none
      | some (rv, symlist1, calls) => some (.ret ⟨rv, last, symlist1, calls⟩) := by
  simp only [walk_segments] at h
  simp only [find_dir_tupid_dt]
  by_cases h1 : (get_path_elements dir).1 < 0
  · simp [h1] at h
  by_cases h2 : (get_path_elements dir).2.is_hidden = true
  · simp [h1, h2] at h
  rw [if_neg h1, if_neg h2] at h ⊢
  generalize (if (get_path_elements dir).2.is_root = true then
      root_loop top (get_path_elements dir).2.path_list
    else some (get_path_elements dir).2.path_list) = m at h ⊢
  cases m with
  | none => simp at h
  | some pl =>
    by_cases h3 : pl = []
    · simp [h3] at h
    · simp only [h3, ↓reduceIte, Option.some.injEq] at h
      subst h
      exact ⟨pl.getLast?.map path_element.path, by simp [h3]⟩

/-- C16: during the walk of `find_dir_tupid_dt`, let the segments before `pel` have
been walked to the valid directory `dt1`, and let the lookup of `pel` under `dt1`
find no node, or find a symlink whose chase ends on a by-id lookup that finds no node
(the last node `chain_end n0 ms` of the chain has a negative id).  Then, on a store
for which negative ids are invalid, `find_dir_tupid_dt` returns, and it returns a
negative value, whatever segments `rest` follow the missing one. -/
theorem find_dir_tupid_dt_missing {σ : Type} (db : Db σ) (s : σ) (top : List Char)
    (fuel : Nat) (dt : Int) (dir : List Char) (symlist : Option (List half_entry))
    (pre : List path_element) (pel : path_element) (rest : List path_element)
    (dt1 : Int) (sl1 : Option (List half_entry)) (cs1 : List db_call)
    (n0 : db_node) (ms : List db_node)
    (hinv : negative_ids_invalid db s)
    (hwalk : walk_segments top dir = some (pre ++ pel :: rest))
    (hpre : walk_loop db s fuel pre dt symlist [] = some (dt1, sl1, cs1))
    (hdt1 : 0 ≤ dt1)
    (hnamed : ¬ (pel.len = 2 ∧ pel.path.get? 0 = some '.' ∧ pel.path.get? 1 = some '.'))
    (hlook : 0 ≤ (db.tup_db_select_dbn_part s dt1 pel.text).1)
    (hn0 : (db.tup_db_select_dbn_part s dt1 pel.text).2 = n0)
    (hchain : chain_from db s n0 ms) (hfuel : ms.length ≤ fuel)
    (hmiss : (chain_end n0 ms).tupid < 0) :
    ∃ r, find_dir_tupid_dt db s top fuel dt dir true symlist = some (.ret r) ∧ r.rv < 0 := by
  obtain ⟨last, hfind⟩ := find_dir_tupid_dt_eq_walk db s top fuel dt dir symlist _ hwalk
  rw [hfind, walk_loop_append db s fuel pre (pel :: rest) dt symlist [] dt1 sl1 cs1 hpre hdt1]
  have hstep : walk_loop db s fuel (pel :: rest) dt1 sl1 cs1 =
      walk_loop db s fuel rest (chain_end n0 ms).tupid
        (sl1.map (fun l => ((chain_links n0 ms).map half_entry_of).reverse ++ l))
        (cs1 ++ [db_call.select_dbn_part dt1 pel.text] ++
          (chain_links n0 ms).map (fun n => db_call.select_dbn_by_id n.sym)) := by
    rw [walk_loop, if_neg hnamed]
    simp only [not_lt.2 hlook, ↓reduceIte, hn0]
    rw [sym_chase_chain db s ms n0 fuel _ _ hchain hfuel]
    simp
  rw [hstep]
  obtain ⟨rv, sl, cs, hw, hrv⟩ := walk_loop_negative db s fuel hinv rest _ _ _ hmiss
  rw [hw]
  exact ⟨_, rfl, hrv⟩

/-- On the store modelled from section 6, negative ids are invalid as soon as no row
carries a negative id or a negative directory. -/
theorem spec_db_negative_ids_invalid (s : store)
    (h : ∀ n ∈ s.nodes, 0 ≤ n.dt ∧ 0 ≤ n.tupid) : negative_ids_invalid spec_db s := by
  constructor
  · intro d name hd
    right
    have hnone : s.nodes.find? (fun n => n.dt = d ∧ n.name = name) = none := by
      rw [List.find?_eq_none]
      intro n hn
      have := (h n hn).1
      simp only [decide_eq_true_eq, not_and]
      intro e
      omega
    have hsel : s.select d name = no_node := by
      unfold store.select; rw [hnone]; rfl
    show no_row (0, s.select d name)
    rw [hsel]
    exact ⟨le_refl _, by decide, rfl⟩
  · intro d hd
    have hnone : s.nodes.find? (fun n => n.tupid = d) = none := by
      rw [List.find?_eq_none]
      intro n hn
      have := (h n hn).2
      simp only [decide_eq_true_eq]
      omega
    show s.parent_of d < 0
    unfold store.parent_of
    rw [hnone]
    decide

/-- C16, on the store `tree_store` and the path `src/nope/sub/x` resolved from
directory 1: `src` is walked to directory 3, `nope` is not found there, and the call
returns -1 although `sub` follows. -/
theorem find_dir_tupid_dt_missing_witness :
    (∃ r, find_dir_tupid_dt spec_db tree_store [] 0 1 "src/nope/sub/x".toList true none =
      some (.ret r) ∧ r.rv < 0) ∧
    find_dir_tupid_dt spec_db tree_store [] 0 1 "src/nope/sub/x".toList true none =
      some (.ret ⟨-1, some "x".toList, none,
        [db_call.select_dbn_part 1 "src".toList, db_call.select_dbn_part 3 "nope".toList,
          db_call.select_dbn_part (-1) "sub".toList]⟩) :=
  ⟨find_dir_tupid_dt_missing spec_db tree_store [] 0 1 "src/nope/sub/x".toList none
      [⟨"src/nope/sub/x".toList, 3⟩] ⟨"nope/sub/x".toList, 4⟩ [⟨"sub/x".toList, 3⟩]
      3 none [db_call.select_dbn_part 1 "src".toList] no_node []
      (spec_db_negative_ids_invalid tree_store (by decide)) (by decide) (by decide)
      (by decide) (by decide) (by decide) (by decide) (by decide) (by decide) (by decide),
   by decide⟩


/-! ## Termination of the symlink chase -/

/-- A chase that returns within `fuel` hops, on a store whose by-id lookups succeed,
has followed a chain of at most `fuel` links that ends on a node without a target. -/
theorem sym_chase_some_chain {σ : Type} (db : Db σ) (s : σ)
    (hok : ∀ id : Int, 0 ≤ (db.tup_db_select_dbn_by_id s id).1) :
    ∀ (fuel : Nat) (n0 : db_node) (symlist : Option (List half_entry))
      (calls : List db_call) (r : chase_result),
      sym_chase db s fuel n0 symlist calls = some r →
      ∃ ms, chain_from db s n0 ms ∧ ms.length ≤ fuel := by
  intro fuel
  induction fuel with
  | zero =>
    intro n0 symlist calls r h
    by_cases hs : n0.sym = -1
    · exact ⟨[], hs, le_refl _⟩
    · simp [sym_chase, hs] at h
  | succ fuel ih =>
    intro n0 symlist calls r h
    by_cases hs : n0.sym = -1
    · exact ⟨[], hs, Nat.zero_le _⟩
    · simp only [sym_chase, ne_eq, hs, not_false_eq_true, ↓reduceIte,
        not_lt.2 (hok n0.sym)] at h
      obtain ⟨ms, hc, hl⟩ := ih _ _ _ r h
      exact ⟨(db.tup_db_select_dbn_by_id s n0.sym).2 :: ms, ⟨hs, hok _, rfl, hc⟩,
        Nat.succ_le_succ hl⟩

theorem chain_from_unique {σ : Type} (db : Db σ) (s : σ) :
    ∀ (ms ms1 : List db_node) (n0 : db_node),
      chain_from db s n0 ms → chain_from db s n0 ms1 → ms = ms1 := by
  intro ms
  induction ms with
  | nil =>
    intro ms1 n0 h h1
    cases ms1 with
    | nil => rfl
    | cons m ms1 => exact absurd h h1.1
  | cons m ms ih =>
    intro ms1 n0 h h1
    cases ms1 with
    | nil => exact absurd h1 h.1
    | cons m1 ms1 =>
      obtain ⟨_, _, e, hc⟩ := h
      obtain ⟨_, _, e1, hc1⟩ := h1
      have hm : m = m1 := e.symm.trans e1
      subst hm
      rw [ih ms1 m hc hc1]

theorem no_chain_of_self_target {σ : Type} (db : Db σ) (s : σ) (n0 : db_node)
    (hs : n0.sym ≠ -1) (hself : (db.tup_db_select_dbn_by_id s n0.sym).2 = n0) :
    ¬ ∃ ms, chain_from db s n0 ms := by
  rintro ⟨ms, h⟩
  induction ms with
  | nil => exact hs h
  | cons m ms ih =>
    obtain ⟨_, _, e, hc⟩ := h
    have hm : m = n0 := e.symm.trans hself
    subst hm
    exact ih hc

/-- C17: the chase has no hop limit of its own.  On a store whose by-id lookups all
succeed, the chase started on `n0` returns for some number of hops exactly when a
chain `n0 → … → nk` ending on a node without symlink target exists; such a chain of
any length `k` is followed to its end `nk` by every run of at least `k` hops, and no
run of fewer hops has returned; when no such chain exists (as for a node that is its
own target) no run of any number of hops returns, and then neither does the walk of
`find_dir_tupid_dt` through a segment that resolves to `n0` nor `get_dbn_dt` on a leaf
that resolves to `n0`. -/
theorem sym_chase_terminates_iff {σ : Type} (db : Db σ) (s : σ) (n0 : db_node)
    (hok : ∀ id : Int, 0 ≤ (db.tup_db_select_dbn_by_id s id).1) :
    (∀ (symlist : Option (List half_entry)) (calls : List db_call),
      (∃ fuel, sym_chase db s fuel n0 symlist calls ≠ none) ↔
        ∃ ms, chain_from db s n0 ms) ∧
    (∀ ms, chain_from db s n0 ms →
      ∀ (fuel : Nat) (symlist : Option (List half_entry)) (calls : List db_call),
        (ms.length ≤ fuel →
          ∃ r, sym_chase db s fuel n0 symlist calls = some r ∧ r.rc = 0 ∧
            r.dbn = chain_end n0 ms) ∧
        (fuel < ms.length → sym_chase db s fuel n0 symlist calls = none)) ∧
    (n0.sym ≠ -1 → (db.tup_db_select_dbn_by_id s n0.sym).2 = n0 →
      ∀ (fuel : Nat) (symlist : Option (List half_entry)) (calls : List db_call),
        sym_chase db s fuel n0 symlist calls = none) ∧
    ((¬ ∃ ms, chain_from db s n0 ms) →
      (∀ (fuel : Nat) (symlist : Option (List half_entry)) (calls : List db_call),
        sym_chase db s fuel n0 symlist calls = none) ∧
      (∀ (fuel : Nat) (pel : path_element) (rest : List path_element) (dt : Int)
        (symlist : Option (List half_entry)) (calls : List db_call),
        ¬ (pel.len = 2 ∧ pel.path.get? 0 = some '.' ∧ pel.path.get? 1 = some '.') →
        0 ≤ (db.tup_db_select_dbn_part s dt pel.text).1 →
        (db.tup_db_select_dbn_part s dt pel.text).2 = n0 →
        walk_loop db s fuel (pel :: rest) dt symlist calls = none) ∧
      (∀ (fuel : Nat) (top : List Char) (dt : Int) (path : List Char) (dbn0 : db_node)
        (symlist : Option (List half_entry)) (f : find_result) (file : List Char),
        find_dir_tupid_dt db s top fuel dt path true symlist = some (.ret f) →
        0 ≤ f.rv → f.last = some file →
        0 ≤ (db.tup_db_select_dbn s f.rv file).1 →
        (db.tup_db_select_dbn s f.rv file).2 = n0 →
        get_dbn_dt db s top fuel dt path dbn0 symlist = none)) := by
  have hnone : (¬ ∃ ms, chain_from db s n0 ms) →
      ∀ (fuel : Nat) (symlist : Option (List half_entry)) (calls : List db_call),
        sym_chase db s fuel n0 symlist calls = none := by
    intro hno fuel symlist calls
    cases h : sym_chase db s fuel n0 symlist calls with
    | none => rfl
    | some r =>
      obtain ⟨ms, hc, _⟩ := sym_chase_some_chain db s hok fuel n0 symlist calls r h
      exact absurd ⟨ms, hc⟩ hno
  refine ⟨?_, ?_, ?_, ?_⟩
  · intro symlist calls
    constructor
    · rintro ⟨fuel, h⟩
      cases hr : sym_chase db s fuel n0 symlist calls with
      | none => exact absurd hr h
      | some r =>
        obtain ⟨ms, hc, _⟩ := sym_chase_some_chain db s hok fuel n0 symlist calls r hr
        exact ⟨ms, hc⟩
    · rintro ⟨ms, hc⟩
      refine ⟨ms.length, ?_⟩
      rw [sym_chase_chain db s ms n0 ms.length symlist calls hc (le_refl _)]
      simp
  · intro ms hc fuel symlist calls
    constructor
    · intro hf
      exact ⟨_, sym_chase_chain db s ms n0 fuel symlist calls hc hf, rfl, rfl⟩
    · intro hf
      cases hr : sym_chase db s fuel n0 symlist calls with
      | none => rfl
      | some r =>
        obtain ⟨ms1, hc1, hl1⟩ := sym_chase_some_chain db s hok fuel n0 symlist calls r hr
        have := chain_from_unique db s ms ms1 n0 hc hc1
        subst this
        omega
  · intro hs hself
    exact hnone (no_chain_of_self_target db s n0 hs hself)
  · intro hno
    refine ⟨hnone hno, ?_, ?_⟩
    · intro fuel pel rest dt symlist calls hnd hrc hn
      rw [walk_loop, if_neg hnd]
      simp only [not_lt.2 hrc, ↓reduceIte, hn]
      rw [hnone hno]
    · intro fuel top dt path dbn0 symlist f file hf hrv hlast hrc hn
      simp only [get_dbn_dt, hf, not_lt.2 hrv, ↓reduceIte, hlast, not_lt.2 hrc, hn]
      rw [hnone hno]

/-- C17, on two stores: in `chain_store` the chain `a → b → c` takes two hops (one hop
is not enough, two are); in `loop_store` the node `loop` is its own target and the
lookup of the leaf `loop` has not returned after 0 or after 1000 hops. -/
theorem sym_chase_terminates_iff_witness :
    sym_chase spec_db chain_store 1 ⟨10, 1, "a".toList, 0, 11⟩ none [] = none ∧
    (∃ r, sym_chase spec_db chain_store 2 ⟨10, 1, "a".toList, 0, 11⟩ none [] = some r ∧
      r.rc = 0 ∧ r.dbn = ⟨12, 1, "c".toList, 2, -1⟩) ∧
    sym_chase spec_db loop_store 1000 ⟨20, 1, "loop".toList, 0, 20⟩ none [] = none ∧
    get_dbn_dt spec_db loop_store [] 0 1 "loop".toList no_node none = none ∧
    get_dbn_dt spec_db loop_store [] 1000 1 "loop".toList no_node none = none :=
  ⟨((sym_chase_terminates_iff spec_db chain_store ⟨10, 1, "a".toList, 0, 11⟩
      (fun _ => le_refl _)).2.1
      [⟨11, 1, "b".toList, 0, 12⟩, ⟨12, 1, "c".toList, 2, -1⟩] (by decide) 1 none []).2
      (by decide),
   ((sym_chase_terminates_iff spec_db chain_store ⟨10, 1, "a".toList, 0, 11⟩
      (fun _ => le_refl _)).2.1
      [⟨11, 1, "b".toList, 0, 12⟩, ⟨12, 1, "c".toList, 2, -1⟩] (by decide) 2 none []).1
      (by decide),
   (sym_chase_terminates_iff spec_db loop_store ⟨20, 1, "loop".toList, 0, 20⟩
      (fun _ => le_refl _)).2.2.1 (by decide) (by decide) 1000 none [],
   ((sym_chase_terminates_iff spec_db loop_store ⟨20, 1, "loop".toList, 0, 20⟩
      (fun _ => le_refl _)).2.2.2
      (no_chain_of_self_target spec_db loop_store _ (by decide) (by decide))).2.2
      0 [] 1 "loop".toList no_node none ⟨1, some "loop".toList, none, []⟩ "loop".toList
      (by decide) (by decide) (by decide) (by decide) (by decide),
   ((sym_chase_terminates_iff spec_db loop_store ⟨20, 1, "loop".toList, 0, 20⟩
      (fun _ => le_refl _)).2.2.2
      (no_chain_of_self_target spec_db loop_store _ (by decide) (by decide))).2.2
      1000 [] 1 "loop".toList no_node none ⟨1, some "loop".toList, none, []⟩ "loop".toList
      (by decide) (by decide) (by decide) (by decide) (by decide)⟩


/-! ## Root-anchored paths inside the tree (lines 276-301) -/

/-- The scanner's result does not depend on the iteration bound once the bound
exceeds the length of the string. -/
theorem gpe_loop_fuel (root : Bool) :
    ∀ (f1 f2 : Nat) (p : List Char) (num : Nat) (pl : List path_element),
      p.length < f1 → p.length < f2 →
      gpe_loop root f1 p num pl = gpe_loop root f2 p num pl := by
  intro f1
  induction f1 with
  | zero => intro f2 p num pl h; omega
  | succ f1 ih =>
    intro f2 p num pl h1 h2
    cases f2 with
    | zero => omega
    | succ f2 =>
      rcases scan_cases p with ⟨h0, _⟩ | ⟨c0, rest, h0, _, hl⟩
      · rw [gpe_loop_succ_nil root f1 p num pl h0, gpe_loop_succ_nil root f2 p num pl h0]
      · rw [gpe_loop_succ_cons root f1 p num pl c0 rest h0,
          gpe_loop_succ_cons root f2 p num pl c0 rest h0]
        have e : ∀ n l, gpe_loop root f1 ((c0 :: rest).drop (seg_len (c0 :: rest))) n l =
            gpe_loop root f2 ((c0 :: rest).drop (seg_len (c0 :: rest))) n l :=
          fun n l => ih f2 _ n l (by omega) (by omega)
        simp only [e]

theorem gpe_loop_slash (root : Bool) (fuel : Nat) (p : List Char) (num : Nat)
    (pl : List path_element) :
    gpe_loop root (fuel + 1) ('/' :: p) num pl = gpe_loop root (fuel + 1) p num pl := by
  have h : skip_slashes ('/' :: p) = skip_slashes p := by simp [skip_slashes]
  simp only [gpe_loop, h]

theorem root_of_tail_cases (ts : List (List Char)) (tail : List Char)
    (ht : tail = [] ∨ ∃ r, tail = '/' :: r) :
    root_of ts ++ tail = [] ∨ ∃ r, root_of ts ++ tail = '/' :: r := by
  cases ts with
  | nil => simpa [root_of] using ht
  | cons t ts => right; exact ⟨_, rfl⟩

/-- Scanning the components of a plain tree root appends one element per component. -/
theorem gpe_loop_top (root : Bool) (tail : List Char) (ht : tail = [] ∨ ∃ r, tail = '/' :: r) :
    ∀ (segs : List (List Char)) (fuel num : Nat) (pl : List path_element),
      (∀ t ∈ segs, plain_seg t) → (root_of segs ++ tail).length < fuel →
      gpe_loop root fuel (root_of segs ++ tail) num pl =
        gpe_loop root (tail.length + 1) tail (num + segs.length) (pl ++ top_pels segs tail) := by
  intro segs
  induction segs with
  | nil =>
    intro fuel num pl _ hf
    simp only [root_of, List.nil_append, List.length_nil, Nat.add_zero, top_pels,
      List.append_nil] at hf ⊢
    exact gpe_loop_fuel root _ _ _ _ _ hf (Nat.lt_succ_self _)
  | cons t ts ih =>
    intro fuel num pl hplain hf
    obtain ⟨hne, hns, hnd⟩ := hplain t (List.mem_cons_self _ _)
    have hplain' : ∀ u ∈ ts, plain_seg u := fun u hu => hplain u (List.mem_cons_of_mem _ hu)
    cases t with
    | nil => exact absurd rfl hne
    | cons c0 t1 =>
      have hc0 : c0 ≠ '/' := fun e => hns (by simp [e])
      have hc0d : c0 ≠ '.' := fun e => hnd (by simp [e])
      cases fuel with
      | zero => omega
      | succ fuel =>
        have hskip : skip_slashes (root_of ((c0 :: t1) :: ts) ++ tail) =
            c0 :: (t1 ++ (root_of ts ++ tail)) := by
          simp [root_of, skip_slashes, hc0]
        have hlen : seg_len (c0 :: (t1 ++ (root_of ts ++ tail))) = (c0 :: t1).length := by
          have := seg_len_append (c0 :: t1) (root_of ts ++ tail) hns
            (root_of_tail_cases ts tail ht)
          simpa using this
        have htake : (c0 :: (t1 ++ (root_of ts ++ tail))).take (c0 :: t1).length = c0 :: t1 := by
          rw [← List.cons_append, List.take_left']
          rfl
        have hdrop : (c0 :: (t1 ++ (root_of ts ++ tail))).drop (c0 :: t1).length =
            root_of ts ++ tail := by
          rw [← List.cons_append, List.drop_left']
          rfl
        have h1 : ¬ (c0 :: t1) = dot := by
          intro e; simp only [dot, List.cons.injEq] at e; exact hc0d e.1
        have h2 : ¬ (c0 :: t1) = dotdot := by
          intro e; simp only [dotdot, List.cons.injEq] at e; exact hc0d e.1
        have h3 : ¬ hidden_seg (c0 :: t1) := by
          intro e; exact hc0d (by simpa using e.1)
        rw [gpe_loop_succ_cons root fuel _ num pl c0 _ hskip]
        simp only [hlen, htake, hdrop, h1, h2, h3, ↓reduceIte]
        have hf' : (root_of ts ++ tail).length < fuel := by
          simp only [root_of, List.cons_append, List.append_assoc, List.length_cons,
            List.length_append] at hf ⊢
          omega
        rw [ih fuel (num + 1) _ hplain' hf']
        simp only [List.length_cons, top_pels, List.append_assoc, List.singleton_append,
          List.cons_append]
        congr 1
        omega

/-- The elements the counter `num_elements` does not cover stay at the front of the
list for the rest of the scan. -/
theorem gpe_loop_keeps_front (root : Bool) :
    ∀ (fuel : Nat) (p : List Char) (num : Nat) (pl : List path_element),
      num ≤ pl.length → (gpe_loop root fuel p num pl).2.is_hidden = false →
      pl.take (pl.length - num) <+: (gpe_loop root fuel p num pl).2.path_list := by
  intro fuel
  induction fuel with
  | zero => intro p num pl _ _; exact List.take_prefix _ _
  | succ fuel ih =>
    intro p num pl hnum
    rcases scan_cases p with ⟨h0, _⟩ | ⟨c0, rest, h0, _, _⟩
    · rw [gpe_loop_succ_nil root fuel p num pl h0]
      intro _; exact List.take_prefix _ _
    · rw [gpe_loop_succ_cons root fuel p num pl c0 rest h0]
      dsimp only
      split_ifs with h1 h2 h3 h4
      · exact ih _ _ _ hnum
      · intro hh
        have hl : pl.dropLast.length = pl.length - 1 := by simp
        have hn1 : num - 1 ≤ pl.dropLast.length := by omega
        have := ih _ (num - 1) pl.dropLast hn1 hh
        have e : pl.dropLast.take (pl.dropLast.length - (num - 1)) =
            pl.take (pl.length - num) := by
          rw [hl, List.dropLast_eq_take, List.take_take]
          congr 1
          omega
        rw [e] at this
        exact this
      · intro hh
        have hz : num = 0 := by omega
        subst hz
        have := ih _ 0 (pl ++ [⟨c0 :: rest, seg_len (c0 :: rest)⟩]) (Nat.zero_le _) hh
        simp only [Nat.sub_zero, List.take_length] at this ⊢
        exact (List.prefix_append _ _).trans this
      · intro hh; simp at hh
      · intro hh
        have := ih _ (num + 1) (pl ++ [⟨c0 :: rest, seg_len (c0 :: rest)⟩])
          (by simp; omega) hh
        have e : (pl ++ [(⟨c0 :: rest, seg_len (c0 :: rest)⟩ : path_element)]).take
            ((pl ++ [(⟨c0 :: rest, seg_len (c0 :: rest)⟩ : path_element)]).length - (num + 1)) =
            pl.take (pl.length - num) := by
          rw [List.length_append, List.length_singleton, Nat.add_sub_add_right,
            List.take_append_of_le_length (Nat.sub_le _ _)]
        rw [e] at this
        exact this

/-- A scan that neither hides the path nor keeps a `..` runs the same way on top of a
list of earlier elements. -/
theorem gpe_loop_offset (r1 r2 : Bool) (pl0 : List path_element) (k : Nat) :
    ∀ (fuel : Nat) (p : List Char) (num : Nat) (pl : List path_element),
      pl.length = num →
      (gpe_loop r1 fuel p num pl).2.is_hidden = false →
      (∀ x ∈ (gpe_loop r1 fuel p num pl).2.path_list, x.text ≠ dotdot) →
      gpe_loop r2 fuel p (k + num) (pl0 ++ pl) =
        (0, ⟨pl0 ++ (gpe_loop r1 fuel p num pl).2.path_list, r2, false⟩) := by
  intro fuel
  induction fuel with
  | zero => intro p num pl _ _ _; rfl
  | succ fuel ih =>
    intro p num pl hlen
    rcases scan_cases p with ⟨h0, _⟩ | ⟨c0, rest, h0, _, _⟩
    · rw [gpe_loop_succ_nil r1 fuel p num pl h0, gpe_loop_succ_nil r2 fuel p _ _ h0]
      intro _ _; rfl
    · rw [gpe_loop_succ_cons r1 fuel p num pl c0 rest h0,
        gpe_loop_succ_cons r2 fuel p _ _ c0 rest h0]
      dsimp only
      by_cases h1 : (c0 :: rest).take (seg_len (c0 :: rest)) = dot
      · simp only [if_pos h1]
        exact ih _ num pl hlen
      · simp only [if_neg h1]
        by_cases h2 : (c0 :: rest).take (seg_len (c0 :: rest)) = dotdot
        · simp only [if_pos h2]
          by_cases h3 : num ≠ 0
          · have hk : k + num ≠ 0 := by omega
            have hpl : pl ≠ [] := by
              intro e; rw [e] at hlen; exact h3 hlen.symm
            simp only [if_pos h3, if_pos hk]
            intro hh hd
            have e1 : (pl0 ++ pl).dropLast = pl0 ++ pl.dropLast :=
              List.dropLast_append_of_ne_nil _ hpl
            have e2 : k + num - 1 = k + (num - 1) := by omega
            rw [e1, e2]
            exact ih _ (num - 1) pl.dropLast (by simp [hlen]) hh hd
          · have hz : num = 0 := by omega
            subst hz
            simp only [if_neg h3]
            intro hh hd
            exfalso
            have hpre := gpe_loop_keeps_front r1 fuel
              ((c0 :: rest).drop (seg_len (c0 :: rest))) 0
              (pl ++ [⟨c0 :: rest, seg_len (c0 :: rest)⟩]) (Nat.zero_le _) hh
            simp only [Nat.sub_zero, List.take_length] at hpre
            have hmem : (⟨c0 :: rest, seg_len (c0 :: rest)⟩ : path_element) ∈
                (gpe_loop r1 fuel ((c0 :: rest).drop (seg_len (c0 :: rest))) 0
                  (pl ++ [⟨c0 :: rest, seg_len (c0 :: rest)⟩])).2.path_list :=
              hpre.subset (by simp)
            exact hd _ hmem h2
        · simp only [if_neg h2]
          by_cases h3 : hidden_seg ((c0 :: rest).take (seg_len (c0 :: rest)))
          · simp only [if_pos h3]
            intro hh; simp at hh
          · simp only [if_neg h3]
            intro hh hd
            have e1 : pl0 ++ pl ++ [(⟨c0 :: rest, seg_len (c0 :: rest)⟩ : path_element)] =
                pl0 ++ (pl ++ [⟨c0 :: rest, seg_len (c0 :: rest)⟩]) := List.append_assoc _ _ _
            have e2 : k + num + 1 = k + (num + 1) := by omega
            rw [e1, e2]
            exact ih _ (num + 1) _ (by simp [hlen]) hh hd

theorem strncmp_same_front : ∀ (t a b : List Char), strncmp (t ++ a) (t ++ b) t.length = 0 := by
  intro t
  induction t with
  | nil => intro a b; simp [strncmp]
  | cons c t ih => intro a b; simp [strncmp, ih]

/-- The root loop removes exactly the elements of the root's components. -/
theorem root_loop_top (tail : List Char) (rest : List path_element) :
    ∀ segs : List (List Char), segs ≠ [] →
      root_loop (root_of segs) (top_pels segs tail ++ rest) = some rest := by
  intro segs
  induction segs with
  | nil => intro h; exact absurd rfl h
  | cons t ts ih =>
    intro _
    have hs : strncmp (t ++ root_of ts) (t ++ (root_of ts ++ tail)) t.length = 0 :=
      strncmp_same_front t _ _
    have hd : (t ++ root_of ts).drop t.length = root_of ts := List.drop_left' rfl
    cases ts with
    | nil =>
      simp only [root_of, List.append_nil, List.nil_append] at hs hd ⊢
      simp [root_loop, top_pels, root_of, hs]
    | cons u us =>
      have hne : root_of (u :: us) ≠ [] := by simp [root_of]
      have := ih (by simp)
      simp only [root_of, top_pels, List.cons_append, root_loop, ne_eq, not_true_eq_false,
        ↓reduceIte]
      simp only [root_of] at hs hd hne this
      rw [if_neg (by simpa using hs), hd, if_pos hne]
      simpa [top_pels, root_of] using this


theorem root_of_head {segs : List (List Char)} (h : segs ≠ []) (tail : List Char) :
    (root_of segs ++ tail).head? = some '/' := by
  cases segs with
  | nil => exact absurd rfl h
  | cons t ts => rfl

/-- The tokenization of a path made of a plain tree root, a slash and a relative
path that neither is hidden nor keeps a `..`: the elements of the root's components
followed by the elements of the relative path. -/
theorem get_path_elements_under_root (segs : List (List Char)) (rel : List Char)
    (hsegs : segs ≠ []) (hplain : ∀ t ∈ segs, plain_seg t)
    (hhid : (get_path_elements rel).2.is_hidden = false)
    (hdd : ∀ x ∈ (get_path_elements rel).2.path_list, x.text ≠ dotdot) :
    get_path_elements (root_of segs ++ '/' :: rel) =
      (0, ⟨top_pels segs ('/' :: rel) ++ (get_path_elements rel).2.path_list, true, false⟩) := by
  have hroot : decide ((root_of segs ++ '/' :: rel).head? = some '/') = true := by
    rw [root_of_head hsegs]; rfl
  unfold get_path_elements at hhid hdd ⊢
  rw [hroot, gpe_loop_top true ('/' :: rel) (Or.inr ⟨rel, rfl⟩) segs _ 0 [] hplain
    (Nat.lt_succ_self _)]
  rw [List.length_cons, gpe_loop_slash,
    gpe_loop_fuel true (rel.length + 1 + 1) (rel.length + 1) rel _ _ (by omega) (by omega)]
  have := gpe_loop_offset (decide (rel.head? = some '/')) true (top_pels segs ('/' :: rel))
    segs.length (rel.length + 1) rel 0 [] rfl hhid hdd
  simpa using this

theorem get_path_elements_root_only (segs : List (List Char))
    (hsegs : segs ≠ []) (hplain : ∀ t ∈ segs, plain_seg t) :
    get_path_elements (root_of segs) = (0, ⟨top_pels segs [], true, false⟩) := by
  have hroot : decide ((root_of segs).head? = some '/') = true := by
    have := root_of_head hsegs []
    rw [List.append_nil] at this
    rw [this]; rfl
  unfold get_path_elements
  have h := gpe_loop_top true [] (Or.inl rfl) segs ((root_of segs).length + 1) 0 [] hplain
    (by simp)
  simp only [List.append_nil, List.length_nil, Nat.zero_add, List.nil_append] at h
  rw [hroot, h, gpe_loop_succ_nil true 0 [] _ _ rfl]

/-- C18 as stated fails for tree roots that are absolute, free of `.` and `..` and
without trailing slash but have a component beginning with `'.'` or a doubled slash.
With the root `/home/.cfg` every path under it is hidden, and with the root `/a//b`
the root loop stops at the doubled slash: both root-anchored paths resolve to the
sentinel 0 without a leaf, while the relative path `src/main.c` resolves from
directory 1 to directory 3 with the leaf `main.c`. -/
theorem find_dir_tupid_dt_root_not_plain :
    find_dir_tupid_dt spec_db tree_store "/home/.cfg".toList 0 1
        "/home/.cfg/src/main.c".toList true none = some (.ret ⟨0, none, none, []⟩) ∧
    find_dir_tupid_dt spec_db tree_store "/a//b".toList 0 1
        "/a//b/src/main.c".toList true none = some (.ret ⟨0, none, none, []⟩) ∧
    find_dir_tupid_dt spec_db tree_store "/home/.cfg".toList 0 1
        "src/main.c".toList true none =
      some (.ret ⟨3, some "main.c".toList, none, [db_call.select_dbn_part 1 "src".toList]⟩) ∧
    find_dir_tupid_dt spec_db tree_store "/home/.cfg".toList 0 1
        "/home/.cfg".toList true none = some (.ret ⟨0, none, none, []⟩) := by
  decide

/-- C18, amended: let the tree root be `/s1/.../sk` with `k ≥ 1` components that are
not empty, hold no `'/'` and do not begin with `'.'` (an absolute path without
trailing or doubled slash and without `.`, `..` or hidden component).  For every
store, start directory `dt`, hop bound, log and leaf request, and every relative path
`rel` whose tokenization is not hidden and keeps no `..`, `find_dir_tupid_dt` on the
root followed by `'/'` and `rel` gives exactly what it gives on `rel`: the same return
value, the same leaf pointer, the same log and the same store queries; and resolving
the root itself returns `dt`. -/
theorem find_dir_tupid_dt_under_root {σ : Type} (db : Db σ) (s : σ)
    (segs : List (List Char)) (rel : List Char) (fuel : Nat) (dt : Int) (want_last : Bool)
    (symlist : Option (List half_entry))
    (hsegs : segs ≠ []) (hplain : ∀ t ∈ segs, plain_seg t)
    (hrel : rel.head? ≠ some '/')
    (hhid : (get_path_elements rel).2.is_hidden = false)
    (hdd : ∀ t ∈ (get_path_elements rel).2.texts, t ≠ dotdot) :
    find_dir_tupid_dt db s (root_of segs) fuel dt (root_of segs ++ '/' :: rel) want_last
        symlist =
      find_dir_tupid_dt db s (root_of segs) fuel dt rel want_last symlist ∧
    find_dir_tupid_dt db s (root_of segs) fuel dt (root_of segs) want_last symlist =
      some (.ret ⟨dt, none, symlist, []⟩) := by
  have hdd' : ∀ x ∈ (get_path_elements rel).2.path_list, x.text ≠ dotdot :=
    fun x hx => hdd _ (List.mem_map.2 ⟨x, hx, rfl⟩)
  have hrc : ¬ (get_path_elements rel).1 < 0 := by rw [get_path_elements_rc]; decide
  have hnr : (get_path_elements rel).2.is_root = false := by
    have := (gpe_loop_rc (decide (rel.head? = some '/')) (rel.length + 1) rel 0 []).2
    have h2 : (get_path_elements rel).2.is_root = decide (rel.head? = some '/') := this
    rw [h2]
    simpa using hrel
  constructor
  · have e := get_path_elements_under_root segs rel hsegs hplain hhid hdd'
    have hl := root_loop_top ('/' :: rel) (get_path_elements rel).2.path_list segs hsegs
    simp only [find_dir_tupid_dt, e, hl, hrc, hhid, hnr]
    simp
  · have e := get_path_elements_root_only segs hsegs hplain
    have hl := root_loop_top [] [] segs hsegs
    rw [List.append_nil] at hl
    simp only [find_dir_tupid_dt, e, hl]
    simp

/-- C18 amended, with the tree root `/home/user` on the store `tree_store`: the path
`/home/user/src/sub/deep.c` and the path `src/sub/deep.c` both resolve from directory
1 to directory 8 with the leaf `deep.c`, and `/home/user` resolves to directory 1. -/
theorem find_dir_tupid_dt_under_root_witness :
    find_dir_tupid_dt spec_db tree_store "/home/user".toList 0 1
        "/home/user/src/sub/deep.c".toList true none =
      find_dir_tupid_dt spec_db tree_store "/home/user".toList 0 1
        "src/sub/deep.c".toList true none ∧
    find_dir_tupid_dt spec_db tree_store "/home/user".toList 0 1
        "/home/user".toList true none = some (.ret ⟨1, none, none, []⟩) ∧
    find_dir_tupid_dt spec_db tree_store "/home/user".toList 0 1
        "src/sub/deep.c".toList true none =
      some (.ret ⟨8, some "deep.c".toList, none,
        [db_call.select_dbn_part 1 "src".toList, db_call.select_dbn_part 3 "sub".toList]⟩) :=
  ⟨(find_dir_tupid_dt_under_root spec_db tree_store ["home".toList, "user".toList]
      "src/sub/deep.c".toList 0 1 true none (by decide) (by decide) (by decide) (by decide)
      (by decide)).1,
   (find_dir_tupid_dt_under_root spec_db tree_store ["home".toList, "user".toList]
      "src/sub/deep.c".toList 0 1 true none (by decide) (by decide) (by decide) (by decide)
      (by decide)).2,
   by decide⟩


end Tup
